import Mathlib

/-!
Shallow embedding of the agentx wire codec (byte-order primitives, the
encoding types ID / OctetString / Context / SearchRange / Value / VarBind and
their lists, the PDU header and all 18 PDU variants), together with theorems
about the codec's size, round-trip, framing and error-handling behaviour.

Conventions of the embedding:
* a byte buffer is a `List Nat` (each element a byte value; decoders are
  defensive and never rely on elements being `< 256`);
* Rust `Result<_, Error>` becomes `Option` (`none` is the `InvalidData`
  error); a Rust panic on the encode side (the `expect` in `ID::to_bytes`)
  is also modelled as `none`, with a comment at the definition;
* signed 32-bit fields (`i32`) are modelled by their two's-complement bit
  pattern as a `Nat < 2^32`; the codec only moves the bit pattern;
* arithmetic follows release-mode Rust: overflow wraps (`% 2^32`);
* `std::time::Duration` is modelled as seconds plus nanoseconds.
-/

namespace AgentX

/-- Byte order used when serializing and deserializing data. -/
inductive ByteOrder where
  | LittleEndian : ByteOrder
  | BigEndian : ByteOrder
deriving DecidableEq

/-- A wire buffer: a list of byte values. -/
abbrev Bytes := List Nat

/-- Rust `b.get(i..)`: `Some` iff `i ≤ b.len()`. -/
def sliceFrom (b : Bytes) (i : Nat) : Option Bytes :=
  if i ≤ b.length then some (b.drop i) else none

/-- Rust `b.get(..j)`: `Some` iff `j ≤ b.len()`. -/
def sliceTo (b : Bytes) (j : Nat) : Option Bytes :=
  if j ≤ b.length then some (b.take j) else none

/-- Rust `b.get(i..j)`: `Some` iff `i ≤ j ≤ b.len()`. -/
def sliceRange (b : Bytes) (i j : Nat) : Option Bytes :=
  if i ≤ j ∧ j ≤ b.length then some ((b.take j).drop i) else none

/-- `u16_to_bytes` of `lib.rs`: two bytes in the requested order. -/
def u16_to_bytes (v : Nat) (bo : ByteOrder) : Bytes :=
  let w := v % 2 ^ 16
  match bo with
  | .BigEndian => [w / 2 ^ 8, w % 2 ^ 8]
  | .LittleEndian => [w % 2 ^ 8, w / 2 ^ 8]

/-- `bytes_to_u16` of `lib.rs`: reads the first two bytes, else errors. -/
def bytes_to_u16 (b : Bytes) (bo : ByteOrder) : Option Nat :=
  match b with
  | b0 :: b1 :: _ =>
    match bo with
    | .BigEndian => some (b0 * 2 ^ 8 + b1)
    | .LittleEndian => some (b1 * 2 ^ 8 + b0)
  | _ => none

/-- `u32_to_bytes` of `lib.rs`. -/
def u32_to_bytes (v : Nat) (bo : ByteOrder) : Bytes :=
  let w := v % 2 ^ 32
  match bo with
  | .BigEndian => [w / 2 ^ 24, w / 2 ^ 16 % 2 ^ 8, w / 2 ^ 8 % 2 ^ 8, w % 2 ^ 8]
  | .LittleEndian => [w % 2 ^ 8, w / 2 ^ 8 % 2 ^ 8, w / 2 ^ 16 % 2 ^ 8, w / 2 ^ 24]

/-- `bytes_to_u32` of `lib.rs`: reads the first four bytes, else errors. -/
def bytes_to_u32 (b : Bytes) (bo : ByteOrder) : Option Nat :=
  match b with
  | b0 :: b1 :: b2 :: b3 :: _ =>
    match bo with
    | .BigEndian => some (b0 * 2 ^ 24 + b1 * 2 ^ 16 + b2 * 2 ^ 8 + b3)
    | .LittleEndian => some (b3 * 2 ^ 24 + b2 * 2 ^ 16 + b1 * 2 ^ 8 + b0)
  | _ => none

/-- `u64_to_bytes` of `lib.rs`. -/
def u64_to_bytes (v : Nat) (bo : ByteOrder) : Bytes :=
  let w := v % 2 ^ 64
  match bo with
  | .BigEndian =>
    [w / 2 ^ 56, w / 2 ^ 48 % 2 ^ 8, w / 2 ^ 40 % 2 ^ 8, w / 2 ^ 32 % 2 ^ 8,
     w / 2 ^ 24 % 2 ^ 8, w / 2 ^ 16 % 2 ^ 8, w / 2 ^ 8 % 2 ^ 8, w % 2 ^ 8]
  | .LittleEndian =>
    [w % 2 ^ 8, w / 2 ^ 8 % 2 ^ 8, w / 2 ^ 16 % 2 ^ 8, w / 2 ^ 24 % 2 ^ 8,
     w / 2 ^ 32 % 2 ^ 8, w / 2 ^ 40 % 2 ^ 8, w / 2 ^ 48 % 2 ^ 8, w / 2 ^ 56]

/-- `bytes_to_u64` of `lib.rs`: reads the first eight bytes, else errors. -/
def bytes_to_u64 (b : Bytes) (bo : ByteOrder) : Option Nat :=
  match b with
  | b0 :: b1 :: b2 :: b3 :: b4 :: b5 :: b6 :: b7 :: _ =>
    match bo with
    | .BigEndian =>
      some (b0 * 2 ^ 56 + b1 * 2 ^ 48 + b2 * 2 ^ 40 + b3 * 2 ^ 32 +
            b4 * 2 ^ 24 + b5 * 2 ^ 16 + b6 * 2 ^ 8 + b7)
    | .LittleEndian =>
      some (b7 * 2 ^ 56 + b6 * 2 ^ 48 + b5 * 2 ^ 40 + b4 * 2 ^ 32 +
            b3 * 2 ^ 24 + b2 * 2 ^ 16 + b1 * 2 ^ 8 + b0)
  | _ => none

/-- `i32_to_bytes` of `lib.rs`; the `i32` is carried as its bit pattern, so
this is the same byte mapping as `u32_to_bytes`. -/
def i32_to_bytes (v : Nat) (bo : ByteOrder) : Bytes := u32_to_bytes v bo

/-- `bytes_to_i32` of `lib.rs` on bit patterns. -/
def bytes_to_i32 (b : Bytes) (bo : ByteOrder) : Option Nat := bytes_to_u32 b bo

/-- `std::time::Duration`: whole seconds plus nanoseconds. -/
structure Duration where
  secs : Nat
  nanos : Nat
deriving DecidableEq

/-- `Duration::as_secs`. -/
def Duration.as_secs (d : Duration) : Nat := d.secs

/-- `Duration::as_millis`. -/
def Duration.as_millis (d : Duration) : Nat := d.secs * 1000 + d.nanos / 1000000

/-- `Duration::from_secs`. -/
def Duration.from_secs (n : Nat) : Duration := ⟨n, 0⟩

/-- `Duration::from_millis`. -/
def Duration.from_millis (n : Nat) : Duration := ⟨n / 1000, n % 1000 * 1000000⟩

/-- OID of `encodings/id.rs`.  `incl` is the source's `include` field (a Lean
keyword).  `sub_ids` is kept normalized by the constructors, exactly as in the
source. -/
structure ID where
  orig_n_subid : Nat
  incl : Nat
  sub_ids : List Nat
deriving DecidableEq

/-- `normalize` of `encodings/id.rs`: a nonzero prefix byte `pfx` prepends the
internet prefix `1.3.6.1.pfx`. -/
def normalize (sub_ids : List Nat) (pfx : Nat) : List Nat :=
  if pfx ≠ 0 then [1, 3, 6, 1, pfx] ++ sub_ids else sub_ids

/-- `ID::is_null`. -/
def ID.is_null (id : ID) : Bool := id.sub_ids.isEmpty

/-- `ID::to_bytes`.  The source `expect`s that `sub_ids.len()` fits in a `u8`
and panics otherwise; the panic is modelled as `none`. -/
def ID.to_bytes (id : ID) (bo : ByteOrder) : Option Bytes :=
  if id.sub_ids.length ≤ 255 then
    some ([id.sub_ids.length, 0, id.incl, 0] ++
          (id.sub_ids.map (fun s => u32_to_bytes s bo)).flatten)
  else none

/-- `ID::byte_size`: computed from the *original* wire sub-id count. -/
def ID.byte_size (id : ID) : Nat := 4 + 4 * id.orig_n_subid

/-- The sub-identifier read loop of `ID::from_bytes`. -/
def read_sub_ids (n : Nat) (b : Bytes) (bo : ByteOrder) : Option (List Nat) :=
  match n with
  | 0 => some []
  | n + 1 => do
    let v ← bytes_to_u32 b bo
    let tl ← read_sub_ids n (b.drop 4) bo
    some (v :: tl)

/-- `ID::from_bytes`. -/
def ID.from_bytes (b : Bytes) (bo : ByteOrder) : Option ID :=
  match b with
  | n_subid :: pfx :: incl :: _ :: rest =>
    if rest.length < n_subid * 4 then none
    else do
      let sub_ids ← read_sub_ids n_subid rest bo
      some ⟨n_subid, incl, normalize sub_ids pfx⟩
  | _ => none

/-- The source's `PartialEq for ID` compares only `sub_ids` (not `include`,
not the stored original count). -/
def ID.beq (a b : ID) : Bool := a.sub_ids == b.sub_ids

/-- `TryFrom<Vec<u32>> for ID`. -/
def ID.try_from (value : List Nat) : Option ID :=
  if value.length ≤ 255 then some ⟨value.length, 0, value⟩ else none

/-- Zero padding appended to reach a multiple of four bytes. -/
def pad4 (n : Nat) : Nat := (4 - n % 4) % 4

/-- Octet String of `encodings/octetstring.rs`.  The Rust field is a `String`;
it is modelled by its UTF-8 byte sequence. -/
structure OctetString where
  content : List Nat
deriving DecidableEq

/-- Is `c` a UTF-8 continuation byte? -/
def utf8_cont (c : Nat) : Bool := 0x80 ≤ c && c ≤ 0xBF

/-- Strip one UTF-8 scalar from the front of `l`, or `none` if the front is
not a valid UTF-8 sequence (per the table in RFC 3629, as enforced by
`String::from_utf8`). -/
def utf8_step (l : List Nat) : Option (List Nat) :=
  match l with
  | [] => none
  | c :: rest =>
    if c ≤ 0x7F then some rest
    else if 0xC2 ≤ c && c ≤ 0xDF then
      match rest with
      | c1 :: r => if utf8_cont c1 then some r else none
      | [] => none
    else if c == 0xE0 then
      match rest with
      | c1 :: c2 :: r =>
        if (0xA0 ≤ c1 && c1 ≤ 0xBF) && utf8_cont c2 then some r else none
      | _ => none
    else if (0xE1 ≤ c && c ≤ 0xEC) || c == 0xEE || c == 0xEF then
      match rest with
      | c1 :: c2 :: r => if utf8_cont c1 && utf8_cont c2 then some r else none
      | _ => none
    else if c == 0xED then
      match rest with
      | c1 :: c2 :: r =>
        if (0x80 ≤ c1 && c1 ≤ 0x9F) && utf8_cont c2 then some r else none
      | _ => none
    else if c == 0xF0 then
      match rest with
      | c1 :: c2 :: c3 :: r =>
        if (0x90 ≤ c1 && c1 ≤ 0xBF) && utf8_cont c2 && utf8_cont c3 then some r
        else none
      | _ => none
    else if 0xF1 ≤ c && c ≤ 0xF3 then
      match rest with
      | c1 :: c2 :: c3 :: r =>
        if utf8_cont c1 && utf8_cont c2 && utf8_cont c3 then some r else none
      | _ => none
    else if c == 0xF4 then
      match rest with
      | c1 :: c2 :: c3 :: r =>
        if (0x80 ≤ c1 && c1 ≤ 0x8F) && utf8_cont c2 && utf8_cont c3 then some r
        else none
      | _ => none
    else none

/-- Fuelled UTF-8 validation driver; `utf8_step` consumes at least one byte
per call, so fuel equal to the list length never runs out. -/
def utf8_valid_fuel : Nat → List Nat → Bool
  | _, [] => true
  | 0, _ :: _ => false
  | fuel + 1, l =>
    match utf8_step l with
    | some r => utf8_valid_fuel fuel r
    | none => false

/-- `String::from_utf8` succeeds exactly on valid UTF-8. -/
def utf8_valid (l : List Nat) : Bool := utf8_valid_fuel l.length l

/-- `OctetString::to_bytes`: 4-byte length of the unpadded content, the
content, then zero padding to a multiple of four.  Errors when the length does
not fit a `u32`. -/
def OctetString.to_bytes (os : OctetString) (bo : ByteOrder) : Option Bytes :=
  if os.content.length < 2 ^ 32 then
    some (u32_to_bytes os.content.length bo ++ os.content ++
          List.replicate (pad4 os.content.length) 0)
  else none

/-- `OctetString::byte_size`: length field plus padded content. -/
def OctetString.byte_size (os : OctetString) : Nat :=
  4 + (os.content.length + pad4 os.content.length)

/-- `OctetString::from_bytes`: reads the length, then exactly that many
content bytes (padding is left for the caller's cursor), which must be valid
UTF-8. -/
def OctetString.from_bytes (b : Bytes) (bo : ByteOrder) : Option OctetString :=
  if b.length < 4 then none
  else do
    let length ← bytes_to_u32 b bo
    if length = 0 then some ⟨[]⟩
    else do
      let content ← sliceRange b 4 (4 + length)
      if utf8_valid content then some ⟨content⟩ else none

/-- Context of `encodings/context.rs`: a wrapped Octet String. -/
structure Context where
  os : OctetString
deriving DecidableEq

/-- `Context::to_bytes` delegates to the Octet String. -/
def Context.to_bytes (c : Context) (bo : ByteOrder) : Option Bytes :=
  c.os.to_bytes bo

/-- `Context::byte_size`. -/
def Context.byte_size (c : Context) : Nat := c.os.byte_size

/-- `Context::from_bytes`. -/
def Context.from_bytes (b : Bytes) (bo : ByteOrder) : Option Context :=
  (OctetString.from_bytes b bo).map Context.mk

/-- SearchRange of `encodings/searchrange.rs`: a start and an end OID.
`end` is a Lean keyword, hence `end_`. -/
structure SearchRange where
  start : ID
  end_ : ID
deriving DecidableEq

/-- `SearchRange::to_bytes`: the two IDs back to back. -/
def SearchRange.to_bytes (sr : SearchRange) (bo : ByteOrder) : Option Bytes := do
  let s ← sr.start.to_bytes bo
  let e ← sr.end_.to_bytes bo
  some (s ++ e)

/-- `SearchRange::from_bytes`. -/
def SearchRange.from_bytes (b : Bytes) (bo : ByteOrder) : Option SearchRange := do
  let start ← ID.from_bytes b bo
  let b ← sliceFrom b start.byte_size
  let e ← ID.from_bytes b bo
  some ⟨start, e⟩

/-- `SearchRange::byte_size`. -/
def SearchRange.byte_size (sr : SearchRange) : Nat :=
  sr.start.byte_size + sr.end_.byte_size

/-- Derived `PartialEq` on SearchRange uses the ID equality (sub-ids only). -/
def SearchRange.beq (a b : SearchRange) : Bool :=
  ID.beq a.start b.start && ID.beq a.end_ b.end_

/-- SearchRangeList of `encodings/searchrange.rs`. -/
structure SearchRangeList where
  ranges : List SearchRange
deriving DecidableEq

/-- `SearchRangeList::to_bytes`: concatenation of the element encodings. -/
def SearchRangeList.to_bytes (srl : SearchRangeList) (bo : ByteOrder) :
    Option Bytes :=
  srl.ranges.foldr
    (fun sr acc => do
      let e ← sr.to_bytes bo
      let tl ← acc
      some (e ++ tl))
    (some [])

/-- The decode loop of `SearchRangeList::from_bytes`: consume ranges until the
slice is exhausted, advancing by each range's reported size. -/
def SearchRangeList.from_bytes (b : Bytes) (bo : ByteOrder) :
    Option SearchRangeList :=
  if hne : b.isEmpty then some ⟨[]⟩
  else
    match SearchRange.from_bytes b bo with
    | none => none
    | some sr =>
      match h2 : sliceFrom b sr.byte_size with
      | none => none
      | some b2 =>
        match SearchRangeList.from_bytes b2 bo with
        | none => none
        | some tl => some ⟨sr :: tl.ranges⟩
termination_by b.length
decreasing_by
  obtain ⟨hle, rfl⟩ : sr.byte_size ≤ b.length ∧ b2 = b.drop sr.byte_size := by
    have h2c := h2
    unfold sliceFrom at h2c
    split at h2c
    · exact ⟨by assumption, by simpa using h2c.symm⟩
    · simp at h2c
  have hpos : 0 < sr.byte_size := by
    unfold SearchRange.byte_size ID.byte_size
    omega
  simp only [List.length_drop]
  have hblen : 0 < b.length := by
    cases b
    · simp at hne
    · simp
  omega

/-- Derived list equality over `SearchRange.beq`. -/
def SearchRangeList.beq (a b : SearchRangeList) : Bool :=
  List.all₂ SearchRange.beq a.ranges b.ranges

/-- Value of `encodings/value.rs`: 13-variant tagged union.  `i32`/`u32`/`u64`
payloads are carried as their bit patterns. -/
inductive Value where
  | Integer (v : Nat) : Value
  | OctetString (os : AgentX.OctetString) : Value
  | Null : Value
  | ObjectIdentifier (id : ID) : Value
  | IpAddress (os : AgentX.OctetString) : Value
  | Counter32 (v : Nat) : Value
  | Gauge32 (v : Nat) : Value
  | TimeTicks (v : Nat) : Value
  | Opaque (os : AgentX.OctetString) : Value
  | Counter64 (v : Nat) : Value
  | NoSuchObject : Value
  | NoSuchInstance : Value
  | EndOfMibView : Value
deriving DecidableEq

/-- `Value::byte_size`: type+reserved word plus the payload size. -/
def Value.byte_size (v : Value) : Nat :=
  4 +
    match v with
    | .Integer _ => 4
    | .OctetString o => o.byte_size
    | .Null => 0
    | .ObjectIdentifier i => i.byte_size
    | .IpAddress s => s.byte_size
    | .Counter32 _ => 4
    | .Gauge32 _ => 4
    | .TimeTicks _ => 4
    | .Opaque s => s.byte_size
    | .Counter64 _ => 8
    | .NoSuchObject => 0
    | .NoSuchInstance => 0
    | .EndOfMibView => 0

/-- Derived `PartialEq` on Value; OID payloads compare via `ID.beq`. -/
def Value.beq (a b : Value) : Bool :=
  match a, b with
  | .Integer x, .Integer y => x == y
  | .OctetString x, .OctetString y => x.content == y.content
  | .Null, .Null => true
  | .ObjectIdentifier x, .ObjectIdentifier y => ID.beq x y
  | .IpAddress x, .IpAddress y => x.content == y.content
  | .Counter32 x, .Counter32 y => x == y
  | .Gauge32 x, .Gauge32 y => x == y
  | .TimeTicks x, .TimeTicks y => x == y
  | .Opaque x, .Opaque y => x.content == y.content
  | .Counter64 x, .Counter64 y => x == y
  | .NoSuchObject, .NoSuchObject => true
  | .NoSuchInstance, .NoSuchInstance => true
  | .EndOfMibView, .EndOfMibView => true
  | _, _ => false

/-- VarBind of `encodings/value.rs`: an OID name and a value. -/
structure VarBind where
  name : ID
  data : Value
deriving DecidableEq

/-- The `(tag, payload-bytes)` pair computed by `VarBind::to_bytes`. -/
def Value.tag_and_bytes (v : Value) (bo : ByteOrder) : Option (Nat × Bytes) :=
  match v with
  | .Integer i => some (2, i32_to_bytes i bo)
  | .OctetString s => (s.to_bytes bo).map (fun d => (4, d))
  | .Null => some (5, [])
  | .ObjectIdentifier i => (i.to_bytes bo).map (fun d => (6, d))
  | .IpAddress a => (a.to_bytes bo).map (fun d => (64, d))
  | .Counter32 c => some (65, u32_to_bytes c bo)
  | .Gauge32 g => some (66, u32_to_bytes g bo)
  | .TimeTicks t => some (67, i32_to_bytes t bo)
  | .Opaque o => (o.to_bytes bo).map (fun d => (68, d))
  | .Counter64 c => some (70, u64_to_bytes c bo)
  | .NoSuchObject => some (128, [])
  | .NoSuchInstance => some (129, [])
  | .EndOfMibView => some (130, [])

/-- `VarBind::to_bytes`: tag (2 bytes), 2 reserved bytes, name, payload. -/
def VarBind.to_bytes (vb : VarBind) (bo : ByteOrder) : Option Bytes := do
  let td ← vb.data.tag_and_bytes bo
  let nb ← vb.name.to_bytes bo
  some (u16_to_bytes td.1 bo ++ [0, 0] ++ nb ++ td.2)

/-- `VarBind::byte_size`. -/
def VarBind.byte_size (vb : VarBind) : Nat :=
  vb.name.byte_size + vb.data.byte_size

/-- Derived `PartialEq` on VarBind (name via `ID.beq`). -/
def VarBind.beq (a b : VarBind) : Bool :=
  ID.beq a.name b.name && Value.beq a.data b.data

/-- The tag dispatch of `VarBind::from_bytes`: an exhaustive match over the 13
known tags; every other tag is an error.  The source is a Rust `match`; an
if-chain in the same arm order is the direct translation. -/
def Value.from_tag (ty : Nat) (b : Bytes) (bo : ByteOrder) : Option Value :=
  if ty = 2 then (bytes_to_i32 b bo).map Value.Integer
  else if ty = 4 then (OctetString.from_bytes b bo).map Value.OctetString
  else if ty = 5 then some .Null
  else if ty = 6 then (ID.from_bytes b bo).map Value.ObjectIdentifier
  else if ty = 64 then (OctetString.from_bytes b bo).map Value.IpAddress
  else if ty = 65 then (bytes_to_u32 b bo).map Value.Counter32
  else if ty = 66 then (bytes_to_u32 b bo).map Value.Gauge32
  else if ty = 67 then (bytes_to_i32 b bo).map Value.TimeTicks
  else if ty = 68 then (OctetString.from_bytes b bo).map Value.Opaque
  else if ty = 70 then (bytes_to_u64 b bo).map Value.Counter64
  else if ty = 128 then some .NoSuchObject
  else if ty = 129 then some .NoSuchInstance
  else if ty = 130 then some .EndOfMibView
  else none

/-- `VarBind::from_bytes`. -/
def VarBind.from_bytes (b : Bytes) (bo : ByteOrder) : Option VarBind :=
  if b.length < 2 then none
  else do
    let ty ← bytes_to_u16 b bo
    let b ← sliceFrom b 4
    if b.length < 1 then none
    else do
      let n_subids := b.headD 0
      let len := 4 + n_subids * 4
      let sl ← sliceTo b len
      let name ← ID.from_bytes sl bo
      let b ← sliceFrom b len
      let data ← Value.from_tag ty b bo
      some ⟨name, data⟩

/-- VarBindList of `encodings/value.rs`. -/
structure VarBindList where
  binds : List VarBind
deriving DecidableEq

/-- `VarBindList::to_bytes`: concatenation of the element encodings. -/
def VarBindList.to_bytes (vbl : VarBindList) (bo : ByteOrder) : Option Bytes :=
  vbl.binds.foldr
    (fun vb acc => do
      let e ← vb.to_bytes bo
      let tl ← acc
      some (e ++ tl))
    (some [])

/-- The decode loop of `VarBindList::from_bytes`: consume VarBinds until the
slice is exhausted, advancing by each VarBind's reported size. -/
def VarBindList.from_bytes (b : Bytes) (bo : ByteOrder) : Option VarBindList :=
  if hne : b.isEmpty then some ⟨[]⟩
  else
    match VarBind.from_bytes b bo with
    | none => none
    | some vb =>
      match h2 : sliceFrom b vb.byte_size with
      | none => none
      | some b2 =>
        match VarBindList.from_bytes b2 bo with
        | none => none
        | some tl => some ⟨vb :: tl.binds⟩
termination_by b.length
decreasing_by
  obtain ⟨hle, rfl⟩ : vb.byte_size ≤ b.length ∧ b2 = b.drop vb.byte_size := by
    have h2c := h2
    unfold sliceFrom at h2c
    split at h2c
    · exact ⟨by assumption, by simpa using h2c.symm⟩
    · simp at h2c
  have hpos : 0 < vb.byte_size := by
    unfold VarBind.byte_size ID.byte_size
    omega
  simp only [List.length_drop]
  have hblen : 0 < b.length := by
    cases b
    · simp at hne
    · simp
  omega

/-- Derived list equality over `VarBind.beq`. -/
def VarBindList.beq (a b : VarBindList) : Bool :=
  List.all₂ VarBind.beq a.binds b.binds

/-- PDU types (`Type` in `pdu.rs`; `Type` is a Lean keyword). -/
inductive PType where
  | Open | Close | Register | Unregister | Get | GetNext | GetBulk | TestSet
  | CommitSet | UndoSet | CleanupSet | Notify | Ping | IndexAllocate
  | IndexDeallocate | AddAgentCaps | RemoveAgentCaps | Response
deriving DecidableEq

/-- `Type::to_byte`. -/
def PType.to_byte (t : PType) : Nat :=
  match t with
  | .Open => 1 | .Close => 2 | .Register => 3 | .Unregister => 4
  | .Get => 5 | .GetNext => 6 | .GetBulk => 7 | .TestSet => 8
  | .CommitSet => 9 | .UndoSet => 10 | .CleanupSet => 11 | .Notify => 12
  | .Ping => 13 | .IndexAllocate => 14 | .IndexDeallocate => 15
  | .AddAgentCaps => 16 | .RemoveAgentCaps => 17 | .Response => 18

/-- `Type::from_byte`: the source's exhaustive match over 1–18 with an error
fallback, written as an if-chain in the same arm order. -/
def PType.from_byte (b : Nat) : Option PType :=
  if b = 1 then some .Open
  else if b = 2 then some .Close
  else if b = 3 then some .Register
  else if b = 4 then some .Unregister
  else if b = 5 then some .Get
  else if b = 6 then some .GetNext
  else if b = 7 then some .GetBulk
  else if b = 8 then some .TestSet
  else if b = 9 then some .CommitSet
  else if b = 10 then some .UndoSet
  else if b = 11 then some .CleanupSet
  else if b = 12 then some .Notify
  else if b = 13 then some .Ping
  else if b = 14 then some .IndexAllocate
  else if b = 15 then some .IndexDeallocate
  else if b = 16 then some .AddAgentCaps
  else if b = 17 then some .RemoveAgentCaps
  else if b = 18 then some .Response
  else none

/-- `CloseReason` of `pdu.rs`. -/
inductive CloseReason where
  | Other | ParseError | ProtocolError | Timeouts | Shutdown | ByManager
deriving DecidableEq

/-- `CloseReason::to_byte`. -/
def CloseReason.to_byte (r : CloseReason) : Nat :=
  match r with
  | .Other => 1 | .ParseError => 2 | .ProtocolError => 3
  | .Timeouts => 4 | .Shutdown => 5 | .ByManager => 6

/-- `CloseReason::from_byte`: exhaustive match over 1–6, error otherwise. -/
def CloseReason.from_byte (b : Nat) : Option CloseReason :=
  if b = 1 then some .Other
  else if b = 2 then some .ParseError
  else if b = 3 then some .ProtocolError
  else if b = 4 then some .Timeouts
  else if b = 5 then some .Shutdown
  else if b = 6 then some .ByManager
  else none

/-- `ResError` of `pdu.rs`. -/
inductive ResError where
  | NoAgentXError | OpenFailed | NotOpen | IndexWrongType
  | IndexAlreadyAllocated | IndexNoneAvailable | IndexNotAllocated
  | UnsupportedContext | DuplicateRegistration | UnknownRegistration
  | UnknownAgentCaps | ParseError | RequestDenied | ProcessingError
deriving DecidableEq

/-- The wire code of a `ResError` (the match inside `ResError::to_bytes`). -/
def ResError.code (e : ResError) : Nat :=
  match e with
  | .NoAgentXError => 0 | .OpenFailed => 256 | .NotOpen => 257
  | .IndexWrongType => 258 | .IndexAlreadyAllocated => 259
  | .IndexNoneAvailable => 260 | .IndexNotAllocated => 261
  | .UnsupportedContext => 262 | .DuplicateRegistration => 263
  | .UnknownRegistration => 264 | .UnknownAgentCaps => 265
  | .ParseError => 266 | .RequestDenied => 267 | .ProcessingError => 268

/-- `ResError::to_bytes`. -/
def ResError.to_bytes (e : ResError) (bo : ByteOrder) : Bytes :=
  u16_to_bytes e.code bo

/-- `ResError::byte_size`. -/
def ResError.byte_size (_ : ResError) : Nat := 2

/-- The code dispatch of `ResError::from_bytes` (match over `{0, 256..268}`,
error otherwise). -/
def ResError.from_code (v : Nat) : Option ResError :=
  if v = 0 then some .NoAgentXError
  else if v = 256 then some .OpenFailed
  else if v = 257 then some .NotOpen
  else if v = 258 then some .IndexWrongType
  else if v = 259 then some .IndexAlreadyAllocated
  else if v = 260 then some .IndexNoneAvailable
  else if v = 261 then some .IndexNotAllocated
  else if v = 262 then some .UnsupportedContext
  else if v = 263 then some .DuplicateRegistration
  else if v = 264 then some .UnknownRegistration
  else if v = 265 then some .UnknownAgentCaps
  else if v = 266 then some .ParseError
  else if v = 267 then some .RequestDenied
  else if v = 268 then some .ProcessingError
  else none

/-- `ResError::from_bytes`. -/
def ResError.from_bytes (b : Bytes) (bo : ByteOrder) : Option ResError := do
  let v ← bytes_to_u16 b bo
  ResError.from_code v

/-- Flag bit positions of `pdu.rs`. -/
def INSTANCE_REGISTRATION : Nat := 0
/-- Flag bit position `NEW_INDEX`. -/
def NEW_INDEX : Nat := 1
/-- Flag bit position `ANY_INDEX`. -/
def ANY_INDEX : Nat := 2
/-- Flag bit position `NON_DEFAULT_CONTEXT`. -/
def NON_DEFAULT_CONTEXT : Nat := 3
/-- Flag bit position `NETWORK_BYTE_ORDER`. -/
def NETWORK_BYTE_ORDER : Nat := 4

/-- `is_set` of `pdu.rs`. -/
def is_set (flags mask : Nat) : Bool := flags.land mask == mask

/-- The fixed header size. -/
def HEADER_SIZE : Nat := 20

/-- `header_byte_order`: bit 4 of the flags selects big endian. -/
def header_byte_order (flags : Nat) : ByteOrder :=
  if is_set flags (1 <<< NETWORK_BYTE_ORDER) then .BigEndian else .LittleEndian

/-- PDU Header of `pdu.rs`: fixed 20-byte frame. -/
structure Header where
  version : Nat
  ty : PType
  flags : Nat
  session_id : Nat
  transaction_id : Nat
  packet_id : Nat
  payload_length : Nat
deriving DecidableEq

/-- `Header::new`. -/
def Header.new (ty : PType) : Header := ⟨1, ty, 0, 0, 0, 0, 0⟩

/-- `Header::byte_order`. -/
def Header.byte_order (h : Header) : ByteOrder := header_byte_order h.flags

/-- `Header::to_bytes`: four single bytes then four 32-bit fields in the
header's own byte order. -/
def Header.to_bytes (h : Header) : Bytes :=
  [h.version, h.ty.to_byte, h.flags, 0] ++
  u32_to_bytes h.session_id h.byte_order ++
  u32_to_bytes h.transaction_id h.byte_order ++
  u32_to_bytes h.packet_id h.byte_order ++
  u32_to_bytes h.payload_length h.byte_order

/-- `Header::from_bytes`. -/
def Header.from_bytes (b : Bytes) : Option Header :=
  if b.length < HEADER_SIZE then none
  else
    match b with
    | b0 :: b1 :: b2 :: _ :: rest => do
      let ty ← PType.from_byte b1
      let bo := header_byte_order b2
      let session_id ← bytes_to_u32 rest bo
      let transaction_id ← bytes_to_u32 (rest.drop 4) bo
      let packet_id ← bytes_to_u32 (rest.drop 8) bo
      let payload_length ← bytes_to_u32 (rest.drop 12) bo
      some ⟨b0, ty, b2, session_id, transaction_id, packet_id, payload_length⟩
    | _ => none

/-- `Header::byte_size`. -/
def Header.byte_size (_ : Header) : Nat := HEADER_SIZE

/-- `Header::set_payload_len`: the payload length must fit a `u32`. -/
def Header.set_payload_len (h : Header) (len : Nat) : Option Header :=
  if len < 2 ^ 32 then some { h with payload_length := len } else none

/-- `context_from_bytes` of `pdu.rs`: a context is read only when the
non-default-context flag is set. -/
def context_from_bytes (flags : Nat) (b : Bytes) : Option (Option Context) :=
  if is_set flags (1 <<< NON_DEFAULT_CONTEXT) then
    (Context.from_bytes b (header_byte_order flags)).map some
  else some none

/-- The context part of every PDU payload on the encode side: the PDUs emit
`c.0.to_bytes` when a context is present and nothing otherwise. -/
def context_to_bytes (c : Option Context) (bo : ByteOrder) : Option Bytes :=
  match c with
  | some c => c.os.to_bytes bo
  | none => some []

/-- The cursor advance past an optional just-decoded context (the
`if let Some(c) = &context { b = b.get(c.byte_size()..)... }` step shared by
all context-carrying PDU decoders). -/
def context_skip (c : Option Context) (b : Bytes) : Option Bytes :=
  match c with
  | some c => sliceFrom b c.byte_size
  | none => some b

/-- Open PDU. -/
structure Open where
  header : Header
  timeout : Duration
  id : ID
  descr : OctetString
deriving DecidableEq

/-- `Open::to_bytes`.  Mirrors the Rust `&mut self` receiver by also returning
the struct with the freshly stamped header. -/
def Open.to_bytes (p : Open) : Option (Open × Bytes) := do
  let bo := p.header.byte_order
  if p.timeout.as_secs ≤ 255 then do
    let idb ← p.id.to_bytes bo
    let db ← p.descr.to_bytes bo
    let payload := p.timeout.as_secs :: [0, 0, 0] ++ idb ++ db
    let h ← p.header.set_payload_len payload.length
    some ({ p with header := h }, h.to_bytes ++ payload)
  else none

/-- Payload decoding of `Open::from_bytes` (everything after the header);
depends on the header only through its flags. -/
def Open.decode_payload (flags : Nat) (b : Bytes) :
    Option (Duration × ID × OctetString) := do
  let bo := header_byte_order flags
  if b.length < 4 then none
  else do
    let timeout := Duration.from_secs (b.headD 0)
    let b ← sliceFrom b 4
    let id ← ID.from_bytes b bo
    let b ← sliceFrom b id.byte_size
    let descr ← OctetString.from_bytes b bo
    some (timeout, id, descr)

/-- `Open::from_bytes`. -/
def Open.from_bytes (b : Bytes) : Option Open := do
  let header ← Header.from_bytes b
  let b ← sliceFrom b header.byte_size
  let f ← Open.decode_payload header.flags b
  some ⟨header, f.1, f.2.1, f.2.2⟩

/-- Close PDU. -/
structure Close where
  header : Header
  reason : CloseReason
deriving DecidableEq

/-- `Close::to_bytes`: sets `payload_length` to the constant 4 directly, then
emits header, reason byte, three reserved bytes. -/
def Close.to_bytes (p : Close) : Option (Close × Bytes) :=
  let h := { p.header with payload_length := 4 }
  some ({ p with header := h }, h.to_bytes ++ [p.reason.to_byte, 0, 0, 0])

/-- Payload decoding of `Close::from_bytes`: only the reason byte is read. -/
def Close.decode_payload (_flags : Nat) (b : Bytes) : Option CloseReason :=
  if b.length < 1 then none
  else CloseReason.from_byte (b.headD 0)

/-- `Close::from_bytes`. -/
def Close.from_bytes (b : Bytes) : Option Close := do
  let header ← Header.from_bytes b
  let b ← sliceFrom b header.byte_size
  let reason ← Close.decode_payload header.flags b
  some ⟨header, reason⟩

/-- Register PDU. -/
structure Register where
  header : Header
  context : Option Context
  timeout : Duration
  priority : Nat
  range_subid : Nat
  subtree : ID
  upper_bound : Option Nat
deriving DecidableEq

/-- `Register::to_bytes`. -/
def Register.to_bytes (p : Register) : Option (Register × Bytes) := do
  let bo := p.header.byte_order
  let cb ← context_to_bytes p.context bo
  if p.timeout.as_secs ≤ 255 then do
    let sb ← p.subtree.to_bytes bo
    let ub := match p.upper_bound with
      | some u => u32_to_bytes u bo
      | none => []
    let payload :=
      cb ++ [p.timeout.as_secs, p.priority, p.range_subid, 0] ++ sb ++ ub
    let h ← p.header.set_payload_len payload.length
    some ({ p with header := h }, h.to_bytes ++ payload)
  else none

/-- Payload decoding of `Register::from_bytes`. -/
def Register.decode_payload (flags : Nat) (b : Bytes) :
    Option (Option Context × Duration × Nat × Nat × ID × Option Nat) := do
  let bo := header_byte_order flags
  let context ← context_from_bytes flags b
  let b ← context_skip context b
  if b.length < 4 then none
  else do
    let timeout := Duration.from_secs (b.headD 0)
    let priority := (b.drop 1).headD 0
    let range_subid := (b.drop 2).headD 0
    let b ← sliceFrom b 4
    let subtree ← ID.from_bytes b bo
    let b ← sliceFrom b subtree.byte_size
    let upper_bound ← if range_subid ≠ 0 then
        (bytes_to_u32 b bo).map some
      else pure none
    some (context, timeout, priority, range_subid, subtree, upper_bound)

/-- `Register::from_bytes`. -/
def Register.from_bytes (b : Bytes) : Option Register := do
  let header ← Header.from_bytes b
  let b ← sliceFrom b header.byte_size
  let f ← Register.decode_payload header.flags b
  some ⟨header, f.1, f.2.1, f.2.2.1, f.2.2.2.1, f.2.2.2.2.1, f.2.2.2.2.2⟩

/-- Unregister PDU. -/
structure Unregister where
  header : Header
  context : Option Context
  priority : Nat
  range_subid : Nat
  subtree : ID
  upper_bound : Option Nat
deriving DecidableEq

/-- `Unregister::to_bytes`: like Register with a reserved byte in place of the
timeout. -/
def Unregister.to_bytes (p : Unregister) : Option (Unregister × Bytes) := do
  let bo := p.header.byte_order
  let cb ← context_to_bytes p.context bo
  let sb ← p.subtree.to_bytes bo
  let ub := match p.upper_bound with
    | some u => u32_to_bytes u bo
    | none => []
  let payload := cb ++ [0, p.priority, p.range_subid, 0] ++ sb ++ ub
  let h ← p.header.set_payload_len payload.length
  some ({ p with header := h }, h.to_bytes ++ payload)

/-- Payload decoding of `Unregister::from_bytes`. -/
def Unregister.decode_payload (flags : Nat) (b : Bytes) :
    Option (Option Context × Nat × Nat × ID × Option Nat) := do
  let bo := header_byte_order flags
  let context ← context_from_bytes flags b
  let b ← context_skip context b
  if b.length < 4 then none
  else do
    let priority := (b.drop 1).headD 0
    let range_subid := (b.drop 2).headD 0
    let b ← sliceFrom b 4
    let subtree ← ID.from_bytes b bo
    let b ← sliceFrom b subtree.byte_size
    let upper_bound ← if range_subid ≠ 0 then
        (bytes_to_u32 b bo).map some
      else pure none
    some (context, priority, range_subid, subtree, upper_bound)

/-- `Unregister::from_bytes`. -/
def Unregister.from_bytes (b : Bytes) : Option Unregister := do
  let header ← Header.from_bytes b
  let b ← sliceFrom b header.byte_size
  let f ← Unregister.decode_payload header.flags b
  some ⟨header, f.1, f.2.1, f.2.2.1, f.2.2.2.1, f.2.2.2.2⟩

/-- Get PDU. -/
structure Get where
  header : Header
  context : Option Context
  sr : SearchRangeList
deriving DecidableEq

/-- The shared payload decoding of `get_alike_from_bytes` (Get, GetNext):
optional context then a SearchRangeList. -/
def get_alike_decode_payload (flags : Nat) (b : Bytes) :
    Option (Option Context × SearchRangeList) := do
  let bo := header_byte_order flags
  let context ← context_from_bytes flags b
  let b ← context_skip context b
  let sr ← SearchRangeList.from_bytes b bo
  some (context, sr)

/-- The shared payload encoding of the Get-alike PDUs. -/
def get_alike_payload (c : Option Context) (sr : SearchRangeList)
    (bo : ByteOrder) : Option Bytes := do
  let cb ← context_to_bytes c bo
  let sb ← sr.to_bytes bo
  some (cb ++ sb)

/-- `Get::to_bytes`. -/
def Get.to_bytes (p : Get) : Option (Get × Bytes) := do
  let payload ← get_alike_payload p.context p.sr p.header.byte_order
  let h ← p.header.set_payload_len payload.length
  some ({ p with header := h }, h.to_bytes ++ payload)

/-- `Get::from_bytes`. -/
def Get.from_bytes (b : Bytes) : Option Get := do
  let header ← Header.from_bytes b
  let b ← sliceFrom b header.byte_size
  let f ← get_alike_decode_payload header.flags b
  some ⟨header, f.1, f.2⟩

/-- GetNext PDU (an exact copy of Get except for the header type). -/
structure GetNext where
  header : Header
  context : Option Context
  sr : SearchRangeList
deriving DecidableEq

/-- `GetNext::to_bytes`. -/
def GetNext.to_bytes (p : GetNext) : Option (GetNext × Bytes) := do
  let payload ← get_alike_payload p.context p.sr p.header.byte_order
  let h ← p.header.set_payload_len payload.length
  some ({ p with header := h }, h.to_bytes ++ payload)

/-- `GetNext::from_bytes`. -/
def GetNext.from_bytes (b : Bytes) : Option GetNext := do
  let header ← Header.from_bytes b
  let b ← sliceFrom b header.byte_size
  let f ← get_alike_decode_payload header.flags b
  some ⟨header, f.1, f.2⟩

/-- GetBulk PDU. -/
structure GetBulk where
  header : Header
  context : Option Context
  non_repeaters : Nat
  max_repetitions : Nat
  sr : SearchRangeList
deriving DecidableEq

/-- `GetBulk::to_bytes`. -/
def GetBulk.to_bytes (p : GetBulk) : Option (GetBulk × Bytes) := do
  let bo := p.header.byte_order
  let cb ← context_to_bytes p.context bo
  let sb ← p.sr.to_bytes bo
  let payload :=
    cb ++ u16_to_bytes p.non_repeaters bo ++ u16_to_bytes p.max_repetitions bo
       ++ sb
  let h ← p.header.set_payload_len payload.length
  some ({ p with header := h }, h.to_bytes ++ payload)

/-- Payload decoding of `GetBulk::from_bytes`. -/
def GetBulk.decode_payload (flags : Nat) (b : Bytes) :
    Option (Option Context × Nat × Nat × SearchRangeList) := do
  let bo := header_byte_order flags
  let context ← context_from_bytes flags b
  let b ← context_skip context b
  if b.length < 4 then none
  else do
    let non_repeaters ← bytes_to_u16 b bo
    let max_repetitions ← bytes_to_u16 (b.drop 2) bo
    let b ← sliceFrom b 4
    let sr ← SearchRangeList.from_bytes b bo
    some (context, non_repeaters, max_repetitions, sr)

/-- `GetBulk::from_bytes`. -/
def GetBulk.from_bytes (b : Bytes) : Option GetBulk := do
  let header ← Header.from_bytes b
  let b ← sliceFrom b header.byte_size
  let f ← GetBulk.decode_payload header.flags b
  some ⟨header, f.1, f.2.1, f.2.2.1, f.2.2.2⟩

/-- TestSet PDU. -/
structure TestSet where
  header : Header
  context : Option Context
  vb : VarBindList
deriving DecidableEq

/-- The shared payload decoding of `testset_alike_from_bytes` (TestSet,
Notify, IndexAllocate, IndexDeallocate): optional context then a
VarBindList. -/
def testset_alike_decode_payload (flags : Nat) (b : Bytes) :
    Option (Option Context × VarBindList) := do
  let bo := header_byte_order flags
  let context ← context_from_bytes flags b
  let b ← context_skip context b
  let vb ← VarBindList.from_bytes b bo
  some (context, vb)

/-- The shared payload encoding of the TestSet-alike PDUs. -/
def testset_alike_payload (c : Option Context) (vb : VarBindList)
    (bo : ByteOrder) : Option Bytes := do
  let cb ← context_to_bytes c bo
  let vbb ← vb.to_bytes bo
  some (cb ++ vbb)

/-- `TestSet::to_bytes`. -/
def TestSet.to_bytes (p : TestSet) : Option (TestSet × Bytes) := do
  let payload ← testset_alike_payload p.context p.vb p.header.byte_order
  let h ← p.header.set_payload_len payload.length
  some ({ p with header := h }, h.to_bytes ++ payload)

/-- `TestSet::from_bytes`. -/
def TestSet.from_bytes (b : Bytes) : Option TestSet := do
  let header ← Header.from_bytes b
  let b ← sliceFrom b header.byte_size
  let f ← testset_alike_decode_payload header.flags b
  some ⟨header, f.1, f.2⟩

/-- Notify PDU (same shape as TestSet). -/
structure Notify where
  header : Header
  context : Option Context
  vb : VarBindList
deriving DecidableEq

/-- `Notify::to_bytes`. -/
def Notify.to_bytes (p : Notify) : Option (Notify × Bytes) := do
  let payload ← testset_alike_payload p.context p.vb p.header.byte_order
  let h ← p.header.set_payload_len payload.length
  some ({ p with header := h }, h.to_bytes ++ payload)

/-- `Notify::from_bytes`. -/
def Notify.from_bytes (b : Bytes) : Option Notify := do
  let header ← Header.from_bytes b
  let b ← sliceFrom b header.byte_size
  let f ← testset_alike_decode_payload header.flags b
  some ⟨header, f.1, f.2⟩

/-- IndexAllocate PDU (same shape as TestSet). -/
structure IndexAllocate where
  header : Header
  context : Option Context
  vb : VarBindList
deriving DecidableEq

/-- `IndexAllocate::to_bytes`. -/
def IndexAllocate.to_bytes (p : IndexAllocate) :
    Option (IndexAllocate × Bytes) := do
  let payload ← testset_alike_payload p.context p.vb p.header.byte_order
  let h ← p.header.set_payload_len payload.length
  some ({ p with header := h }, h.to_bytes ++ payload)

/-- `IndexAllocate::from_bytes`. -/
def IndexAllocate.from_bytes (b : Bytes) : Option IndexAllocate := do
  let header ← Header.from_bytes b
  let b ← sliceFrom b header.byte_size
  let f ← testset_alike_decode_payload header.flags b
  some ⟨header, f.1, f.2⟩

/-- IndexDeallocate PDU (same shape as TestSet). -/
structure IndexDeallocate where
  header : Header
  context : Option Context
  vb : VarBindList
deriving DecidableEq

/-- `IndexDeallocate::to_bytes`. -/
def IndexDeallocate.to_bytes (p : IndexDeallocate) :
    Option (IndexDeallocate × Bytes) := do
  let payload ← testset_alike_payload p.context p.vb p.header.byte_order
  let h ← p.header.set_payload_len payload.length
  some ({ p with header := h }, h.to_bytes ++ payload)

/-- `IndexDeallocate::from_bytes`. -/
def IndexDeallocate.from_bytes (b : Bytes) : Option IndexDeallocate := do
  let header ← Header.from_bytes b
  let b ← sliceFrom b header.byte_size
  let f ← testset_alike_decode_payload header.flags b
  some ⟨header, f.1, f.2⟩

/-- CommitSet PDU: header only. -/
structure CommitSet where
  header : Header
deriving DecidableEq

/-- `CommitSet::to_bytes`: emits the stored header verbatim — in particular
the stored `payload_length` field, which is *not* recomputed here. -/
def CommitSet.to_bytes (p : CommitSet) : Option (CommitSet × Bytes) :=
  some (p, p.header.to_bytes)

/-- `CommitSet::from_bytes`. -/
def CommitSet.from_bytes (b : Bytes) : Option CommitSet :=
  (Header.from_bytes b).map CommitSet.mk

/-- UndoSet PDU: header only. -/
structure UndoSet where
  header : Header
deriving DecidableEq

/-- `UndoSet::to_bytes` (same as CommitSet). -/
def UndoSet.to_bytes (p : UndoSet) : Option (UndoSet × Bytes) :=
  some (p, p.header.to_bytes)

/-- `UndoSet::from_bytes`. -/
def UndoSet.from_bytes (b : Bytes) : Option UndoSet :=
  (Header.from_bytes b).map UndoSet.mk

/-- CleanupSet PDU: header only. -/
structure CleanupSet where
  header : Header
deriving DecidableEq

/-- `CleanupSet::to_bytes` (same as CommitSet). -/
def CleanupSet.to_bytes (p : CleanupSet) : Option (CleanupSet × Bytes) :=
  some (p, p.header.to_bytes)

/-- `CleanupSet::from_bytes`. -/
def CleanupSet.from_bytes (b : Bytes) : Option CleanupSet :=
  (Header.from_bytes b).map CleanupSet.mk

/-- Ping PDU. -/
structure Ping where
  header : Header
  context : Option Context
deriving DecidableEq

/-- `Ping::to_bytes`. -/
def Ping.to_bytes (p : Ping) : Option (Ping × Bytes) := do
  let payload ← context_to_bytes p.context p.header.byte_order
  let h ← p.header.set_payload_len payload.length
  some ({ p with header := h }, h.to_bytes ++ payload)

/-- Payload decoding of `Ping::from_bytes`: only the optional context. -/
def Ping.decode_payload (flags : Nat) (b : Bytes) : Option (Option Context) :=
  context_from_bytes flags b

/-- `Ping::from_bytes`. -/
def Ping.from_bytes (b : Bytes) : Option Ping := do
  let header ← Header.from_bytes b
  let b ← sliceFrom b header.byte_size
  let context ← Ping.decode_payload header.flags b
  some ⟨header, context⟩

/-- AddAgentCaps PDU. -/
structure AddAgentCaps where
  header : Header
  context : Option Context
  id : ID
  descr : OctetString
deriving DecidableEq

/-- `AddAgentCaps::to_bytes`. -/
def AddAgentCaps.to_bytes (p : AddAgentCaps) :
    Option (AddAgentCaps × Bytes) := do
  let bo := p.header.byte_order
  let cb ← context_to_bytes p.context bo
  let idb ← p.id.to_bytes bo
  let db ← p.descr.to_bytes bo
  let payload := cb ++ idb ++ db
  let h ← p.header.set_payload_len payload.length
  some ({ p with header := h }, h.to_bytes ++ payload)

/-- Payload decoding of `AddAgentCaps::from_bytes`. -/
def AddAgentCaps.decode_payload (flags : Nat) (b : Bytes) :
    Option (Option Context × ID × OctetString) := do
  let bo := header_byte_order flags
  let context ← context_from_bytes flags b
  let b ← context_skip context b
  let id ← ID.from_bytes b bo
  let b ← sliceFrom b id.byte_size
  let descr ← OctetString.from_bytes b bo
  some (context, id, descr)

/-- `AddAgentCaps::from_bytes`. -/
def AddAgentCaps.from_bytes (b : Bytes) : Option AddAgentCaps := do
  let header ← Header.from_bytes b
  let b ← sliceFrom b header.byte_size
  let f ← AddAgentCaps.decode_payload header.flags b
  some ⟨header, f.1, f.2.1, f.2.2⟩

/-- RemoveAgentCaps PDU. -/
structure RemoveAgentCaps where
  header : Header
  context : Option Context
  id : ID
deriving DecidableEq

/-- `RemoveAgentCaps::to_bytes`. -/
def RemoveAgentCaps.to_bytes (p : RemoveAgentCaps) :
    Option (RemoveAgentCaps × Bytes) := do
  let bo := p.header.byte_order
  let cb ← context_to_bytes p.context bo
  let idb ← p.id.to_bytes bo
  let payload := cb ++ idb
  let h ← p.header.set_payload_len payload.length
  some ({ p with header := h }, h.to_bytes ++ payload)

/-- Payload decoding of `RemoveAgentCaps::from_bytes`. -/
def RemoveAgentCaps.decode_payload (flags : Nat) (b : Bytes) :
    Option (Option Context × ID) := do
  let bo := header_byte_order flags
  let context ← context_from_bytes flags b
  let b ← context_skip context b
  let id ← ID.from_bytes b bo
  some (context, id)

/-- `RemoveAgentCaps::from_bytes`. -/
def RemoveAgentCaps.from_bytes (b : Bytes) : Option RemoveAgentCaps := do
  let header ← Header.from_bytes b
  let b ← sliceFrom b header.byte_size
  let f ← RemoveAgentCaps.decode_payload header.flags b
  some ⟨header, f.1, f.2⟩

/-- Response PDU. -/
structure Response where
  header : Header
  sys_uptime : Duration
  res_error : ResError
  res_index : Nat
  vb : Option VarBindList
deriving DecidableEq

/-- `Response::new` / `Default`. -/
def Response.new : Response :=
  ⟨Header.new .Response, ⟨0, 0⟩, .NoAgentXError, 0, none⟩

/-- The optional-VarBindList part of `Response::to_bytes`: emitted iff
present. -/
def vbl_opt_to_bytes (v : Option VarBindList) (bo : ByteOrder) : Option Bytes :=
  match v with
  | some vb => vb.to_bytes bo
  | none => some []

/-- `Response::to_bytes`: the uptime is serialized in centiseconds. -/
def Response.to_bytes (p : Response) : Option (Response × Bytes) := do
  let bo := p.header.byte_order
  let up := p.sys_uptime.as_millis / 10
  if up < 2 ^ 32 then do
    let vbb ← vbl_opt_to_bytes p.vb bo
    let payload :=
      u32_to_bytes up bo ++ p.res_error.to_bytes bo ++
      u16_to_bytes p.res_index bo ++ vbb
    let h ← p.header.set_payload_len payload.length
    some ({ p with header := h }, h.to_bytes ++ payload)
  else none

/-- The trailing-VarBindList step of `Response::from_bytes`: `b.get(2..)`
after `res_index` yields `None` (hence `vb = None`) only when fewer than two
bytes remain, otherwise the remainder is decoded as a (possibly empty)
VarBindList. -/
def vb_tail (b : Bytes) (bo : ByteOrder) : Option (Option VarBindList) :=
  match sliceFrom b 2 with
  | none => pure none
  | some b2 => (VarBindList.from_bytes b2 bo).map some

/-- Payload decoding of `Response::from_bytes`.  The uptime multiplication
`sys_uptime * 10` is a `u32` multiplication, hence the `% 2 ^ 32` (release
semantics: overflow wraps). -/
def Response.decode_payload (flags : Nat) (b : Bytes) :
    Option (Duration × ResError × Nat × Option VarBindList) := do
  let bo := header_byte_order flags
  let up ← bytes_to_u32 b bo
  let sys_uptime := Duration.from_millis (up * 10 % 2 ^ 32)
  let b ← sliceFrom b 4
  let res_error ← ResError.from_bytes b bo
  let b ← sliceFrom b res_error.byte_size
  let res_index ← bytes_to_u16 b bo
  let vb ← vb_tail b bo
  some (sys_uptime, res_error, res_index, vb)

/-- `Response::from_bytes`. -/
def Response.from_bytes (b : Bytes) : Option Response := do
  let header ← Header.from_bytes b
  let b ← sliceFrom b header.byte_size
  let f ← Response.decode_payload header.flags b
  some ⟨header, f.1, f.2.1, f.2.2.1, f.2.2.2⟩

/-! ### Well-formedness predicates

These capture exactly the invariants the Rust type system provides for free
(`u8`/`u16`/`u32` fields, `String` content) and that the embedding has to
state explicitly on `Nat`-valued fields. -/

/-- An `ID` as the Rust constructors can build it: the stored original count
matches, the count fits the one-byte field and sub-ids fit `u32`. -/
def ID.wf (id : ID) : Prop :=
  id.orig_n_subid = id.sub_ids.length ∧ id.sub_ids.length ≤ 255 ∧
  ∀ s ∈ id.sub_ids, s < 2 ^ 32

instance (id : ID) : Decidable id.wf := by unfold ID.wf; infer_instance

/-- An `OctetString` as Rust can build it: genuine UTF-8 whose length fits a
`u32` (a Rust `String` can exceed `u32::MAX` only on 64-bit targets with >4GiB
strings; `to_bytes` errors there, so round-trips need the bound). -/
def OctetString.wf (os : OctetString) : Prop :=
  utf8_valid os.content = true ∧ os.content.length < 2 ^ 32

instance (os : OctetString) : Decidable os.wf := by
  unfold OctetString.wf; infer_instance

/-- Well-formed SearchRange: both IDs well-formed. -/
def SearchRange.wf (sr : SearchRange) : Prop := sr.start.wf ∧ sr.end_.wf

instance (sr : SearchRange) : Decidable sr.wf := by
  unfold SearchRange.wf; infer_instance

/-- Well-formed Value: nested components well-formed, numeric payloads in
range of their Rust types. -/
def Value.wf : Value → Prop
  | .Integer v => v < 2 ^ 32
  | .OctetString os => os.wf
  | .Null => True
  | .ObjectIdentifier id => id.wf
  | .IpAddress os => os.wf
  | .Counter32 v => v < 2 ^ 32
  | .Gauge32 v => v < 2 ^ 32
  | .TimeTicks v => v < 2 ^ 32
  | .Opaque os => os.wf
  | .Counter64 v => v < 2 ^ 64
  | .NoSuchObject => True
  | .NoSuchInstance => True
  | .EndOfMibView => True

instance (v : Value) : Decidable v.wf := by
  unfold Value.wf; cases v <;> infer_instance

/-- Well-formed VarBind. -/
def VarBind.wf (vb : VarBind) : Prop := vb.name.wf ∧ vb.data.wf

instance (vb : VarBind) : Decidable vb.wf := by
  unfold VarBind.wf; infer_instance

/-! ### ID lemmas -/

/-- Shorthand for the encoded sub-identifier block. -/
def subid_bytes (l : List Nat) (bo : ByteOrder) : Bytes :=
  (l.map (fun s => u32_to_bytes s bo)).flatten

/-! ### Re-decoded normal forms

Decoding the encoding of a value gives back the same logical value, but with
every ID's stored original count refreshed to its list length.  `renorm`
captures that normal form; the source's `==` (which ignores the stored count
and the include flag of IDs) cannot tell the two apart. -/

/-- The ID as it comes back from decoding its own encoding. -/
def ID.renorm (id : ID) : ID := ⟨id.sub_ids.length, id.incl, id.sub_ids⟩

/-- SearchRange after a decode round-trip. -/
def SearchRange.renorm (sr : SearchRange) : SearchRange :=
  ⟨sr.start.renorm, sr.end_.renorm⟩

/-- Value after a decode round-trip. -/
def Value.renorm : Value → Value
  | .ObjectIdentifier id => .ObjectIdentifier id.renorm
  | v => v

/-- VarBind after a decode round-trip. -/
def VarBind.renorm (vb : VarBind) : VarBind := ⟨vb.name.renorm, vb.data.renorm⟩

/-! ### Header lemmas -/

/-- Header fields as bounded by their Rust `u32`/`u8` types.  (Version and
flags are written and read back verbatim, so only the four 32-bit fields need
bounds for a round-trip.) -/
def Header.wf (h : Header) : Prop :=
  h.session_id < 2 ^ 32 ∧ h.transaction_id < 2 ^ 32 ∧ h.packet_id < 2 ^ 32 ∧
  h.payload_length < 2 ^ 32

instance (h : Header) : Decidable h.wf := by unfold Header.wf; infer_instance

/-- Structural well-formedness of an Open PDU as the Rust types provide it:
bounded header fields, a whole-second timeout, valid components. -/
def Open.wf (p : Open) : Prop :=
  p.header.wf ∧ p.timeout.nanos = 0 ∧ p.id.wf ∧ p.descr.wf

instance (p : Open) : Decidable p.wf := by unfold Open.wf; infer_instance

/-- Source `PartialEq` on Open (ID compared through its sub-ids only). -/
def Open.beq (a b : Open) : Bool :=
  a.header == b.header && a.timeout == b.timeout && ID.beq a.id b.id &&
  a.descr == b.descr

/-- Close PDUs have no variable payload; only the header needs bounds. -/
def Close.wf (p : Close) : Prop := p.header.wf

instance (p : Close) : Decidable p.wf := by unfold Close.wf; infer_instance

/-- Source `PartialEq` on Close. -/
def Close.beq (a b : Close) : Bool := a.header == b.header && a.reason == b.reason

/-- Well-formedness of a decoded/constructed optional context. -/
def context_wfp : Option Context → Prop
  | none => True
  | some ctx => ctx.os.wf

instance (c : Option Context) : Decidable (context_wfp c) := by
  cases c <;> (unfold context_wfp; infer_instance)

/-- The context field is consistent with the header's non-default-context
flag (the source writes the context iff the field is `Some` but reads it iff
the flag is set, so round-trips need the two to agree) and well-formed. -/
def context_ok (flags : Nat) (c : Option Context) : Prop :=
  is_set flags (1 <<< NON_DEFAULT_CONTEXT) = c.isSome ∧ context_wfp c

instance (flags : Nat) (c : Option Context) : Decidable (context_ok flags c) := by
  unfold context_ok; infer_instance

/-- Consistency of `upper_bound` with `range_subid` (written iff `Some`, read
iff `range_subid ≠ 0`), and the bound of its Rust `u32` type. -/
def upper_bound_ok (range_subid : Nat) : Option Nat → Prop
  | none => range_subid = 0
  | some u => range_subid ≠ 0 ∧ u < 2 ^ 32

instance (r : Nat) (u : Option Nat) : Decidable (upper_bound_ok r u) := by
  cases u <;> (unfold upper_bound_ok; infer_instance)

/-- Structural well-formedness of a Register PDU. -/
def Register.wf (p : Register) : Prop :=
  p.header.wf ∧ context_ok p.header.flags p.context ∧ p.timeout.nanos = 0 ∧
  p.subtree.wf ∧ upper_bound_ok p.range_subid p.upper_bound

instance (p : Register) : Decidable p.wf := by unfold Register.wf; infer_instance

/-- Source `PartialEq` on Register. -/
def Register.beq (a b : Register) : Bool :=
  a.header == b.header && a.context == b.context && a.timeout == b.timeout &&
  a.priority == b.priority && a.range_subid == b.range_subid &&
  ID.beq a.subtree b.subtree && a.upper_bound == b.upper_bound

/-- Structural well-formedness of an Unregister PDU. -/
def Unregister.wf (p : Unregister) : Prop :=
  p.header.wf ∧ context_ok p.header.flags p.context ∧ p.subtree.wf ∧
  upper_bound_ok p.range_subid p.upper_bound

instance (p : Unregister) : Decidable p.wf := by
  unfold Unregister.wf; infer_instance

/-- Source `PartialEq` on Unregister. -/
def Unregister.beq (a b : Unregister) : Bool :=
  a.header == b.header && a.context == b.context &&
  a.priority == b.priority && a.range_subid == b.range_subid &&
  ID.beq a.subtree b.subtree && a.upper_bound == b.upper_bound

/-- Structural well-formedness of a Get PDU. -/
def Get.wf (p : Get) : Prop :=
  p.header.wf ∧ context_ok p.header.flags p.context ∧
  ∀ sr ∈ p.sr.ranges, sr.wf

instance (p : Get) : Decidable p.wf := by unfold Get.wf; infer_instance

/-- Source `PartialEq` on Get. -/
def Get.beq (a b : Get) : Bool :=
  a.header == b.header && a.context == b.context &&
  SearchRangeList.beq a.sr b.sr

/-- Structural well-formedness of a GetNext PDU. -/
def GetNext.wf (p : GetNext) : Prop :=
  p.header.wf ∧ context_ok p.header.flags p.context ∧
  ∀ sr ∈ p.sr.ranges, sr.wf

instance (p : GetNext) : Decidable p.wf := by unfold GetNext.wf; infer_instance

/-- Source `PartialEq` on GetNext. -/
def GetNext.beq (a b : GetNext) : Bool :=
  a.header == b.header && a.context == b.context &&
  SearchRangeList.beq a.sr b.sr

/-- Structural well-formedness of a GetBulk PDU. -/
def GetBulk.wf (p : GetBulk) : Prop :=
  p.header.wf ∧ context_ok p.header.flags p.context ∧
  p.non_repeaters < 2 ^ 16 ∧ p.max_repetitions < 2 ^ 16 ∧
  ∀ sr ∈ p.sr.ranges, sr.wf

instance (p : GetBulk) : Decidable p.wf := by unfold GetBulk.wf; infer_instance

/-- Source `PartialEq` on GetBulk. -/
def GetBulk.beq (a b : GetBulk) : Bool :=
  a.header == b.header && a.context == b.context &&
  a.non_repeaters == b.non_repeaters &&
  a.max_repetitions == b.max_repetitions && SearchRangeList.beq a.sr b.sr

/-- Structural well-formedness of a TestSet PDU. -/
def TestSet.wf (p : TestSet) : Prop :=
  p.header.wf ∧ context_ok p.header.flags p.context ∧
  ∀ vb ∈ p.vb.binds, vb.wf

instance (p : TestSet) : Decidable p.wf := by unfold TestSet.wf; infer_instance

/-- Source `PartialEq` on TestSet. -/
def TestSet.beq (a b : TestSet) : Bool :=
  a.header == b.header && a.context == b.context && VarBindList.beq a.vb b.vb

/-- Structural well-formedness of a Notify PDU. -/
def Notify.wf (p : Notify) : Prop :=
  p.header.wf ∧ context_ok p.header.flags p.context ∧
  ∀ vb ∈ p.vb.binds, vb.wf

instance (p : Notify) : Decidable p.wf := by unfold Notify.wf; infer_instance

/-- Source `PartialEq` on Notify. -/
def Notify.beq (a b : Notify) : Bool :=
  a.header == b.header && a.context == b.context && VarBindList.beq a.vb b.vb

/-- Structural well-formedness of an IndexAllocate PDU. -/
def IndexAllocate.wf (p : IndexAllocate) : Prop :=
  p.header.wf ∧ context_ok p.header.flags p.context ∧
  ∀ vb ∈ p.vb.binds, vb.wf

instance (p : IndexAllocate) : Decidable p.wf := by
  unfold IndexAllocate.wf; infer_instance

/-- Source `PartialEq` on IndexAllocate. -/
def IndexAllocate.beq (a b : IndexAllocate) : Bool :=
  a.header == b.header && a.context == b.context && VarBindList.beq a.vb b.vb

/-- Structural well-formedness of an IndexDeallocate PDU. -/
def IndexDeallocate.wf (p : IndexDeallocate) : Prop :=
  p.header.wf ∧ context_ok p.header.flags p.context ∧
  ∀ vb ∈ p.vb.binds, vb.wf

instance (p : IndexDeallocate) : Decidable p.wf := by
  unfold IndexDeallocate.wf; infer_instance

/-- Source `PartialEq` on IndexDeallocate. -/
def IndexDeallocate.beq (a b : IndexDeallocate) : Bool :=
  a.header == b.header && a.context == b.context && VarBindList.beq a.vb b.vb

/-- CommitSet / UndoSet / CleanupSet carry only the header. -/
def CommitSet.wf (p : CommitSet) : Prop := p.header.wf

instance (p : CommitSet) : Decidable p.wf := by unfold CommitSet.wf; infer_instance

/-- Source `PartialEq` on CommitSet. -/
def CommitSet.beq (a b : CommitSet) : Bool := a.header == b.header

/-- Header-only well-formedness of UndoSet. -/
def UndoSet.wf (p : UndoSet) : Prop := p.header.wf

instance (p : UndoSet) : Decidable p.wf := by unfold UndoSet.wf; infer_instance

/-- Source `PartialEq` on UndoSet. -/
def UndoSet.beq (a b : UndoSet) : Bool := a.header == b.header

/-- Header-only well-formedness of CleanupSet. -/
def CleanupSet.wf (p : CleanupSet) : Prop := p.header.wf

instance (p : CleanupSet) : Decidable p.wf := by
  unfold CleanupSet.wf; infer_instance

/-- Source `PartialEq` on CleanupSet. -/
def CleanupSet.beq (a b : CleanupSet) : Bool := a.header == b.header

/-- Structural well-formedness of a Ping PDU. -/
def Ping.wf (p : Ping) : Prop :=
  p.header.wf ∧ context_ok p.header.flags p.context

instance (p : Ping) : Decidable p.wf := by unfold Ping.wf; infer_instance

/-- Source `PartialEq` on Ping. -/
def Ping.beq (a b : Ping) : Bool :=
  a.header == b.header && a.context == b.context

/-- Structural well-formedness of an AddAgentCaps PDU. -/
def AddAgentCaps.wf (p : AddAgentCaps) : Prop :=
  p.header.wf ∧ context_ok p.header.flags p.context ∧ p.id.wf ∧ p.descr.wf

instance (p : AddAgentCaps) : Decidable p.wf := by
  unfold AddAgentCaps.wf; infer_instance

/-- Source `PartialEq` on AddAgentCaps. -/
def AddAgentCaps.beq (a b : AddAgentCaps) : Bool :=
  a.header == b.header && a.context == b.context && ID.beq a.id b.id &&
  a.descr == b.descr

/-- Structural well-formedness of a RemoveAgentCaps PDU. -/
def RemoveAgentCaps.wf (p : RemoveAgentCaps) : Prop :=
  p.header.wf ∧ context_ok p.header.flags p.context ∧ p.id.wf

instance (p : RemoveAgentCaps) : Decidable p.wf := by
  unfold RemoveAgentCaps.wf; infer_instance

/-- Source `PartialEq` on RemoveAgentCaps. -/
def RemoveAgentCaps.beq (a b : RemoveAgentCaps) : Bool :=
  a.header == b.header && a.context == b.context && ID.beq a.id b.id

/-- Well-formedness of the optional VarBindList of a Response: present with
well-formed elements.  (A `vb = None` Response re-decodes with
`vb = Some(empty)`; see the dedicated theorems.) -/
def vbl_opt_wf : Option VarBindList → Prop
  | some l => ∀ vb ∈ l.binds, vb.wf
  | none => False

instance (v : Option VarBindList) : Decidable (vbl_opt_wf v) := by
  cases v <;> (unfold vbl_opt_wf; infer_instance)

/-- Structural well-formedness of a Response PDU whose VarBindList is
present. -/
def Response.wf (p : Response) : Prop :=
  p.header.wf ∧ p.sys_uptime.nanos % 10000000 = 0 ∧
  p.sys_uptime.nanos < 1000000000 ∧ p.sys_uptime.as_millis < 2 ^ 32 ∧
  p.res_index < 2 ^ 16 ∧ vbl_opt_wf p.vb

instance (p : Response) : Decidable p.wf := by
  unfold Response.wf; infer_instance

/-- Source `PartialEq` on Response. -/
def Response.beq (a b : Response) : Bool :=
  a.header == b.header && a.sys_uptime == b.sys_uptime &&
  a.res_error == b.res_error && a.res_index == b.res_index &&
  (match a.vb, b.vb with
    | none, none => true
    | some x, some y => VarBindList.beq x y
    | _, _ => false)

/-! ### The decoded `payload_length` does not delimit the payload (C10) -/

/-- A header with its `payload_length` field blanked: two headers agree on
everything else iff their `zero_plen` images are equal. -/
def Header.zero_plen (h : Header) : Header := { h with payload_length := 0 }

/-! ### Per-PDU payload-length irrelevance -/

/-- `Open` with the header's `payload_length` field blanked. -/
def Open.strip (p : Open) : Open :=
  { p with header := p.header.zero_plen }

/-- `Close` with the header's `payload_length` field blanked. -/
def Close.strip (p : Close) : Close :=
  { p with header := p.header.zero_plen }

/-- `Register` with the header's `payload_length` field blanked. -/
def Register.strip (p : Register) : Register :=
  { p with header := p.header.zero_plen }

/-- `Unregister` with the header's `payload_length` field blanked. -/
def Unregister.strip (p : Unregister) : Unregister :=
  { p with header := p.header.zero_plen }

/-- `Get` with the header's `payload_length` field blanked. -/
def Get.strip (p : Get) : Get :=
  { p with header := p.header.zero_plen }

/-- `GetNext` with the header's `payload_length` field blanked. -/
def GetNext.strip (p : GetNext) : GetNext :=
  { p with header := p.header.zero_plen }

/-- `GetBulk` with the header's `payload_length` field blanked. -/
def GetBulk.strip (p : GetBulk) : GetBulk :=
  { p with header := p.header.zero_plen }

/-- `TestSet` with the header's `payload_length` field blanked. -/
def TestSet.strip (p : TestSet) : TestSet :=
  { p with header := p.header.zero_plen }

/-- `Notify` with the header's `payload_length` field blanked. -/
def Notify.strip (p : Notify) : Notify :=
  { p with header := p.header.zero_plen }

/-- `IndexAllocate` with the header's `payload_length` field blanked. -/
def IndexAllocate.strip (p : IndexAllocate) : IndexAllocate :=
  { p with header := p.header.zero_plen }

/-- `IndexDeallocate` with the header's `payload_length` field blanked. -/
def IndexDeallocate.strip (p : IndexDeallocate) : IndexDeallocate :=
  { p with header := p.header.zero_plen }

/-- `Ping` with the header's `payload_length` field blanked. -/
def Ping.strip (p : Ping) : Ping :=
  { p with header := p.header.zero_plen }

/-- `AddAgentCaps` with the header's `payload_length` field blanked. -/
def AddAgentCaps.strip (p : AddAgentCaps) : AddAgentCaps :=
  { p with header := p.header.zero_plen }

/-- `RemoveAgentCaps` with the header's `payload_length` field blanked. -/
def RemoveAgentCaps.strip (p : RemoveAgentCaps) : RemoveAgentCaps :=
  { p with header := p.header.zero_plen }

/-- `Response` with the header's `payload_length` field blanked. -/
def Response.strip (p : Response) : Response :=
  { p with header := p.header.zero_plen }

/-- `CommitSet` with the header's `payload_length` field blanked. -/
def CommitSet.strip (p : CommitSet) : CommitSet :=
  { p with header := p.header.zero_plen }

/-- `UndoSet` with the header's `payload_length` field blanked. -/
def UndoSet.strip (p : UndoSet) : UndoSet :=
  { p with header := p.header.zero_plen }

/-- `CleanupSet` with the header's `payload_length` field blanked. -/
def CleanupSet.strip (p : CleanupSet) : CleanupSet :=
  { p with header := p.header.zero_plen }

/-! ### Demonstration values -/

/-- 28 bytes: a Response header (`payload_length = 8`) followed by exactly the
8 mandatory payload bytes (uptime, error, index) and no VarBindList bytes. -/
def c1buf : Bytes :=
  [1, 18, 0, 0,  0, 0, 0, 0,  0, 0, 0, 0,  0, 0, 0, 0,  8, 0, 0, 0,
   0, 0, 0, 0,  0, 0,  0, 0]

/-- A CommitSet whose stored header claims `payload_length = 7`. -/
def c2pdu : CommitSet := ⟨⟨1, .CommitSet, 0, 0, 0, 0, 7⟩⟩

/-- Compact-prefix wire form of an ID: `n_subid = 1`, `prefix = 2`, one
sub-id `5`. -/
def c3buf : Bytes := [1, 2, 0, 0, 5, 0, 0, 0]

/-- What `ID::from_bytes` makes of `c3buf`: six sub-ids, stored count 1. -/
def c3id : ID := ⟨1, 0, [1, 3, 6, 1, 2, 5]⟩

/-- A Response with `vb = None`. -/
def c4resp : Response :=
  ⟨⟨1, .Response, 0, 0, 0, 0, 0⟩, ⟨0, 0⟩, .NoAgentXError, 0, none⟩

/-- `c4resp` with the payload length its `to_bytes` stamps. -/
def c4stamped : Response :=
  ⟨⟨1, .Response, 0, 0, 0, 0, 8⟩, ⟨0, 0⟩, .NoAgentXError, 0, none⟩

/-- The Close PDU of the truncation demonstration. -/
def closeDemo : Close := ⟨⟨1, .Close, 0, 7, 0, 0, 0⟩, .Shutdown⟩

/-- `closeDemo` with the constant payload length its `to_bytes` stamps. -/
def closeDemoStamped : Close := ⟨⟨1, .Close, 0, 7, 0, 0, 4⟩, .Shutdown⟩

/-- The 24-byte encoding of `closeDemo`. -/
def closeDemoBytes : Bytes :=
  [1, 2, 0, 0,  7, 0, 0, 0,  0, 0, 0, 0,  0, 0, 0, 0,  4, 0, 0, 0,
   5, 0, 0, 0]

/-- A SearchRange demonstration value. -/
def srDemo : SearchRange := ⟨⟨1, 0, [5]⟩, ⟨1, 0, [6]⟩⟩

/-- The 16-byte little-endian encoding of `srDemo`. -/
def srDemoBytes : Bytes :=
  [1, 0, 0, 0, 5, 0, 0, 0,  1, 0, 0, 0, 6, 0, 0, 0]

/-- A compact-prefix ID buffer with the maximal wire count 251 that still
decodes: prefix 1 adds five more sub-ids. -/
def c9buf : Bytes := 251 :: 1 :: 0 :: 0 :: List.replicate 1004 0

/-- The ID decoded from `c9buf`: 256 sub-identifiers, over the 255 the
encoder asserts on. -/
def c9id : ID := ⟨251, 0, 1 :: 3 :: 6 :: 1 :: 1 :: List.replicate 251 0⟩

/-! ## Theorems -/

theorem sr_byte_size_pos (sr : SearchRange) : 0 < sr.byte_size := by
  simp [SearchRange.byte_size, ID.byte_size]

theorem sliceFrom_eq_some {b : Bytes} {i : Nat} {r : Bytes}
    (h : sliceFrom b i = some r) : i ≤ b.length ∧ r = b.drop i := by
  unfold sliceFrom at h
  split at h
  · exact ⟨by assumption, by simpa using h.symm⟩
  · simp at h

theorem vbind_byte_size_pos (vb : VarBind) : 0 < vb.byte_size := by
  simp [VarBind.byte_size, ID.byte_size]

/-! ### Byte-order primitive lemmas -/

theorem u16_to_bytes_length (v : Nat) (bo : ByteOrder) :
    (u16_to_bytes v bo).length = 2 := by
  cases bo <;> rfl

theorem u32_to_bytes_length (v : Nat) (bo : ByteOrder) :
    (u32_to_bytes v bo).length = 4 := by
  cases bo <;> rfl

theorem u64_to_bytes_length (v : Nat) (bo : ByteOrder) :
    (u64_to_bytes v bo).length = 8 := by
  cases bo <;> rfl

theorem bytes_to_u16_append (v : Nat) (bo : ByteOrder) (rest : Bytes) :
    bytes_to_u16 (u16_to_bytes v bo ++ rest) bo = some (v % 2 ^ 16) := by
  cases bo <;> simp only [u16_to_bytes, bytes_to_u16, List.cons_append,
    List.nil_append] <;> congr 1 <;> omega

theorem bytes_to_u32_append (v : Nat) (bo : ByteOrder) (rest : Bytes) :
    bytes_to_u32 (u32_to_bytes v bo ++ rest) bo = some (v % 2 ^ 32) := by
  cases bo <;> simp only [u32_to_bytes, bytes_to_u32, List.cons_append,
    List.nil_append] <;> congr 1 <;> omega

theorem bytes_to_u64_append (v : Nat) (bo : ByteOrder) (rest : Bytes) :
    bytes_to_u64 (u64_to_bytes v bo ++ rest) bo = some (v % 2 ^ 64) := by
  cases bo <;> simp only [u64_to_bytes, bytes_to_u64, List.cons_append,
    List.nil_append] <;> congr 1 <;> omega

theorem sliceFrom_append (a r : Bytes) : sliceFrom (a ++ r) a.length = some r := by
  simp [sliceFrom]

theorem sliceFrom_append_of_eq {a r : Bytes} {n : Nat} (h : n = a.length) :
    sliceFrom (a ++ r) n = some r := by
  subst h; exact sliceFrom_append a r

theorem sliceTo_append (a r : Bytes) : sliceTo (a ++ r) a.length = some a := by
  simp [sliceTo]

theorem sliceTo_append_of_eq {a r : Bytes} {n : Nat} (h : n = a.length) :
    sliceTo (a ++ r) n = some a := by
  subst h; exact sliceTo_append a r

/-! ### Enumeration round-trips -/

theorem ptype_from_to_byte (t : PType) : PType.from_byte t.to_byte = some t := by
  cases t <;> rfl

theorem creason_from_to_byte (r : CloseReason) :
    CloseReason.from_byte r.to_byte = some r := by
  cases r <;> rfl

theorem ResError.code_lt (e : ResError) : e.code < 2 ^ 16 := by
  cases e <;> simp [ResError.code]

theorem ResError.from_code_code (e : ResError) :
    ResError.from_code e.code = some e := by
  cases e <;> rfl

theorem ResError.from_bytes_append (e : ResError) (bo : ByteOrder) (rest : Bytes) :
    ResError.from_bytes (e.to_bytes bo ++ rest) bo = some e := by
  simp only [ResError.from_bytes, ResError.to_bytes, bytes_to_u16_append,
    Nat.mod_eq_of_lt (ResError.code_lt e), Option.bind_eq_bind,
    Option.some_bind]
  exact ResError.from_code_code e

theorem subid_bytes_length (l : List Nat) (bo : ByteOrder) :
    (subid_bytes l bo).length = 4 * l.length := by
  induction l with
  | nil => rfl
  | cons s l ih =>
    simp only [subid_bytes, List.map_cons, List.flatten_cons, List.length_append,
      u32_to_bytes_length, List.length_cons] at *
    omega

theorem read_sub_ids_append (l : List Nat) (bo : ByteOrder) (rest : Bytes)
    (hv : ∀ s ∈ l, s < 2 ^ 32) :
    read_sub_ids l.length (subid_bytes l bo ++ rest) bo = some l := by
  induction l with
  | nil => rfl
  | cons s l ih =>
    have hs : s < 2 ^ 32 := hv s (by simp)
    have htl : ∀ x ∈ l, x < 2 ^ 32 := fun x hx => hv x (by simp [hx])
    have hdrop :
        ((u32_to_bytes s bo ++ (subid_bytes l bo ++ rest)).drop 4) =
          subid_bytes l bo ++ rest := by
      rw [List.drop_append_of_le_length (by simp [u32_to_bytes_length])]
      simp [u32_to_bytes_length]
    simp only [List.length_cons, read_sub_ids, subid_bytes, List.map_cons,
      List.flatten_cons, List.append_assoc]
    rw [show ((l.map fun s => u32_to_bytes s bo).flatten ++ rest) =
          subid_bytes l bo ++ rest from rfl] at *
    rw [bytes_to_u32_append, Nat.mod_eq_of_lt hs]
    simp only [Option.bind_eq_bind, Option.some_bind, hdrop, ih htl]

/-- Decoding any ID wire form: count byte, prefix byte, include byte, one
reserved byte, then the encoded sub-identifiers (possibly followed by more
buffer).  The result stores the wire count and the normalized list. -/
theorem ID.from_bytes_wire (l : List Nat) (pfx incl z : Nat) (rest : Bytes)
    (bo : ByteOrder) (hv : ∀ s ∈ l, s < 2 ^ 32) :
    ID.from_bytes (l.length :: pfx :: incl :: z :: (subid_bytes l bo ++ rest)) bo
      = some ⟨l.length, incl, normalize l pfx⟩ := by
  simp only [ID.from_bytes, List.length_append, subid_bytes_length]
  rw [if_neg (by omega)]
  rw [read_sub_ids_append l bo rest hv]
  rfl

theorem normalize_zero (l : List Nat) : normalize l 0 = l := by simp [normalize]

/-- The successful form of `ID::to_bytes`. -/
theorem id_to_bytes_eq {id : ID} (h : id.sub_ids.length ≤ 255) (bo : ByteOrder) :
    id.to_bytes bo =
      some (id.sub_ids.length :: 0 :: id.incl :: 0 :: subid_bytes id.sub_ids bo) := by
  simp [ID.to_bytes, h, subid_bytes]

theorem ID.to_bytes_le {id : ID} {bo : ByteOrder} {out : Bytes}
    (h : id.to_bytes bo = some out) : id.sub_ids.length ≤ 255 := by
  unfold ID.to_bytes at h
  split at h
  · assumption
  · cases h

theorem id_to_bytes_length {id : ID} {bo : ByteOrder} {out : Bytes}
    (h : id.to_bytes bo = some out) : out.length = 4 + 4 * id.sub_ids.length := by
  rw [id_to_bytes_eq (ID.to_bytes_le h) bo] at h
  cases h
  simp only [List.length_cons, subid_bytes_length]
  omega

/-- Parsing the output of `ID::to_bytes` (with anything appended): yields the
same sub-ids and include, with the stored count refreshed to the list
length. -/

theorem id_parse_append {id : ID} {bo : ByteOrder} {out : Bytes}
    (hwd : id.to_bytes bo = some out) (hv : ∀ s ∈ id.sub_ids, s < 2 ^ 32)
    (rest : Bytes) :
    ID.from_bytes (out ++ rest) bo = some ⟨id.sub_ids.length, id.incl, id.sub_ids⟩ := by
  rw [id_to_bytes_eq (ID.to_bytes_le hwd) bo] at hwd
  cases hwd
  simpa [normalize_zero] using
    ID.from_bytes_wire id.sub_ids 0 id.incl 0 rest bo hv

theorem id_from_bytes_short {b : Bytes} (h : b.length < 4) (bo : ByteOrder) :
    ID.from_bytes b bo = none := by
  rcases b with _ | ⟨b0, _ | ⟨b1, _ | ⟨b2, _ | ⟨b3, t⟩⟩⟩⟩ <;>
    first
      | rfl
      | exact absurd h (by simp)

theorem take_add_four {α : Type} (m : Nat) (a b c d : α) (t : List α) :
    (a :: b :: c :: d :: t).take (m + 4) = a :: b :: c :: d :: t.take m := by
  rw [show m + 4 = (((m + 1) + 1) + 1) + 1 from rfl]
  simp [List.take_succ_cons]

/-- Any strict prefix of an encoded ID fails to decode: the count byte
promises more sub-identifier bytes than remain. -/
theorem id_from_bytes_take_none {id : ID} {bo : ByteOrder} {out : Bytes}
    (hwd : id.to_bytes bo = some out) {k : Nat} (hk : k < out.length) :
    ID.from_bytes (out.take k) bo = none := by
  have hlen := id_to_bytes_length hwd
  rw [id_to_bytes_eq (ID.to_bytes_le hwd) bo] at hwd
  cases hwd
  by_cases h4 : k < 4
  · exact id_from_bytes_short (by simp [List.length_take]; omega) bo
  · obtain ⟨m, rfl⟩ : ∃ m, k = m + 4 := ⟨k - 4, by omega⟩
    have hm : m < 4 * id.sub_ids.length := by
      simp only [List.length_cons, subid_bytes_length] at hk
      omega
    rw [take_add_four]
    simp only [ID.from_bytes, List.length_take, subid_bytes_length]
    rw [if_pos (by omega)]

/-! ### OctetString lemmas -/

theorem take_append_len {α : Type} (a b : List α) (n : Nat) :
    (a ++ b).take (a.length + n) = a ++ b.take n := by
  simp [List.take_append_eq_append_take, List.take_of_length_le]

theorem drop_append_len {α : Type} (a b : List α) (n : Nat) :
    (a ++ b).drop (a.length + n) = b.drop n := by
  simp [List.drop_append_eq_append_drop, List.drop_of_length_le]

theorem os_to_bytes_eq {os : OctetString}
    (h : os.content.length < 2 ^ 32) (bo : ByteOrder) :
    os.to_bytes bo = some (u32_to_bytes os.content.length bo ++ os.content ++
      List.replicate (pad4 os.content.length) 0) := by
  unfold OctetString.to_bytes
  rw [if_pos h]

theorem OctetString.to_bytes_lt {os : OctetString} {bo : ByteOrder} {out : Bytes}
    (h : os.to_bytes bo = some out) : os.content.length < 2 ^ 32 := by
  unfold OctetString.to_bytes at h
  split at h
  · assumption
  · cases h

theorem os_to_bytes_length {os : OctetString} {bo : ByteOrder}
    {out : Bytes} (h : os.to_bytes bo = some out) : out.length = os.byte_size := by
  rw [os_to_bytes_eq (OctetString.to_bytes_lt h) bo] at h
  cases h
  simp [OctetString.byte_size, u32_to_bytes_length]

/-- Extracting the declared-length content block after a 4-byte length field:
the core of `OctetString::from_bytes`. -/
theorem sliceRange_block (bo : ByteOrder) (v : Nat) (content R : Bytes) :
    sliceRange (u32_to_bytes v bo ++ (content ++ R)) 4 (4 + content.length) =
      some content := by
  unfold sliceRange
  rw [if_pos ⟨by omega, by simp [u32_to_bytes_length]⟩]
  congr 1
  rw [← List.append_assoc]
  rw [show (4 : Nat) + content.length =
        ((u32_to_bytes v bo) ++ content).length by simp [u32_to_bytes_length]]
  rw [List.take_left]
  rw [show (4 : Nat) = (u32_to_bytes v bo).length by simp [u32_to_bytes_length]]
  rw [List.drop_left]

/-- Parsing the output of `OctetString::to_bytes` (with anything appended). -/
theorem os_parse_append {os : OctetString} {bo : ByteOrder} {out : Bytes}
    (hwd : os.to_bytes bo = some out) (hval : utf8_valid os.content = true)
    (rest : Bytes) : OctetString.from_bytes (out ++ rest) bo = some os := by
  have hlt := OctetString.to_bytes_lt hwd
  rw [os_to_bytes_eq hlt bo] at hwd
  cases hwd
  unfold OctetString.from_bytes
  rw [if_neg (by simp [u32_to_bytes_length])]
  rw [List.append_assoc, List.append_assoc, bytes_to_u32_append,
    Nat.mod_eq_of_lt hlt]
  simp only [Option.bind_eq_bind, Option.some_bind]
  by_cases h0 : os.content.length = 0
  · rw [if_pos h0]
    rcases os with ⟨c⟩
    congr
    exact (List.length_eq_zero.mp h0).symm
  · rw [if_neg h0, sliceRange_block]
    simp [hval]

/-- Parsing exactly the output of `OctetString::to_bytes`. -/
theorem os_parse_exact {os : OctetString} {bo : ByteOrder} {out : Bytes}
    (hwd : os.to_bytes bo = some out) (hval : utf8_valid os.content = true) :
    OctetString.from_bytes out bo = some os := by
  have := os_parse_append hwd hval []
  rwa [List.append_nil] at this

/-- Decoding a strict prefix of an encoded OctetString: succeeds exactly when
only trailing padding bytes were cut. -/
theorem os_parse_take {os : OctetString} {bo : ByteOrder} {out : Bytes}
    (hwd : os.to_bytes bo = some out) (hval : utf8_valid os.content = true)
    {k : Nat} (hk : k < out.length) :
    OctetString.from_bytes (out.take k) bo =
      if 4 + os.content.length ≤ k then some os else none := by
  have hlt := OctetString.to_bytes_lt hwd
  have hlen := os_to_bytes_length hwd
  rw [os_to_bytes_eq hlt bo] at hwd
  cases hwd
  simp only [OctetString.byte_size, List.length_append, u32_to_bytes_length,
    List.length_replicate] at hlen hk
  by_cases h4 : k < 4
  · rw [if_neg (by omega)]
    unfold OctetString.from_bytes
    rw [if_pos (by simp [List.length_take]; omega)]
  · obtain ⟨m, rfl⟩ : ∃ m, k = 4 + m := ⟨k - 4, by omega⟩
    have htk : ((u32_to_bytes os.content.length bo ++ os.content ++
        List.replicate (pad4 os.content.length) 0).take (4 + m)) =
        u32_to_bytes os.content.length bo ++
          (os.content ++ List.replicate (pad4 os.content.length) 0).take m := by
      rw [List.append_assoc]
      rw [show (4 : Nat) + m =
            (u32_to_bytes os.content.length bo).length + m by
          simp [u32_to_bytes_length]]
      rw [take_append_len]
    rw [htk]
    unfold OctetString.from_bytes
    rw [if_neg (by simp [u32_to_bytes_length])]
    rw [bytes_to_u32_append, Nat.mod_eq_of_lt hlt]
    simp only [Option.bind_eq_bind, Option.some_bind]
    by_cases h0 : os.content.length = 0
    · rw [if_pos h0, if_pos (by omega)]
      rcases os with ⟨c⟩
      congr
      exact (List.length_eq_zero.mp h0).symm
    · rw [if_neg h0]
      by_cases hcut : 4 + os.content.length ≤ 4 + m
      · rw [if_pos hcut]
        have hX : (os.content ++ List.replicate (pad4 os.content.length) 0).take m
            = os.content ++
              (List.replicate (pad4 os.content.length) 0).take
                (m - os.content.length) := by
          rw [List.take_append_eq_append_take,
            List.take_of_length_le (by omega)]
        rw [hX, sliceRange_block]
        simp [hval]
      · rw [if_neg hcut]
        have hnone :
            sliceRange (u32_to_bytes os.content.length bo ++
              (os.content ++ List.replicate (pad4 os.content.length) 0).take m)
              4 (4 + os.content.length) = none := by
          unfold sliceRange
          rw [if_neg (by
            simp only [List.length_append, List.length_take,
              u32_to_bytes_length, List.length_replicate, not_and, not_le]
            intro
            omega)]
        rw [hnone]
        rfl

theorem id_beq_renorm (id : ID) : ID.beq id.renorm id = true := by
  simp [ID.beq, ID.renorm]

theorem sr_beq_renorm (sr : SearchRange) :
    SearchRange.beq sr.renorm sr = true := by
  simp [SearchRange.beq, SearchRange.renorm, id_beq_renorm]

theorem value_beq_renorm (v : Value) : Value.beq v.renorm v = true := by
  cases v <;> simp [Value.beq, Value.renorm, id_beq_renorm]

theorem vbind_beq_renorm (vb : VarBind) : VarBind.beq vb.renorm vb = true := by
  simp [VarBind.beq, VarBind.renorm, id_beq_renorm, value_beq_renorm]

theorem id_renorm_byte_size {id : ID} {bo : ByteOrder} {out : Bytes}
    (h : id.to_bytes bo = some out) : id.renorm.byte_size = out.length := by
  rw [id_to_bytes_length h]
  simp [ID.renorm, ID.byte_size]

/-! ### Context lemmas -/

theorem ctx_parse_append {c : Context} {bo : ByteOrder} {out : Bytes}
    (hwd : c.os.to_bytes bo = some out) (hval : utf8_valid c.os.content = true)
    (rest : Bytes) : Context.from_bytes (out ++ rest) bo = some c := by
  unfold Context.from_bytes
  rw [os_parse_append hwd hval rest]
  rfl

/-! ### SearchRange lemmas -/

theorem sr_to_bytes_parts {sr : SearchRange} {bo : ByteOrder}
    {out : Bytes} (h : sr.to_bytes bo = some out) :
    ∃ s e, sr.start.to_bytes bo = some s ∧ sr.end_.to_bytes bo = some e ∧
      out = s ++ e := by
  unfold SearchRange.to_bytes at h
  rcases hs : sr.start.to_bytes bo with _ | s <;> rw [hs] at h
  · cases h
  rcases he : sr.end_.to_bytes bo with _ | e <;> rw [he] at h
  · cases h
  exact ⟨s, e, rfl, rfl, by cases h; rfl⟩

theorem sr_parse_append {sr : SearchRange} {bo : ByteOrder}
    {out : Bytes} (hwf : sr.wf) (hout : sr.to_bytes bo = some out)
    (rest : Bytes) :
    SearchRange.from_bytes (out ++ rest) bo = some sr.renorm := by
  obtain ⟨s, e, hs, he, rfl⟩ := sr_to_bytes_parts hout
  unfold SearchRange.from_bytes
  rw [List.append_assoc]
  rw [id_parse_append hs hwf.1.2.2 (e ++ rest)]
  simp only [Option.bind_eq_bind, Option.some_bind]
  rw [show (ID.mk sr.start.sub_ids.length sr.start.incl sr.start.sub_ids)
        = sr.start.renorm from rfl]
  rw [sliceFrom_append_of_eq (id_renorm_byte_size hs)]
  simp only [Option.bind_eq_bind, Option.some_bind]
  rw [id_parse_append he hwf.2.2.2 rest]
  rfl

theorem sr_renorm_byte_size {sr : SearchRange} {bo : ByteOrder}
    {out : Bytes} (h : sr.to_bytes bo = some out) :
    sr.renorm.byte_size = out.length := by
  obtain ⟨s, e, hs, he, rfl⟩ := sr_to_bytes_parts h
  simp only [SearchRange.renorm, SearchRange.byte_size, List.length_append]
  rw [id_renorm_byte_size hs, id_renorm_byte_size he]

theorem sr_from_bytes_take_none {sr : SearchRange} {bo : ByteOrder}
    {out : Bytes} (hwf : sr.wf) (hout : sr.to_bytes bo = some out)
    {k : Nat} (hk : k < out.length) :
    SearchRange.from_bytes (out.take k) bo = none := by
  obtain ⟨s, e, hs, he, rfl⟩ := sr_to_bytes_parts hout
  by_cases hks : k < s.length
  · have htake : (s ++ e).take k = s.take k := by
      rw [List.take_append_eq_append_take, show k - s.length = 0 by omega,
        List.take_zero, List.append_nil]
    rw [htake]
    unfold SearchRange.from_bytes
    rw [id_from_bytes_take_none hs hks]
    rfl
  · have htake : (s ++ e).take k = s ++ e.take (k - s.length) := by
      rw [List.take_append_eq_append_take, List.take_of_length_le (by omega)]
    rw [htake]
    unfold SearchRange.from_bytes
    rw [id_parse_append hs hwf.1.2.2 (e.take (k - s.length))]
    simp only [Option.bind_eq_bind, Option.some_bind]
    rw [show (ID.mk sr.start.sub_ids.length sr.start.incl sr.start.sub_ids)
          = sr.start.renorm from rfl]
    rw [sliceFrom_append_of_eq (id_renorm_byte_size hs)]
    simp only [Option.bind_eq_bind, Option.some_bind]
    have hke : k - s.length < e.length := by
      simp only [List.length_append] at hk
      omega
    rw [id_from_bytes_take_none he hke]
    rfl

/-! ### SearchRangeList lemmas -/

theorem sr_to_bytes_pos {sr : SearchRange} {bo : ByteOrder}
    {out : Bytes} (h : sr.to_bytes bo = some out) : 0 < out.length := by
  obtain ⟨s, e, hs, he, rfl⟩ := sr_to_bytes_parts h
  have := id_to_bytes_length hs
  simp only [List.length_append]
  omega

theorem srl_to_bytes_cons (sr : SearchRange) (t : List SearchRange)
    (bo : ByteOrder) :
    SearchRangeList.to_bytes ⟨sr :: t⟩ bo =
      (sr.to_bytes bo).bind (fun e =>
        (SearchRangeList.to_bytes ⟨t⟩ bo).bind (fun tl => some (e ++ tl))) := rfl

theorem srl_to_bytes_parts {sr : SearchRange} {t : List SearchRange}
    {bo : ByteOrder} {out : Bytes}
    (h : SearchRangeList.to_bytes ⟨sr :: t⟩ bo = some out) :
    ∃ e tl, sr.to_bytes bo = some e ∧ SearchRangeList.to_bytes ⟨t⟩ bo = some tl ∧
      out = e ++ tl := by
  rw [srl_to_bytes_cons] at h
  rcases he : sr.to_bytes bo with _ | e <;> rw [he] at h
  · cases h
  rcases ht : SearchRangeList.to_bytes ⟨t⟩ bo with _ | tl <;> rw [ht] at h
  · cases h
  exact ⟨e, tl, rfl, rfl, by cases h; rfl⟩

theorem srl_from_bytes_nil (bo : ByteOrder) :
    SearchRangeList.from_bytes [] bo = some ⟨[]⟩ := by
  rw [SearchRangeList.from_bytes]
  rfl

/-- Bind-shaped unfolding of the `SearchRangeList::from_bytes` loop on a
nonempty buffer. -/
theorem srl_from_bytes_cons {b : Bytes} (hb : b ≠ []) (bo : ByteOrder) :
    SearchRangeList.from_bytes b bo =
      (SearchRange.from_bytes b bo).bind (fun sr =>
        (sliceFrom b sr.byte_size).bind (fun b2 =>
          (SearchRangeList.from_bytes b2 bo).map
            (fun tl => ⟨sr :: tl.ranges⟩))) := by
  rw [SearchRangeList.from_bytes]
  rw [dif_neg (by simpa [List.isEmpty_iff] using hb)]
  cases hsr : SearchRange.from_bytes b bo with
  | none => rfl
  | some sr =>
    simp only [Option.bind_eq_bind, Option.some_bind]
    cases h2 : sliceFrom b sr.byte_size with
    | none => rfl
    | some b2 =>
      simp only [Option.bind_eq_bind, Option.some_bind]
      cases SearchRangeList.from_bytes b2 bo <;> rfl

/-- Decoding the concatenation of `N` encoded SearchRanges yields exactly the
`N` re-normalized ranges. -/
theorem srl_parse_concat {l : List SearchRange} {bo : ByteOrder}
    {out : Bytes} (hwf : ∀ sr ∈ l, sr.wf)
    (hout : SearchRangeList.to_bytes ⟨l⟩ bo = some out) :
    SearchRangeList.from_bytes out bo = some ⟨l.map SearchRange.renorm⟩ := by
  induction l generalizing out with
  | nil =>
    cases hout
    exact srl_from_bytes_nil bo
  | cons sr t ih =>
    obtain ⟨e, tl, he, ht, rfl⟩ := srl_to_bytes_parts hout
    have hwfh : sr.wf := hwf sr (by simp)
    have hwft : ∀ x ∈ t, x.wf := fun x hx => hwf x (by simp [hx])
    rw [srl_from_bytes_cons (by
      have := sr_to_bytes_pos he
      intro h
      rw [List.append_eq_nil] at h
      rw [h.1] at this
      simp at this) bo]
    rw [sr_parse_append hwfh he tl]
    simp only [Option.bind_eq_bind, Option.some_bind]
    rw [sliceFrom_append_of_eq (sr_renorm_byte_size he)]
    simp only [Option.bind_eq_bind, Option.some_bind]
    rw [ih hwft ht]
    rfl

/-- Appending a nonempty strict prefix of one more encoded SearchRange makes
the whole list decode fail. -/
theorem srl_parse_concat_partial {l : List SearchRange}
    {bo : ByteOrder} {out : Bytes} {sr' : SearchRange} {fout : Bytes}
    (hwf : ∀ sr ∈ l, sr.wf)
    (hout : SearchRangeList.to_bytes ⟨l⟩ bo = some out)
    (hwf' : sr'.wf) (hout' : sr'.to_bytes bo = some fout)
    {k : Nat} (hk0 : 0 < k) (hk : k < fout.length) :
    SearchRangeList.from_bytes (out ++ fout.take k) bo = none := by
  induction l generalizing out with
  | nil =>
    cases hout
    rw [List.nil_append]
    rw [srl_from_bytes_cons (by
      rw [← List.length_eq_zero.ne]
      simp only [List.length_take]
      omega) bo]
    rw [sr_from_bytes_take_none hwf' hout' hk]
    rfl
  | cons sr t ih =>
    obtain ⟨e, tl, he, ht, rfl⟩ := srl_to_bytes_parts hout
    have hwfh : sr.wf := hwf sr (by simp)
    have hwft : ∀ x ∈ t, x.wf := fun x hx => hwf x (by simp [hx])
    rw [List.append_assoc]
    rw [srl_from_bytes_cons (by
      have := sr_to_bytes_pos he
      intro h
      rw [List.append_eq_nil] at h
      rw [h.1] at this
      simp at this) bo]
    rw [sr_parse_append hwfh he (tl ++ fout.take k)]
    simp only [Option.bind_eq_bind, Option.some_bind]
    rw [sliceFrom_append_of_eq (sr_renorm_byte_size he)]
    simp only [Option.bind_eq_bind, Option.some_bind]
    rw [ih hwft ht]
    rfl

/-! ### VarBind lemmas -/

theorem bytes_to_u16_short {b : Bytes} (h : b.length < 2) (bo : ByteOrder) :
    bytes_to_u16 b bo = none := by
  rcases b with _ | ⟨b0, _ | ⟨b1, t⟩⟩ <;>
    first
      | rfl
      | exact absurd h (by simp)

theorem bytes_to_u32_short {b : Bytes} (h : b.length < 4) (bo : ByteOrder) :
    bytes_to_u32 b bo = none := by
  rcases b with _ | ⟨b0, _ | ⟨b1, _ | ⟨b2, _ | ⟨b3, t⟩⟩⟩⟩ <;>
    first
      | rfl
      | exact absurd h (by simp)

theorem bytes_to_u64_short {b : Bytes} (h : b.length < 8) (bo : ByteOrder) :
    bytes_to_u64 b bo = none := by
  rcases b with
    _ | ⟨b0, _ | ⟨b1, _ | ⟨b2, _ | ⟨b3, _ | ⟨b4, _ | ⟨b5, _ | ⟨b6, _ | ⟨b7, t⟩⟩⟩⟩⟩⟩⟩⟩ <;>
    first
      | rfl
      | exact absurd h (by simp)

theorem vbind_to_bytes_parts {vb : VarBind} {bo : ByteOrder} {out : Bytes}
    (h : vb.to_bytes bo = some out) :
    ∃ ty db nb, vb.data.tag_and_bytes bo = some (ty, db) ∧
      vb.name.to_bytes bo = some nb ∧
      out = u16_to_bytes ty bo ++ [0, 0] ++ nb ++ db := by
  unfold VarBind.to_bytes at h
  rcases htd : vb.data.tag_and_bytes bo with _ | ⟨ty, db⟩ <;> rw [htd] at h
  · cases h
  rcases hnb : vb.name.to_bytes bo with _ | nb <;> rw [hnb] at h
  · cases h
  exact ⟨ty, db, nb, rfl, rfl, by cases h; rfl⟩

/-- The tag emitted for any value is one of the 13 known codes (so in
particular it fits a `u16`). -/
theorem Value.tag_mem {v : Value} {bo : ByteOrder} {ty : Nat} {db : Bytes}
    (h : v.tag_and_bytes bo = some (ty, db)) :
    ty ∈ [2, 4, 5, 6, 64, 65, 66, 67, 68, 70, 128, 129, 130] := by
  cases v <;>
    simp only [Value.tag_and_bytes, Option.map_eq_some', Option.some.injEq,
      Prod.mk.injEq] at h <;>
    first
      | (obtain ⟨rfl, -⟩ := h; decide)
      | (obtain ⟨x, hx, rfl, -⟩ := h; decide)

theorem Value.tag_lt {v : Value} {bo : ByteOrder} {ty : Nat} {db : Bytes}
    (h : v.tag_and_bytes bo = some (ty, db)) : ty < 2 ^ 16 := by
  have := Value.tag_mem h
  simp at this
  rcases this with h | h | h | h | h | h | h | h | h | h | h | h | h <;>
    subst h <;> decide

/-- Parsing a VarBind buffer of the canonical shape
`tag ++ reserved ++ encoded-name ++ R`: the head fields and the name parse
deterministically, leaving the value decode on `R`. -/
theorem VarBind.parse_skeleton {name : ID} {bo : ByteOrder} {nb : Bytes}
    (hnb : name.to_bytes bo = some nb)
    (hv : ∀ s ∈ name.sub_ids, s < 2 ^ 32)
    {ty : Nat} (hty : ty < 2 ^ 16) (R : Bytes) :
    VarBind.from_bytes (u16_to_bytes ty bo ++ [0, 0] ++ nb ++ R) bo =
      (Value.from_tag ty R bo).map (fun data => ⟨name.renorm, data⟩) := by
  have hnlen := id_to_bytes_length hnb
  have hd : nb = name.sub_ids.length :: 0 :: name.incl :: 0 ::
      subid_bytes name.sub_ids bo := by
    have := id_to_bytes_eq (ID.to_bytes_le hnb) bo
    rw [hnb] at this
    exact Option.some.inj this
  have hname : ID.from_bytes nb bo = some name.renorm := by
    have := id_parse_append hnb hv []
    rwa [List.append_nil] at this
  unfold VarBind.from_bytes
  rw [if_neg (by simp [u16_to_bytes_length])]
  have h16 : bytes_to_u16 (u16_to_bytes ty bo ++ [0, 0] ++ nb ++ R) bo
      = some ty := by
    rw [List.append_assoc, List.append_assoc, bytes_to_u16_append,
      Nat.mod_eq_of_lt hty]
  rw [h16]
  simp only [Option.bind_eq_bind, Option.some_bind]
  rw [show u16_to_bytes ty bo ++ [0, 0] ++ nb ++ R
        = (u16_to_bytes ty bo ++ [0, 0]) ++ (nb ++ R) by simp]
  rw [sliceFrom_append_of_eq (by simp [u16_to_bytes_length])]
  simp only [Option.bind_eq_bind, Option.some_bind]
  rw [if_neg (by rw [hd]; simp)]
  have hhead : (nb ++ R).headD 0 = name.sub_ids.length := by rw [hd]; rfl
  rw [hhead]
  rw [sliceTo_append_of_eq (by omega)]
  simp only [Option.bind_eq_bind, Option.some_bind]
  rw [hname]
  simp only [Option.bind_eq_bind, Option.some_bind]
  rw [sliceFrom_append_of_eq (by omega)]
  simp only [Option.bind_eq_bind, Option.some_bind]
  cases Value.from_tag ty R bo <;> rfl

/-- Parsing the output of `VarBind::to_bytes` (with anything appended). -/
theorem vbind_parse_append {vb : VarBind} {bo : ByteOrder} {out : Bytes}
    (hwf : vb.wf) (hout : vb.to_bytes bo = some out) (rest : Bytes) :
    VarBind.from_bytes (out ++ rest) bo = some vb.renorm := by
  obtain ⟨ty, db, nb, htd, hnb, rfl⟩ := vbind_to_bytes_parts hout
  have hv : ∀ s ∈ vb.name.sub_ids, s < 2 ^ 32 := hwf.1.2.2
  have hty := Value.tag_lt htd
  rw [show (u16_to_bytes ty bo ++ [0, 0] ++ nb ++ db) ++ rest
        = u16_to_bytes ty bo ++ [0, 0] ++ nb ++ (db ++ rest) by simp]
  rw [VarBind.parse_skeleton hnb hv hty (db ++ rest)]
  have hdwf : vb.data.wf := hwf.2
  rcases vb with ⟨name, data⟩
  cases data with
  | Integer v =>
    simp only [Value.tag_and_bytes, Option.some.injEq, Prod.mk.injEq] at htd
    obtain ⟨rfl, rfl⟩ := htd
    have hlt : v < 2 ^ 32 := hdwf
    simp [Value.from_tag, bytes_to_i32, i32_to_bytes, bytes_to_u32_append,
      VarBind.renorm, Value.renorm]
    omega
  | Counter32 v =>
    simp only [Value.tag_and_bytes, Option.some.injEq, Prod.mk.injEq] at htd
    obtain ⟨rfl, rfl⟩ := htd
    have hlt : v < 2 ^ 32 := hdwf
    simp [Value.from_tag, bytes_to_u32_append, VarBind.renorm, Value.renorm]
    omega
  | Gauge32 v =>
    simp only [Value.tag_and_bytes, Option.some.injEq, Prod.mk.injEq] at htd
    obtain ⟨rfl, rfl⟩ := htd
    have hlt : v < 2 ^ 32 := hdwf
    simp [Value.from_tag, bytes_to_u32_append, VarBind.renorm, Value.renorm]
    omega
  | TimeTicks v =>
    simp only [Value.tag_and_bytes, Option.some.injEq, Prod.mk.injEq] at htd
    obtain ⟨rfl, rfl⟩ := htd
    have hlt : v < 2 ^ 32 := hdwf
    simp [Value.from_tag, bytes_to_i32, i32_to_bytes, bytes_to_u32_append,
      VarBind.renorm, Value.renorm]
    omega
  | Counter64 v =>
    simp only [Value.tag_and_bytes, Option.some.injEq, Prod.mk.injEq] at htd
    obtain ⟨rfl, rfl⟩ := htd
    have hlt : v < 2 ^ 64 := hdwf
    simp [Value.from_tag, bytes_to_u64_append, VarBind.renorm, Value.renorm]
    omega
  | Null =>
    simp only [Value.tag_and_bytes, Option.some.injEq, Prod.mk.injEq] at htd
    obtain ⟨rfl, rfl⟩ := htd
    simp [Value.from_tag, VarBind.renorm, Value.renorm]
  | NoSuchObject =>
    simp only [Value.tag_and_bytes, Option.some.injEq, Prod.mk.injEq] at htd
    obtain ⟨rfl, rfl⟩ := htd
    simp [Value.from_tag, VarBind.renorm, Value.renorm]
  | NoSuchInstance =>
    simp only [Value.tag_and_bytes, Option.some.injEq, Prod.mk.injEq] at htd
    obtain ⟨rfl, rfl⟩ := htd
    simp [Value.from_tag, VarBind.renorm, Value.renorm]
  | EndOfMibView =>
    simp only [Value.tag_and_bytes, Option.some.injEq, Prod.mk.injEq] at htd
    obtain ⟨rfl, rfl⟩ := htd
    simp [Value.from_tag, VarBind.renorm, Value.renorm]
  | OctetString os =>
    simp only [Value.tag_and_bytes, Option.map_eq_some', Prod.mk.injEq] at htd
    obtain ⟨x, hx, rfl, rfl⟩ := htd
    rw [show Value.from_tag 4 (x ++ rest) bo
          = (OctetString.from_bytes (x ++ rest) bo).map Value.OctetString from rfl]
    rw [os_parse_append hx hdwf.1 rest]
    simp [VarBind.renorm, Value.renorm]
  | IpAddress os =>
    simp only [Value.tag_and_bytes, Option.map_eq_some', Prod.mk.injEq] at htd
    obtain ⟨x, hx, rfl, rfl⟩ := htd
    rw [show Value.from_tag 64 (x ++ rest) bo
          = (OctetString.from_bytes (x ++ rest) bo).map Value.IpAddress from rfl]
    rw [os_parse_append hx hdwf.1 rest]
    simp [VarBind.renorm, Value.renorm]
  | Opaque os =>
    simp only [Value.tag_and_bytes, Option.map_eq_some', Prod.mk.injEq] at htd
    obtain ⟨x, hx, rfl, rfl⟩ := htd
    rw [show Value.from_tag 68 (x ++ rest) bo
          = (OctetString.from_bytes (x ++ rest) bo).map Value.Opaque from rfl]
    rw [os_parse_append hx hdwf.1 rest]
    simp [VarBind.renorm, Value.renorm]
  | ObjectIdentifier id =>
    simp only [Value.tag_and_bytes, Option.map_eq_some', Prod.mk.injEq] at htd
    obtain ⟨x, hx, rfl, rfl⟩ := htd
    rw [show Value.from_tag 6 (x ++ rest) bo
          = (ID.from_bytes (x ++ rest) bo).map Value.ObjectIdentifier from rfl]
    rw [id_parse_append hx hdwf.2.2 rest]
    simp [VarBind.renorm, Value.renorm, ID.renorm]

/-- The re-decoded VarBind reports exactly the number of bytes its encoding
occupies. -/
theorem vbind_renorm_byte_size {vb : VarBind} {bo : ByteOrder} {out : Bytes}
    (hout : vb.to_bytes bo = some out) : vb.renorm.byte_size = out.length := by
  rcases vb with ⟨name, data⟩
  obtain ⟨ty, db, nb, htd, hnb, rfl⟩ := vbind_to_bytes_parts hout
  simp only at htd hnb
  have hnlen := id_to_bytes_length hnb
  simp only [VarBind.renorm, VarBind.byte_size, ID.renorm, ID.byte_size,
    List.length_append, u16_to_bytes_length, List.length_cons, List.length_nil]
  cases data <;>
    simp only [Value.tag_and_bytes, Option.some.injEq, Prod.mk.injEq,
      Option.map_eq_some'] at htd
  case Integer v =>
    obtain ⟨rfl, rfl⟩ := htd
    simp only [Value.renorm, Value.byte_size, i32_to_bytes, u32_to_bytes_length]
    omega
  case Counter32 v =>
    obtain ⟨rfl, rfl⟩ := htd
    simp only [Value.renorm, Value.byte_size, u32_to_bytes_length]
    omega
  case Gauge32 v =>
    obtain ⟨rfl, rfl⟩ := htd
    simp only [Value.renorm, Value.byte_size, u32_to_bytes_length]
    omega
  case TimeTicks v =>
    obtain ⟨rfl, rfl⟩ := htd
    simp only [Value.renorm, Value.byte_size, i32_to_bytes, u32_to_bytes_length]
    omega
  case Counter64 v =>
    obtain ⟨rfl, rfl⟩ := htd
    simp only [Value.renorm, Value.byte_size, u64_to_bytes_length]
    omega
  case Null =>
    obtain ⟨rfl, rfl⟩ := htd
    simp only [Value.renorm, Value.byte_size, List.length_nil]
    omega
  case NoSuchObject =>
    obtain ⟨rfl, rfl⟩ := htd
    simp only [Value.renorm, Value.byte_size, List.length_nil]
    omega
  case NoSuchInstance =>
    obtain ⟨rfl, rfl⟩ := htd
    simp only [Value.renorm, Value.byte_size, List.length_nil]
    omega
  case EndOfMibView =>
    obtain ⟨rfl, rfl⟩ := htd
    simp only [Value.renorm, Value.byte_size, List.length_nil]
    omega
  case OctetString os =>
    obtain ⟨x, hx, rfl, rfl⟩ := htd
    simp only [Value.renorm, Value.byte_size]
    rw [os_to_bytes_length hx]
    omega
  case IpAddress os =>
    obtain ⟨x, hx, rfl, rfl⟩ := htd
    simp only [Value.renorm, Value.byte_size]
    rw [os_to_bytes_length hx]
    omega
  case Opaque os =>
    obtain ⟨x, hx, rfl, rfl⟩ := htd
    simp only [Value.renorm, Value.byte_size]
    rw [os_to_bytes_length hx]
    omega
  case ObjectIdentifier id =>
    obtain ⟨x, hx, rfl, rfl⟩ := htd
    simp only [Value.renorm, Value.byte_size, ID.renorm, ID.byte_size]
    rw [id_to_bytes_length hx]
    omega

/-- Decoding a strict prefix of an encoded VarBind: either an error, or (when
only trailing OctetString padding was cut) the full VarBind — whose reported
size then still exceeds the prefix. -/
theorem vbind_parse_take {vb : VarBind} {bo : ByteOrder} {out : Bytes}
    (hwf : vb.wf) (hout : vb.to_bytes bo = some out) {k : Nat}
    (hk : k < out.length) :
    VarBind.from_bytes (out.take k) bo = none ∨
      VarBind.from_bytes (out.take k) bo = some vb.renorm := by
  obtain ⟨ty, db, nb, htd, hnb, rfl⟩ := vbind_to_bytes_parts hout
  have hv : ∀ s ∈ vb.name.sub_ids, s < 2 ^ 32 := hwf.1.2.2
  have hty := Value.tag_lt htd
  have hnlen := id_to_bytes_length hnb
  have hd : nb = vb.name.sub_ids.length :: 0 :: vb.name.incl :: 0 ::
      subid_bytes vb.name.sub_ids bo := by
    have := id_to_bytes_eq (ID.to_bytes_le hnb) bo
    rw [hnb] at this
    exact Option.some.inj this
  have houtlen : (u16_to_bytes ty bo ++ [0, 0] ++ nb ++ db).length
      = 4 + nb.length + db.length := by
    simp [u16_to_bytes_length]
    omega
  have htklen : ((u16_to_bytes ty bo ++ [0, 0] ++ nb ++ db).take k).length = k := by
    simp only [List.length_take]
    omega
  by_cases h2 : k < 2
  · left
    unfold VarBind.from_bytes
    rw [if_pos (by omega)]
  by_cases h4 : k < 4
  · left
    unfold VarBind.from_bytes
    rw [if_neg (by omega)]
    have htk : (u16_to_bytes ty bo ++ [0, 0] ++ nb ++ db).take k
        = u16_to_bytes ty bo ++ ([0, 0] ++ (nb ++ db)).take (k - 2) := by
      rw [List.append_assoc, List.append_assoc, List.take_append_eq_append_take,
        List.take_of_length_le (by simp [u16_to_bytes_length]; omega)]
      simp [u16_to_bytes_length]
    rw [htk, bytes_to_u16_append, Nat.mod_eq_of_lt hty]
    simp only [Option.bind_eq_bind, Option.some_bind]
    have hsf : sliceFrom (u16_to_bytes ty bo ++
        ([0, 0] ++ (nb ++ db)).take (k - 2)) 4 = none := by
      unfold sliceFrom
      rw [if_neg (by
        simp only [List.length_append, List.length_take, u16_to_bytes_length,
          List.length_cons, List.length_nil]
        omega)]
    rw [hsf]
    rfl
  by_cases hkn : k - 4 < nb.length
  · left
    have htk : (u16_to_bytes ty bo ++ [0, 0] ++ nb ++ db).take k
        = (u16_to_bytes ty bo ++ [0, 0]) ++ (nb ++ db).take (k - 4) := by
      rw [List.append_assoc, List.take_append_eq_append_take,
        List.take_of_length_le (by simp [u16_to_bytes_length]; omega)]
      congr 2
      simp [u16_to_bytes_length]
    rw [htk]
    unfold VarBind.from_bytes
    rw [if_neg (by
      simp only [List.length_append, List.length_take, u16_to_bytes_length,
        List.length_cons, List.length_nil]
      omega)]
    rw [show bytes_to_u16 ((u16_to_bytes ty bo ++ [0, 0]) ++ (nb ++ db).take (k - 4)) bo
          = some ty from by
      rw [List.append_assoc, bytes_to_u16_append, Nat.mod_eq_of_lt hty]]
    simp only [Option.bind_eq_bind, Option.some_bind]
    rw [sliceFrom_append_of_eq (by simp [u16_to_bytes_length])]
    simp only [Option.bind_eq_bind, Option.some_bind]
    have hne : ((nb ++ db).take (k - 4)).length = k - 4 := by
      simp only [List.length_take, List.length_append]
      omega
    by_cases hk4 : k - 4 = 0
    · rw [if_pos (by rw [hne, hk4]; omega)]
    · rw [if_neg (by rw [hne]; omega)]
      have hhd : ((nb ++ db).take (k - 4)).headD 0 = vb.name.sub_ids.length := by
        obtain ⟨m, hm⟩ : ∃ m, k - 4 = m + 1 := ⟨k - 5, by omega⟩
        rw [hm, hd]
        rfl
      rw [hhd]
      rw [show sliceTo ((nb ++ db).take (k - 4)) (4 + vb.name.sub_ids.length * 4)
            = none from by
        unfold sliceTo
        rw [if_neg (by rw [hne]; omega)]]
      rfl
  · -- the name is complete; the cut is inside the value payload
    obtain ⟨m, hm⟩ : ∃ m, k = 4 + nb.length + m := ⟨k - 4 - nb.length, by omega⟩
    have hmdb : m < db.length := by omega
    have htk : (u16_to_bytes ty bo ++ [0, 0] ++ nb ++ db).take k
        = u16_to_bytes ty bo ++ [0, 0] ++ nb ++ db.take m := by
      rw [List.take_append_eq_append_take,
        List.take_of_length_le (by simp [u16_to_bytes_length]; omega)]
      congr 1
      simp only [List.length_append, List.length_cons, List.length_nil,
        u16_to_bytes_length]
      congr 1
      omega
    rw [htk, VarBind.parse_skeleton hnb hv hty (db.take m)]
    have hdwf : vb.data.wf := hwf.2
    rcases vb with ⟨name, data⟩
    cases data with
    | Integer v =>
      simp only [Value.tag_and_bytes, Option.some.injEq, Prod.mk.injEq,
        Option.map_eq_some'] at htd
      obtain ⟨rfl, rfl⟩ := htd
      left
      rw [show Value.from_tag 2 ((i32_to_bytes v bo).take m) bo
            = (bytes_to_u32 ((i32_to_bytes v bo).take m) bo).map Value.Integer
            from rfl]
      rw [bytes_to_u32_short (by
        simp only [List.length_take, i32_to_bytes, u32_to_bytes_length]
        simp only [i32_to_bytes, u32_to_bytes_length] at hmdb
        omega) bo]
      rfl
    | Counter32 v =>
      simp only [Value.tag_and_bytes, Option.some.injEq, Prod.mk.injEq,
        Option.map_eq_some'] at htd
      obtain ⟨rfl, rfl⟩ := htd
      left
      rw [show Value.from_tag 65 ((u32_to_bytes v bo).take m) bo
            = (bytes_to_u32 ((u32_to_bytes v bo).take m) bo).map Value.Counter32
            from rfl]
      rw [bytes_to_u32_short (by
        simp only [List.length_take, u32_to_bytes_length]
        simp only [u32_to_bytes_length] at hmdb
        omega) bo]
      rfl
    | Gauge32 v =>
      simp only [Value.tag_and_bytes, Option.some.injEq, Prod.mk.injEq,
        Option.map_eq_some'] at htd
      obtain ⟨rfl, rfl⟩ := htd
      left
      rw [show Value.from_tag 66 ((u32_to_bytes v bo).take m) bo
            = (bytes_to_u32 ((u32_to_bytes v bo).take m) bo).map Value.Gauge32
            from rfl]
      rw [bytes_to_u32_short (by
        simp only [List.length_take, u32_to_bytes_length]
        simp only [u32_to_bytes_length] at hmdb
        omega) bo]
      rfl
    | TimeTicks v =>
      simp only [Value.tag_and_bytes, Option.some.injEq, Prod.mk.injEq,
        Option.map_eq_some'] at htd
      obtain ⟨rfl, rfl⟩ := htd
      left
      rw [show Value.from_tag 67 ((i32_to_bytes v bo).take m) bo
            = (bytes_to_u32 ((i32_to_bytes v bo).take m) bo).map Value.TimeTicks
            from rfl]
      rw [bytes_to_u32_short (by
        simp only [List.length_take, i32_to_bytes, u32_to_bytes_length]
        simp only [i32_to_bytes, u32_to_bytes_length] at hmdb
        omega) bo]
      rfl
    | Counter64 v =>
      simp only [Value.tag_and_bytes, Option.some.injEq, Prod.mk.injEq,
        Option.map_eq_some'] at htd
      obtain ⟨rfl, rfl⟩ := htd
      left
      rw [show Value.from_tag 70 ((u64_to_bytes v bo).take m) bo
            = (bytes_to_u64 ((u64_to_bytes v bo).take m) bo).map Value.Counter64
            from rfl]
      rw [bytes_to_u64_short (by
        simp only [List.length_take, u64_to_bytes_length]
        simp only [u64_to_bytes_length] at hmdb
        omega) bo]
      rfl
    | Null =>
      simp only [Value.tag_and_bytes, Option.some.injEq, Prod.mk.injEq,
        Option.map_eq_some'] at htd
      obtain ⟨rfl, rfl⟩ := htd
      exact absurd hmdb (by simp)
    | NoSuchObject =>
      simp only [Value.tag_and_bytes, Option.some.injEq, Prod.mk.injEq,
        Option.map_eq_some'] at htd
      obtain ⟨rfl, rfl⟩ := htd
      exact absurd hmdb (by simp)
    | NoSuchInstance =>
      simp only [Value.tag_and_bytes, Option.some.injEq, Prod.mk.injEq,
        Option.map_eq_some'] at htd
      obtain ⟨rfl, rfl⟩ := htd
      exact absurd hmdb (by simp)
    | EndOfMibView =>
      simp only [Value.tag_and_bytes, Option.some.injEq, Prod.mk.injEq,
        Option.map_eq_some'] at htd
      obtain ⟨rfl, rfl⟩ := htd
      exact absurd hmdb (by simp)
    | ObjectIdentifier id =>
      simp only [Value.tag_and_bytes, Option.some.injEq, Prod.mk.injEq,
        Option.map_eq_some'] at htd
      obtain ⟨x, hx, rfl, rfl⟩ := htd
      left
      rw [show Value.from_tag 6 (x.take m) bo
            = (ID.from_bytes (x.take m) bo).map Value.ObjectIdentifier from rfl]
      rw [id_from_bytes_take_none hx hmdb]
      rfl
    | OctetString os =>
      simp only [Value.tag_and_bytes, Option.some.injEq, Prod.mk.injEq,
        Option.map_eq_some'] at htd
      obtain ⟨x, hx, rfl, rfl⟩ := htd
      rw [show Value.from_tag 4 (x.take m) bo
            = (OctetString.from_bytes (x.take m) bo).map Value.OctetString
            from rfl]
      rw [os_parse_take hx hdwf.1 hmdb]
      by_cases hcut : 4 + os.content.length ≤ m
      · right
        rw [if_pos hcut]
        rfl
      · left
        rw [if_neg hcut]
        rfl
    | IpAddress os =>
      simp only [Value.tag_and_bytes, Option.some.injEq, Prod.mk.injEq,
        Option.map_eq_some'] at htd
      obtain ⟨x, hx, rfl, rfl⟩ := htd
      rw [show Value.from_tag 64 (x.take m) bo
            = (OctetString.from_bytes (x.take m) bo).map Value.IpAddress
            from rfl]
      rw [os_parse_take hx hdwf.1 hmdb]
      by_cases hcut : 4 + os.content.length ≤ m
      · right
        rw [if_pos hcut]
        rfl
      · left
        rw [if_neg hcut]
        rfl
    | Opaque os =>
      simp only [Value.tag_and_bytes, Option.some.injEq, Prod.mk.injEq,
        Option.map_eq_some'] at htd
      obtain ⟨x, hx, rfl, rfl⟩ := htd
      rw [show Value.from_tag 68 (x.take m) bo
            = (OctetString.from_bytes (x.take m) bo).map Value.Opaque
            from rfl]
      rw [os_parse_take hx hdwf.1 hmdb]
      by_cases hcut : 4 + os.content.length ≤ m
      · right
        rw [if_pos hcut]
        rfl
      · left
        rw [if_neg hcut]
        rfl

/-! ### VarBindList lemmas -/

theorem vbind_to_bytes_pos {vb : VarBind} {bo : ByteOrder} {out : Bytes}
    (h : vb.to_bytes bo = some out) : 0 < out.length := by
  obtain ⟨ty, db, nb, htd, hnb, rfl⟩ := vbind_to_bytes_parts h
  simp [u16_to_bytes_length]

theorem vbl_to_bytes_cons (vb : VarBind) (t : List VarBind)
    (bo : ByteOrder) :
    VarBindList.to_bytes ⟨vb :: t⟩ bo =
      (vb.to_bytes bo).bind (fun e =>
        (VarBindList.to_bytes ⟨t⟩ bo).bind (fun tl => some (e ++ tl))) := rfl

theorem vbl_to_bytes_parts {vb : VarBind} {t : List VarBind}
    {bo : ByteOrder} {out : Bytes}
    (h : VarBindList.to_bytes ⟨vb :: t⟩ bo = some out) :
    ∃ e tl, vb.to_bytes bo = some e ∧ VarBindList.to_bytes ⟨t⟩ bo = some tl ∧
      out = e ++ tl := by
  rw [vbl_to_bytes_cons] at h
  rcases he : vb.to_bytes bo with _ | e <;> rw [he] at h
  · cases h
  rcases ht : VarBindList.to_bytes ⟨t⟩ bo with _ | tl <;> rw [ht] at h
  · cases h
  exact ⟨e, tl, rfl, rfl, by cases h; rfl⟩

theorem vbl_from_bytes_nil (bo : ByteOrder) :
    VarBindList.from_bytes [] bo = some ⟨[]⟩ := by
  rw [VarBindList.from_bytes]
  rfl

/-- Bind-shaped unfolding of the `VarBindList::from_bytes` loop on a nonempty
buffer. -/
theorem vbl_from_bytes_cons {b : Bytes} (hb : b ≠ []) (bo : ByteOrder) :
    VarBindList.from_bytes b bo =
      (VarBind.from_bytes b bo).bind (fun vb =>
        (sliceFrom b vb.byte_size).bind (fun b2 =>
          (VarBindList.from_bytes b2 bo).map
            (fun tl => ⟨vb :: tl.binds⟩))) := by
  rw [VarBindList.from_bytes]
  rw [dif_neg (by simpa [List.isEmpty_iff] using hb)]
  cases hvb : VarBind.from_bytes b bo with
  | none => rfl
  | some vb =>
    simp only [Option.bind_eq_bind, Option.some_bind]
    cases h2 : sliceFrom b vb.byte_size with
    | none => rfl
    | some b2 =>
      simp only [Option.bind_eq_bind, Option.some_bind]
      cases VarBindList.from_bytes b2 bo <;> rfl

/-- Decoding the concatenation of `N` encoded VarBinds yields exactly the `N`
re-normalized VarBinds. -/
theorem vbl_parse_concat {l : List VarBind} {bo : ByteOrder}
    {out : Bytes} (hwf : ∀ vb ∈ l, vb.wf)
    (hout : VarBindList.to_bytes ⟨l⟩ bo = some out) :
    VarBindList.from_bytes out bo = some ⟨l.map VarBind.renorm⟩ := by
  induction l generalizing out with
  | nil =>
    cases hout
    exact vbl_from_bytes_nil bo
  | cons vb t ih =>
    obtain ⟨e, tl, he, ht, rfl⟩ := vbl_to_bytes_parts hout
    have hwfh : vb.wf := hwf vb (by simp)
    have hwft : ∀ x ∈ t, x.wf := fun x hx => hwf x (by simp [hx])
    rw [vbl_from_bytes_cons (by
      have := vbind_to_bytes_pos he
      intro h
      rw [List.append_eq_nil] at h
      rw [h.1] at this
      simp at this) bo]
    rw [vbind_parse_append hwfh he tl]
    simp only [Option.bind_eq_bind, Option.some_bind]
    rw [sliceFrom_append_of_eq (vbind_renorm_byte_size he)]
    simp only [Option.bind_eq_bind, Option.some_bind]
    rw [ih hwft ht]
    rfl

/-- Appending a nonempty strict prefix of one more encoded VarBind makes the
whole list decode fail: either the element parse fails, or (padding-only cut)
it succeeds but its reported size overruns the buffer on cursor advance. -/
theorem vbl_parse_concat_partial {l : List VarBind}
    {bo : ByteOrder} {out : Bytes} {vb' : VarBind} {fout : Bytes}
    (hwf : ∀ vb ∈ l, vb.wf)
    (hout : VarBindList.to_bytes ⟨l⟩ bo = some out)
    (hwf' : vb'.wf) (hout' : vb'.to_bytes bo = some fout)
    {k : Nat} (hk0 : 0 < k) (hk : k < fout.length) :
    VarBindList.from_bytes (out ++ fout.take k) bo = none := by
  induction l generalizing out with
  | nil =>
    cases hout
    rw [List.nil_append]
    rw [vbl_from_bytes_cons (by
      rw [← List.length_eq_zero.ne]
      simp only [List.length_take]
      omega) bo]
    rcases vbind_parse_take hwf' hout' hk with hnone | hsome
    · rw [hnone]
      rfl
    · rw [hsome]
      simp only [Option.bind_eq_bind, Option.some_bind]
      have hbs : (fout.take k).length < vb'.renorm.byte_size := by
        rw [vbind_renorm_byte_size hout']
        simp only [List.length_take]
        omega
      rw [show sliceFrom (fout.take k) vb'.renorm.byte_size = none from by
        unfold sliceFrom
        repeat rw [if_neg (by omega)]]
      rfl
  | cons vb t ih =>
    obtain ⟨e, tl, he, ht, rfl⟩ := vbl_to_bytes_parts hout
    have hwfh : vb.wf := hwf vb (by simp)
    have hwft : ∀ x ∈ t, x.wf := fun x hx => hwf x (by simp [hx])
    rw [List.append_assoc]
    rw [vbl_from_bytes_cons (by
      have := vbind_to_bytes_pos he
      intro h
      rw [List.append_eq_nil] at h
      rw [h.1] at this
      simp at this) bo]
    rw [vbind_parse_append hwfh he (tl ++ fout.take k)]
    simp only [Option.bind_eq_bind, Option.some_bind]
    rw [sliceFrom_append_of_eq (vbind_renorm_byte_size he)]
    simp only [Option.bind_eq_bind, Option.some_bind]
    rw [ih hwft ht]
    rfl

theorem header_to_bytes_length (h : Header) : h.to_bytes.length = 20 := by
  simp [Header.to_bytes, u32_to_bytes_length]

theorem drop_append_of_eq {α : Type} {a b : List α} {n : Nat}
    (h : n = a.length) : (a ++ b).drop n = b := by
  subst h
  exact List.drop_left a b

theorem header_parse_append {h : Header} (hwf : h.wf) (rest : Bytes) :
    Header.from_bytes (h.to_bytes ++ rest) = some h := by
  obtain ⟨h1, h2, h3, h4⟩ := hwf
  unfold Header.to_bytes Header.from_bytes
  rw [if_neg (by
    simp only [List.length_append, List.length_cons, List.length_nil,
      u32_to_bytes_length, HEADER_SIZE]
    omega)]
  simp only [List.cons_append, List.nil_append, List.append_assoc]
  rw [ptype_from_to_byte]
  simp only [Option.bind_eq_bind, Option.some_bind]
  rw [show header_byte_order h.flags = h.byte_order from rfl]
  rw [bytes_to_u32_append, Nat.mod_eq_of_lt h1]
  simp only [Option.bind_eq_bind, Option.some_bind]
  rw [drop_append_of_eq (by simp [u32_to_bytes_length])]
  rw [bytes_to_u32_append, Nat.mod_eq_of_lt h2]
  simp only [Option.bind_eq_bind, Option.some_bind]
  rw [show (8 : Nat) = 4 + 4 from rfl, show (4 : Nat) + 4 = 4 + 4 from rfl,
    ← List.drop_drop]
  rw [drop_append_of_eq (by simp [u32_to_bytes_length]),
    drop_append_of_eq (by simp [u32_to_bytes_length])]
  rw [bytes_to_u32_append, Nat.mod_eq_of_lt h3]
  simp only [Option.bind_eq_bind, Option.some_bind]
  rw [show (12 : Nat) = 4 + 8 from rfl, ← List.drop_drop,
    show (8 : Nat) = 4 + 4 from rfl, ← List.drop_drop]
  rw [drop_append_of_eq (by simp [u32_to_bytes_length]),
    drop_append_of_eq (by simp [u32_to_bytes_length]),
    drop_append_of_eq (by simp [u32_to_bytes_length])]
  rw [bytes_to_u32_append, Nat.mod_eq_of_lt h4]
  rfl

theorem Header.set_payload_len_eq {h : Header} {len : Nat} (hlt : len < 2 ^ 32) :
    h.set_payload_len len = some { h with payload_length := len } := by
  unfold Header.set_payload_len
  rw [if_pos hlt]

theorem Header.set_payload_len_lt {h h2 : Header} {len : Nat}
    (hs : h.set_payload_len len = some h2) :
    len < 2 ^ 32 ∧ h2 = { h with payload_length := len } := by
  unfold Header.set_payload_len at hs
  split at hs
  · exact ⟨by assumption, (Option.some.inj hs).symm⟩
  · cases hs

/-! ### Context step lemmas -/

theorem context_to_bytes_none (bo : ByteOrder) :
    context_to_bytes none bo = some [] := rfl

theorem context_parse_append {c : Option Context} {flags : Nat}
    {bo : ByteOrder} {cb : Bytes}
    (hbo : bo = header_byte_order flags)
    (hc : context_to_bytes c bo = some cb)
    (hcons : is_set flags (1 <<< NON_DEFAULT_CONTEXT) = c.isSome)
    (hwf : ∀ ctx, c = some ctx → utf8_valid ctx.os.content = true)
    (rest : Bytes) : context_from_bytes flags (cb ++ rest) = some c := by
  unfold context_from_bytes
  cases c with
  | none =>
    rw [show cb = [] from by cases hc; rfl]
    simp only [Option.isSome_none] at hcons
    rw [hcons]
    simp
  | some ctx =>
    simp only [Option.isSome_some] at hcons
    rw [hcons]
    simp only [if_true]
    rw [← hbo]
    rw [ctx_parse_append hc (hwf ctx rfl) rest]
    rfl

theorem context_advance {c : Option Context} {bo : ByteOrder} {cb rest : Bytes}
    (hc : context_to_bytes c bo = some cb) :
    context_skip c (cb ++ rest) = some rest := by
  unfold context_skip
  cases c with
  | none =>
    obtain rfl : cb = [] := by
      have h2 : some ([] : Bytes) = some cb := hc
      exact (Option.some.inj h2).symm
    rfl
  | some ctx =>
    have hob : ctx.os.to_bytes bo = some cb := hc
    exact sliceFrom_append_of_eq (by
      rw [os_to_bytes_length hob]
      rfl)

/-! ### PDU round-trips -/

theorem pdu_header_slice (h : Header) (payload : Bytes) :
    sliceFrom (h.to_bytes ++ payload) h.byte_size = some payload :=
  sliceFrom_append_of_eq (header_to_bytes_length h).symm

theorem open_roundtrip {p p' : Open} {out : Bytes} (hwf : p.wf)
    (henc : p.to_bytes = some (p', out)) :
    Open.from_bytes out = some { p' with id := p'.id.renorm } := by
  obtain ⟨hhwf, hnanos, hidwf, hoswf⟩ := hwf
  unfold Open.to_bytes at henc
  split at henc
  case isFalse => cases henc
  case isTrue hto =>
    dsimp only [] at henc
    rcases hid : p.id.to_bytes p.header.byte_order with _ | idb <;>
      rw [hid] at henc
    · cases henc
    rcases hdb : p.descr.to_bytes p.header.byte_order with _ | db <;>
      rw [hdb] at henc
    · cases henc
    simp only [Option.bind_eq_bind, Option.some_bind] at henc
    rcases hsp : p.header.set_payload_len
        (p.timeout.as_secs :: [0, 0, 0] ++ idb ++ db).length with _ | h <;>
      rw [hsp] at henc
    · cases henc
    simp only [Option.some_bind, Option.some.injEq, Prod.mk.injEq] at henc
    obtain ⟨rfl, rfl⟩ := henc
    obtain ⟨hlt, rfl⟩ := Header.set_payload_len_lt hsp
    unfold Open.from_bytes
    have hhwf2 : ({ p.header with payload_length :=
        (p.timeout.as_secs :: [0, 0, 0] ++ idb ++ db).length } : Header).wf := by
      obtain ⟨w1, w2, w3, w4⟩ := hhwf
      exact ⟨w1, w2, w3, hlt⟩
    rw [header_parse_append hhwf2]
    simp only [Option.bind_eq_bind, Option.some_bind]
    rw [pdu_header_slice]
    simp only [Option.bind_eq_bind, Option.some_bind]
    unfold Open.decode_payload
    have hflags : header_byte_order ({ p.header with payload_length :=
        (p.timeout.as_secs :: [0, 0, 0] ++ idb ++ db).length } : Header).flags
        = p.header.byte_order := rfl
    rw [hflags]
    rw [if_neg (by simp)]
    have hshape : p.timeout.as_secs :: [0, 0, 0] ++ idb ++ db
        = [p.timeout.as_secs, 0, 0, 0] ++ (idb ++ db) := by simp
    rw [hshape]
    rw [sliceFrom_append_of_eq (by simp)]
    simp only [Option.bind_eq_bind, Option.some_bind]
    rw [id_parse_append hid hidwf.2.2 db]
    simp only [Option.bind_eq_bind, Option.some_bind]
    rw [show (ID.mk p.id.sub_ids.length p.id.incl p.id.sub_ids)
          = p.id.renorm from rfl]
    rw [sliceFrom_append_of_eq (id_renorm_byte_size hid)]
    simp only [Option.bind_eq_bind, Option.some_bind]
    rw [os_parse_exact hdb hoswf.1]
    simp only [Option.bind_eq_bind, Option.some_bind]
    have hts : Duration.from_secs p.timeout.as_secs = p.timeout := by
      rw [show Duration.from_secs p.timeout.as_secs
            = { secs := p.timeout.secs, nanos := 0 } from rfl, ← hnanos]
    simp [List.append_assoc, hts]

theorem close_roundtrip {p p' : Close} {out : Bytes} (hwf : p.wf)
    (henc : p.to_bytes = some (p', out)) :
    Close.from_bytes out = some p' := by
  unfold Close.to_bytes at henc
  simp only [Option.some.injEq, Prod.mk.injEq] at henc
  obtain ⟨rfl, rfl⟩ := henc
  unfold Close.from_bytes
  have hhwf2 : ({ p.header with payload_length := 4 } : Header).wf := by
    obtain ⟨w1, w2, w3, w4⟩ := hwf
    exact ⟨w1, w2, w3, by show (4 : Nat) < 2 ^ 32; norm_num⟩
  rw [header_parse_append hhwf2]
  simp only [Option.bind_eq_bind, Option.some_bind]
  rw [pdu_header_slice]
  simp only [Option.bind_eq_bind, Option.some_bind]
  unfold Close.decode_payload
  rw [if_neg (by simp)]
  rw [show ([p.reason.to_byte, 0, 0, 0].headD 0) = p.reason.to_byte from rfl]
  rw [creason_from_to_byte]
  rfl

theorem context_ok_utf8 {flags : Nat} {c : Option Context}
    (h : context_ok flags c) :
    ∀ ctx, c = some ctx → utf8_valid ctx.os.content = true := by
  intro ctx hc
  subst hc
  exact h.2.1

theorem bytes_to_u32_exact (v : Nat) (bo : ByteOrder) :
    bytes_to_u32 (u32_to_bytes v bo) bo = some (v % 2 ^ 32) := by
  have := bytes_to_u32_append v bo []
  rwa [List.append_nil] at this

theorem register_roundtrip {p p' : Register} {out : Bytes} (hwf : p.wf)
    (henc : p.to_bytes = some (p', out)) :
    Register.from_bytes out = some { p' with subtree := p'.subtree.renorm } := by
  obtain ⟨hhwf, hctx, hnanos, hidwf, hub⟩ := hwf
  unfold Register.to_bytes at henc
  dsimp only [] at henc
  rcases hc : context_to_bytes p.context p.header.byte_order with _ | cb <;>
    rw [hc] at henc
  · cases henc
  simp only [Option.bind_eq_bind, Option.some_bind] at henc
  split at henc
  case isFalse => cases henc
  case isTrue hto =>
    rcases hsb : p.subtree.to_bytes p.header.byte_order with _ | sb <;>
      rw [hsb] at henc
    · cases henc
    simp only [Option.bind_eq_bind, Option.some_bind] at henc
    rcases hsp : p.header.set_payload_len
        (cb ++ [p.timeout.as_secs, p.priority, p.range_subid, 0] ++ sb ++
          (match p.upper_bound with
            | some u => u32_to_bytes u p.header.byte_order
            | none => [])).length with _ | h <;>
      rw [hsp] at henc
    · cases henc
    simp only [Option.bind_eq_bind, Option.some_bind, Option.some.injEq,
      Prod.mk.injEq] at henc
    obtain ⟨rfl, rfl⟩ := henc
    obtain ⟨hlt, rfl⟩ := Header.set_payload_len_lt hsp
    unfold Register.from_bytes
    have hhwf2 : ({ p.header with payload_length :=
        (cb ++ [p.timeout.as_secs, p.priority, p.range_subid, 0] ++ sb ++
          (match p.upper_bound with
            | some u => u32_to_bytes u p.header.byte_order
            | none => [])).length } : Header).wf :=
      ⟨hhwf.1, hhwf.2.1, hhwf.2.2.1, hlt⟩
    rw [header_parse_append hhwf2]
    simp only [Option.bind_eq_bind, Option.some_bind]
    rw [pdu_header_slice]
    simp only [Option.bind_eq_bind, Option.some_bind]
    unfold Register.decode_payload
    dsimp only []
    rw [show header_byte_order p.header.flags = p.header.byte_order from rfl]
    rw [show (cb ++ [p.timeout.as_secs, p.priority, p.range_subid, 0] ++ sb ++
          (match p.upper_bound with
            | some u => u32_to_bytes u p.header.byte_order
            | none => []))
        = cb ++ ([p.timeout.as_secs, p.priority, p.range_subid, 0] ++ (sb ++
          (match p.upper_bound with
            | some u => u32_to_bytes u p.header.byte_order
            | none => []))) by simp]
    rw [context_parse_append rfl hc hctx.1 (context_ok_utf8 hctx) _]
    simp only [Option.bind_eq_bind, Option.some_bind]
    rw [context_advance hc]
    simp only [Option.bind_eq_bind, Option.some_bind]
    rw [if_neg (by simp)]
    rw [sliceFrom_append_of_eq (by simp)]
    simp only [Option.bind_eq_bind, Option.some_bind]
    rw [id_parse_append hsb hidwf.2.2]
    simp only [Option.bind_eq_bind, Option.some_bind]
    rw [show (ID.mk p.subtree.sub_ids.length p.subtree.incl p.subtree.sub_ids)
          = p.subtree.renorm from rfl]
    rw [sliceFrom_append_of_eq (id_renorm_byte_size hsb)]
    simp only [Option.bind_eq_bind, Option.some_bind]
    rw [show ((([p.timeout.as_secs, p.priority, p.range_subid, 0] ++
          (sb ++ (match p.upper_bound with
            | some u => u32_to_bytes u p.header.byte_order
            | none => []))).drop 2).headD 0) = p.range_subid from rfl]
    cases hu : p.upper_bound with
    | none =>
      have hrs : p.range_subid = 0 := by
        rw [hu] at hub
        exact hub
      repeat rw [if_neg (by omega)]
      simp only [Option.bind_eq_bind, Option.some_bind]
      have hts : Duration.from_secs p.timeout.as_secs = p.timeout := by
        rw [show Duration.from_secs p.timeout.as_secs
              = { secs := p.timeout.secs, nanos := 0 } from rfl, ← hnanos]
      simp [hts, hu, List.append_assoc]
    | some u =>
      have hrs : p.range_subid ≠ 0 ∧ u < 2 ^ 32 := by
        rw [hu] at hub
        exact hub
      rw [if_pos hrs.1]
      rw [bytes_to_u32_exact, Nat.mod_eq_of_lt hrs.2]
      simp only [Option.map_some', Option.bind_eq_bind, Option.some_bind]
      have hts : Duration.from_secs p.timeout.as_secs = p.timeout := by
        rw [show Duration.from_secs p.timeout.as_secs
              = { secs := p.timeout.secs, nanos := 0 } from rfl, ← hnanos]
      simp [hts, hu, List.append_assoc]

theorem unregister_roundtrip {p p' : Unregister} {out : Bytes} (hwf : p.wf)
    (henc : p.to_bytes = some (p', out)) :
    Unregister.from_bytes out
      = some { p' with subtree := p'.subtree.renorm } := by
  obtain ⟨hhwf, hctx, hidwf, hub⟩ := hwf
  unfold Unregister.to_bytes at henc
  dsimp only [] at henc
  rcases hc : context_to_bytes p.context p.header.byte_order with _ | cb <;>
    rw [hc] at henc
  · cases henc
  simp only [Option.bind_eq_bind, Option.some_bind] at henc
  rcases hsb : p.subtree.to_bytes p.header.byte_order with _ | sb <;>
    rw [hsb] at henc
  · cases henc
  simp only [Option.bind_eq_bind, Option.some_bind] at henc
  rcases hsp : p.header.set_payload_len
      (cb ++ [0, p.priority, p.range_subid, 0] ++ sb ++
        (match p.upper_bound with
          | some u => u32_to_bytes u p.header.byte_order
          | none => [])).length with _ | h <;>
    rw [hsp] at henc
  · cases henc
  simp only [Option.bind_eq_bind, Option.some_bind, Option.some.injEq,
    Prod.mk.injEq] at henc
  obtain ⟨rfl, rfl⟩ := henc
  obtain ⟨hlt, rfl⟩ := Header.set_payload_len_lt hsp
  unfold Unregister.from_bytes
  have hhwf2 : ({ p.header with payload_length :=
      (cb ++ [0, p.priority, p.range_subid, 0] ++ sb ++
        (match p.upper_bound with
          | some u => u32_to_bytes u p.header.byte_order
          | none => [])).length } : Header).wf :=
    ⟨hhwf.1, hhwf.2.1, hhwf.2.2.1, hlt⟩
  rw [header_parse_append hhwf2]
  simp only [Option.bind_eq_bind, Option.some_bind]
  rw [pdu_header_slice]
  simp only [Option.bind_eq_bind, Option.some_bind]
  unfold Unregister.decode_payload
  dsimp only []
  rw [show header_byte_order p.header.flags = p.header.byte_order from rfl]
  rw [show (cb ++ [0, p.priority, p.range_subid, 0] ++ sb ++
        (match p.upper_bound with
          | some u => u32_to_bytes u p.header.byte_order
          | none => []))
      = cb ++ ([0, p.priority, p.range_subid, 0] ++ (sb ++
        (match p.upper_bound with
          | some u => u32_to_bytes u p.header.byte_order
          | none => []))) by simp]
  rw [context_parse_append rfl hc hctx.1 (context_ok_utf8 hctx) _]
  simp only [Option.bind_eq_bind, Option.some_bind]
  rw [context_advance hc]
  simp only [Option.bind_eq_bind, Option.some_bind]
  rw [if_neg (by simp)]
  rw [sliceFrom_append_of_eq (by simp)]
  simp only [Option.bind_eq_bind, Option.some_bind]
  rw [id_parse_append hsb hidwf.2.2]
  simp only [Option.bind_eq_bind, Option.some_bind]
  rw [show (ID.mk p.subtree.sub_ids.length p.subtree.incl p.subtree.sub_ids)
        = p.subtree.renorm from rfl]
  rw [sliceFrom_append_of_eq (id_renorm_byte_size hsb)]
  simp only [Option.bind_eq_bind, Option.some_bind]
  rw [show ((([0, p.priority, p.range_subid, 0] ++
        (sb ++ (match p.upper_bound with
          | some u => u32_to_bytes u p.header.byte_order
          | none => []))).drop 2).headD 0) = p.range_subid from rfl]
  cases hu : p.upper_bound with
  | none =>
    have hrs : p.range_subid = 0 := by
      rw [hu] at hub
      exact hub
    rw [if_neg (by omega)]
    simp [List.append_assoc, hu]
  | some u =>
    have hrs : p.range_subid ≠ 0 ∧ u < 2 ^ 32 := by
      rw [hu] at hub
      exact hub
    rw [if_pos hrs.1]
    rw [bytes_to_u32_exact, Nat.mod_eq_of_lt hrs.2]
    simp only [Option.map_some', Option.bind_eq_bind, Option.some_bind]
    simp [List.append_assoc, hu]

theorem get_roundtrip {p p' : Get} {out : Bytes} (hwf : p.wf)
    (henc : p.to_bytes = some (p', out)) :
    Get.from_bytes out
      = some { p' with sr := ⟨p'.sr.ranges.map SearchRange.renorm⟩ } := by
  obtain ⟨hhwf, hctx, hsrwf⟩ := hwf
  unfold Get.to_bytes get_alike_payload at henc
  rcases hc : context_to_bytes p.context p.header.byte_order with _ | cb <;>
    rw [hc] at henc
  · cases henc
  simp only [Option.bind_eq_bind, Option.some_bind] at henc
  rcases hsb : SearchRangeList.to_bytes p.sr p.header.byte_order with _ | sb <;>
    rw [hsb] at henc
  · cases henc
  simp only [Option.bind_eq_bind, Option.some_bind] at henc
  rcases hsp : p.header.set_payload_len (cb ++ sb).length with _ | h <;>
    rw [hsp] at henc
  · cases henc
  simp only [Option.bind_eq_bind, Option.some_bind, Option.some.injEq,
    Prod.mk.injEq] at henc
  obtain ⟨rfl, rfl⟩ := henc
  obtain ⟨hlt, rfl⟩ := Header.set_payload_len_lt hsp
  unfold Get.from_bytes
  have hhwf2 : ({ p.header with payload_length := (cb ++ sb).length }
      : Header).wf := ⟨hhwf.1, hhwf.2.1, hhwf.2.2.1, hlt⟩
  rw [header_parse_append hhwf2]
  simp only [Option.bind_eq_bind, Option.some_bind]
  rw [pdu_header_slice]
  simp only [Option.bind_eq_bind, Option.some_bind]
  unfold get_alike_decode_payload
  dsimp only []
  rw [show header_byte_order p.header.flags = p.header.byte_order from rfl]
  rw [context_parse_append rfl hc hctx.1 (context_ok_utf8 hctx) sb]
  simp only [Option.bind_eq_bind, Option.some_bind]
  rw [context_advance hc]
  simp only [Option.bind_eq_bind, Option.some_bind]
  rw [srl_parse_concat hsrwf hsb]
  rfl

theorem getnext_roundtrip {p p' : GetNext} {out : Bytes} (hwf : p.wf)
    (henc : p.to_bytes = some (p', out)) :
    GetNext.from_bytes out
      = some { p' with sr := ⟨p'.sr.ranges.map SearchRange.renorm⟩ } := by
  obtain ⟨hhwf, hctx, hsrwf⟩ := hwf
  unfold GetNext.to_bytes get_alike_payload at henc
  rcases hc : context_to_bytes p.context p.header.byte_order with _ | cb <;>
    rw [hc] at henc
  · cases henc
  simp only [Option.bind_eq_bind, Option.some_bind] at henc
  rcases hsb : SearchRangeList.to_bytes p.sr p.header.byte_order with _ | sb <;>
    rw [hsb] at henc
  · cases henc
  simp only [Option.bind_eq_bind, Option.some_bind] at henc
  rcases hsp : p.header.set_payload_len (cb ++ sb).length with _ | h <;>
    rw [hsp] at henc
  · cases henc
  simp only [Option.bind_eq_bind, Option.some_bind, Option.some.injEq,
    Prod.mk.injEq] at henc
  obtain ⟨rfl, rfl⟩ := henc
  obtain ⟨hlt, rfl⟩ := Header.set_payload_len_lt hsp
  unfold GetNext.from_bytes
  have hhwf2 : ({ p.header with payload_length := (cb ++ sb).length }
      : Header).wf := ⟨hhwf.1, hhwf.2.1, hhwf.2.2.1, hlt⟩
  rw [header_parse_append hhwf2]
  simp only [Option.bind_eq_bind, Option.some_bind]
  rw [pdu_header_slice]
  simp only [Option.bind_eq_bind, Option.some_bind]
  unfold get_alike_decode_payload
  dsimp only []
  rw [show header_byte_order p.header.flags = p.header.byte_order from rfl]
  rw [context_parse_append rfl hc hctx.1 (context_ok_utf8 hctx) sb]
  simp only [Option.bind_eq_bind, Option.some_bind]
  rw [context_advance hc]
  simp only [Option.bind_eq_bind, Option.some_bind]
  rw [srl_parse_concat hsrwf hsb]
  rfl

theorem getbulk_roundtrip {p p' : GetBulk} {out : Bytes} (hwf : p.wf)
    (henc : p.to_bytes = some (p', out)) :
    GetBulk.from_bytes out
      = some { p' with sr := ⟨p'.sr.ranges.map SearchRange.renorm⟩ } := by
  obtain ⟨hhwf, hctx, hnr, hmr, hsrwf⟩ := hwf
  unfold GetBulk.to_bytes at henc
  dsimp only [] at henc
  rcases hc : context_to_bytes p.context p.header.byte_order with _ | cb <;>
    rw [hc] at henc
  · cases henc
  simp only [Option.bind_eq_bind, Option.some_bind] at henc
  rcases hsb : SearchRangeList.to_bytes p.sr p.header.byte_order with _ | sb <;>
    rw [hsb] at henc
  · cases henc
  simp only [Option.bind_eq_bind, Option.some_bind] at henc
  rcases hsp : p.header.set_payload_len
      (cb ++ u16_to_bytes p.non_repeaters p.header.byte_order ++
        u16_to_bytes p.max_repetitions p.header.byte_order ++ sb).length
      with _ | h <;> rw [hsp] at henc
  · cases henc
  simp only [Option.bind_eq_bind, Option.some_bind, Option.some.injEq,
    Prod.mk.injEq] at henc
  obtain ⟨rfl, rfl⟩ := henc
  obtain ⟨hlt, rfl⟩ := Header.set_payload_len_lt hsp
  unfold GetBulk.from_bytes
  have hhwf2 : ({ p.header with payload_length :=
      (cb ++ u16_to_bytes p.non_repeaters p.header.byte_order ++
        u16_to_bytes p.max_repetitions p.header.byte_order ++ sb).length }
      : Header).wf := ⟨hhwf.1, hhwf.2.1, hhwf.2.2.1, hlt⟩
  rw [header_parse_append hhwf2]
  simp only [Option.bind_eq_bind, Option.some_bind]
  rw [pdu_header_slice]
  simp only [Option.bind_eq_bind, Option.some_bind]
  unfold GetBulk.decode_payload
  dsimp only []
  rw [show header_byte_order p.header.flags = p.header.byte_order from rfl]
  rw [show (cb ++ u16_to_bytes p.non_repeaters p.header.byte_order ++
        u16_to_bytes p.max_repetitions p.header.byte_order ++ sb)
      = cb ++ (u16_to_bytes p.non_repeaters p.header.byte_order ++
        (u16_to_bytes p.max_repetitions p.header.byte_order ++ sb)) by simp]
  rw [context_parse_append rfl hc hctx.1 (context_ok_utf8 hctx) _]
  simp only [Option.bind_eq_bind, Option.some_bind]
  rw [context_advance hc]
  simp only [Option.bind_eq_bind, Option.some_bind]
  rw [if_neg (by simp [u16_to_bytes_length]; omega)]
  rw [bytes_to_u16_append, Nat.mod_eq_of_lt hnr]
  simp only [Option.bind_eq_bind, Option.some_bind]
  rw [drop_append_of_eq (by simp [u16_to_bytes_length])]
  rw [bytes_to_u16_append, Nat.mod_eq_of_lt hmr]
  simp only [Option.bind_eq_bind, Option.some_bind]
  rw [show (u16_to_bytes p.non_repeaters p.header.byte_order ++
        (u16_to_bytes p.max_repetitions p.header.byte_order ++ sb))
      = (u16_to_bytes p.non_repeaters p.header.byte_order ++
        u16_to_bytes p.max_repetitions p.header.byte_order) ++ sb by simp]
  rw [sliceFrom_append_of_eq (by simp [u16_to_bytes_length])]
  simp only [Option.bind_eq_bind, Option.some_bind]
  rw [srl_parse_concat hsrwf hsb]
  rfl

theorem testset_roundtrip {p p' : TestSet} {out : Bytes} (hwf : p.wf)
    (henc : p.to_bytes = some (p', out)) :
    TestSet.from_bytes out
      = some { p' with vb := ⟨p'.vb.binds.map VarBind.renorm⟩ } := by
  obtain ⟨hhwf, hctx, hvbwf⟩ := hwf
  unfold TestSet.to_bytes testset_alike_payload at henc
  rcases hc : context_to_bytes p.context p.header.byte_order with _ | cb <;>
    rw [hc] at henc
  · cases henc
  simp only [Option.bind_eq_bind, Option.some_bind] at henc
  rcases hsb : VarBindList.to_bytes p.vb p.header.byte_order with _ | sb <;>
    rw [hsb] at henc
  · cases henc
  simp only [Option.bind_eq_bind, Option.some_bind] at henc
  rcases hsp : p.header.set_payload_len (cb ++ sb).length with _ | h <;>
    rw [hsp] at henc
  · cases henc
  simp only [Option.bind_eq_bind, Option.some_bind, Option.some.injEq,
    Prod.mk.injEq] at henc
  obtain ⟨rfl, rfl⟩ := henc
  obtain ⟨hlt, rfl⟩ := Header.set_payload_len_lt hsp
  unfold TestSet.from_bytes
  have hhwf2 : ({ p.header with payload_length := (cb ++ sb).length }
      : Header).wf := ⟨hhwf.1, hhwf.2.1, hhwf.2.2.1, hlt⟩
  rw [header_parse_append hhwf2]
  simp only [Option.bind_eq_bind, Option.some_bind]
  rw [pdu_header_slice]
  simp only [Option.bind_eq_bind, Option.some_bind]
  unfold testset_alike_decode_payload
  dsimp only []
  rw [show header_byte_order p.header.flags = p.header.byte_order from rfl]
  rw [context_parse_append rfl hc hctx.1 (context_ok_utf8 hctx) sb]
  simp only [Option.bind_eq_bind, Option.some_bind]
  rw [context_advance hc]
  simp only [Option.bind_eq_bind, Option.some_bind]
  rw [vbl_parse_concat hvbwf hsb]
  rfl

theorem notify_roundtrip {p p' : Notify} {out : Bytes} (hwf : p.wf)
    (henc : p.to_bytes = some (p', out)) :
    Notify.from_bytes out
      = some { p' with vb := ⟨p'.vb.binds.map VarBind.renorm⟩ } := by
  obtain ⟨hhwf, hctx, hvbwf⟩ := hwf
  unfold Notify.to_bytes testset_alike_payload at henc
  rcases hc : context_to_bytes p.context p.header.byte_order with _ | cb <;>
    rw [hc] at henc
  · cases henc
  simp only [Option.bind_eq_bind, Option.some_bind] at henc
  rcases hsb : VarBindList.to_bytes p.vb p.header.byte_order with _ | sb <;>
    rw [hsb] at henc
  · cases henc
  simp only [Option.bind_eq_bind, Option.some_bind] at henc
  rcases hsp : p.header.set_payload_len (cb ++ sb).length with _ | h <;>
    rw [hsp] at henc
  · cases henc
  simp only [Option.bind_eq_bind, Option.some_bind, Option.some.injEq,
    Prod.mk.injEq] at henc
  obtain ⟨rfl, rfl⟩ := henc
  obtain ⟨hlt, rfl⟩ := Header.set_payload_len_lt hsp
  unfold Notify.from_bytes
  have hhwf2 : ({ p.header with payload_length := (cb ++ sb).length }
      : Header).wf := ⟨hhwf.1, hhwf.2.1, hhwf.2.2.1, hlt⟩
  rw [header_parse_append hhwf2]
  simp only [Option.bind_eq_bind, Option.some_bind]
  rw [pdu_header_slice]
  simp only [Option.bind_eq_bind, Option.some_bind]
  unfold testset_alike_decode_payload
  dsimp only []
  rw [show header_byte_order p.header.flags = p.header.byte_order from rfl]
  rw [context_parse_append rfl hc hctx.1 (context_ok_utf8 hctx) sb]
  simp only [Option.bind_eq_bind, Option.some_bind]
  rw [context_advance hc]
  simp only [Option.bind_eq_bind, Option.some_bind]
  rw [vbl_parse_concat hvbwf hsb]
  rfl

theorem ialloc_roundtrip {p p' : IndexAllocate} {out : Bytes}
    (hwf : p.wf) (henc : p.to_bytes = some (p', out)) :
    IndexAllocate.from_bytes out
      = some { p' with vb := ⟨p'.vb.binds.map VarBind.renorm⟩ } := by
  obtain ⟨hhwf, hctx, hvbwf⟩ := hwf
  unfold IndexAllocate.to_bytes testset_alike_payload at henc
  rcases hc : context_to_bytes p.context p.header.byte_order with _ | cb <;>
    rw [hc] at henc
  · cases henc
  simp only [Option.bind_eq_bind, Option.some_bind] at henc
  rcases hsb : VarBindList.to_bytes p.vb p.header.byte_order with _ | sb <;>
    rw [hsb] at henc
  · cases henc
  simp only [Option.bind_eq_bind, Option.some_bind] at henc
  rcases hsp : p.header.set_payload_len (cb ++ sb).length with _ | h <;>
    rw [hsp] at henc
  · cases henc
  simp only [Option.bind_eq_bind, Option.some_bind, Option.some.injEq,
    Prod.mk.injEq] at henc
  obtain ⟨rfl, rfl⟩ := henc
  obtain ⟨hlt, rfl⟩ := Header.set_payload_len_lt hsp
  unfold IndexAllocate.from_bytes
  have hhwf2 : ({ p.header with payload_length := (cb ++ sb).length }
      : Header).wf := ⟨hhwf.1, hhwf.2.1, hhwf.2.2.1, hlt⟩
  rw [header_parse_append hhwf2]
  simp only [Option.bind_eq_bind, Option.some_bind]
  rw [pdu_header_slice]
  simp only [Option.bind_eq_bind, Option.some_bind]
  unfold testset_alike_decode_payload
  dsimp only []
  rw [show header_byte_order p.header.flags = p.header.byte_order from rfl]
  rw [context_parse_append rfl hc hctx.1 (context_ok_utf8 hctx) sb]
  simp only [Option.bind_eq_bind, Option.some_bind]
  rw [context_advance hc]
  simp only [Option.bind_eq_bind, Option.some_bind]
  rw [vbl_parse_concat hvbwf hsb]
  rfl

theorem idealloc_roundtrip {p p' : IndexDeallocate} {out : Bytes}
    (hwf : p.wf) (henc : p.to_bytes = some (p', out)) :
    IndexDeallocate.from_bytes out
      = some { p' with vb := ⟨p'.vb.binds.map VarBind.renorm⟩ } := by
  obtain ⟨hhwf, hctx, hvbwf⟩ := hwf
  unfold IndexDeallocate.to_bytes testset_alike_payload at henc
  rcases hc : context_to_bytes p.context p.header.byte_order with _ | cb <;>
    rw [hc] at henc
  · cases henc
  simp only [Option.bind_eq_bind, Option.some_bind] at henc
  rcases hsb : VarBindList.to_bytes p.vb p.header.byte_order with _ | sb <;>
    rw [hsb] at henc
  · cases henc
  simp only [Option.bind_eq_bind, Option.some_bind] at henc
  rcases hsp : p.header.set_payload_len (cb ++ sb).length with _ | h <;>
    rw [hsp] at henc
  · cases henc
  simp only [Option.bind_eq_bind, Option.some_bind, Option.some.injEq,
    Prod.mk.injEq] at henc
  obtain ⟨rfl, rfl⟩ := henc
  obtain ⟨hlt, rfl⟩ := Header.set_payload_len_lt hsp
  unfold IndexDeallocate.from_bytes
  have hhwf2 : ({ p.header with payload_length := (cb ++ sb).length }
      : Header).wf := ⟨hhwf.1, hhwf.2.1, hhwf.2.2.1, hlt⟩
  rw [header_parse_append hhwf2]
  simp only [Option.bind_eq_bind, Option.some_bind]
  rw [pdu_header_slice]
  simp only [Option.bind_eq_bind, Option.some_bind]
  unfold testset_alike_decode_payload
  dsimp only []
  rw [show header_byte_order p.header.flags = p.header.byte_order from rfl]
  rw [context_parse_append rfl hc hctx.1 (context_ok_utf8 hctx) sb]
  simp only [Option.bind_eq_bind, Option.some_bind]
  rw [context_advance hc]
  simp only [Option.bind_eq_bind, Option.some_bind]
  rw [vbl_parse_concat hvbwf hsb]
  rfl

/-- Parsing exactly the output of `ID::to_bytes`. -/
theorem id_parse_exact {id : ID} {bo : ByteOrder} {out : Bytes}
    (hwd : id.to_bytes bo = some out) (hv : ∀ s ∈ id.sub_ids, s < 2 ^ 32) :
    ID.from_bytes out bo = some id.renorm := by
  have := id_parse_append hwd hv []
  rwa [List.append_nil] at this

theorem commitset_roundtrip {p p' : CommitSet} {out : Bytes} (hwf : p.wf)
    (henc : p.to_bytes = some (p', out)) :
    CommitSet.from_bytes out = some p' := by
  unfold CommitSet.to_bytes at henc
  simp only [Option.some.injEq, Prod.mk.injEq] at henc
  obtain ⟨rfl, rfl⟩ := henc
  unfold CommitSet.from_bytes
  have hp := header_parse_append hwf []
  rw [List.append_nil] at hp
  rw [hp]
  rfl

theorem undoset_roundtrip {p p' : UndoSet} {out : Bytes} (hwf : p.wf)
    (henc : p.to_bytes = some (p', out)) :
    UndoSet.from_bytes out = some p' := by
  unfold UndoSet.to_bytes at henc
  simp only [Option.some.injEq, Prod.mk.injEq] at henc
  obtain ⟨rfl, rfl⟩ := henc
  unfold UndoSet.from_bytes
  have hp := header_parse_append hwf []
  rw [List.append_nil] at hp
  rw [hp]
  rfl

theorem cleanupset_roundtrip {p p' : CleanupSet} {out : Bytes} (hwf : p.wf)
    (henc : p.to_bytes = some (p', out)) :
    CleanupSet.from_bytes out = some p' := by
  unfold CleanupSet.to_bytes at henc
  simp only [Option.some.injEq, Prod.mk.injEq] at henc
  obtain ⟨rfl, rfl⟩ := henc
  unfold CleanupSet.from_bytes
  have hp := header_parse_append hwf []
  rw [List.append_nil] at hp
  rw [hp]
  rfl

theorem ping_roundtrip {p p' : Ping} {out : Bytes} (hwf : p.wf)
    (henc : p.to_bytes = some (p', out)) :
    Ping.from_bytes out = some p' := by
  obtain ⟨hhwf, hctx⟩ := hwf
  unfold Ping.to_bytes at henc
  rcases hc : context_to_bytes p.context p.header.byte_order with _ | cb <;>
    rw [hc] at henc
  · cases henc
  simp only [Option.bind_eq_bind, Option.some_bind] at henc
  rcases hsp : p.header.set_payload_len cb.length with _ | h <;>
    rw [hsp] at henc
  · cases henc
  simp only [Option.bind_eq_bind, Option.some_bind, Option.some.injEq,
    Prod.mk.injEq] at henc
  obtain ⟨rfl, rfl⟩ := henc
  obtain ⟨hlt, rfl⟩ := Header.set_payload_len_lt hsp
  unfold Ping.from_bytes
  have hhwf2 : ({ p.header with payload_length := cb.length } : Header).wf :=
    ⟨hhwf.1, hhwf.2.1, hhwf.2.2.1, hlt⟩
  rw [header_parse_append hhwf2]
  simp only [Option.bind_eq_bind, Option.some_bind]
  rw [pdu_header_slice]
  simp only [Option.bind_eq_bind, Option.some_bind]
  unfold Ping.decode_payload
  rw [show cb = cb ++ [] by simp]
  rw [context_parse_append rfl hc hctx.1 (context_ok_utf8 hctx) []]
  simp

theorem addcaps_roundtrip {p p' : AddAgentCaps} {out : Bytes}
    (hwf : p.wf) (henc : p.to_bytes = some (p', out)) :
    AddAgentCaps.from_bytes out = some { p' with id := p'.id.renorm } := by
  obtain ⟨hhwf, hctx, hidwf, hoswf⟩ := hwf
  unfold AddAgentCaps.to_bytes at henc
  dsimp only [] at henc
  rcases hc : context_to_bytes p.context p.header.byte_order with _ | cb <;>
    rw [hc] at henc
  · cases henc
  simp only [Option.bind_eq_bind, Option.some_bind] at henc
  rcases hid : p.id.to_bytes p.header.byte_order with _ | idb <;>
    rw [hid] at henc
  · cases henc
  rcases hdb : p.descr.to_bytes p.header.byte_order with _ | db <;>
    rw [hdb] at henc
  · cases henc
  simp only [Option.bind_eq_bind, Option.some_bind] at henc
  rcases hsp : p.header.set_payload_len (cb ++ idb ++ db).length with _ | h <;>
    rw [hsp] at henc
  · cases henc
  simp only [Option.bind_eq_bind, Option.some_bind, Option.some.injEq,
    Prod.mk.injEq] at henc
  obtain ⟨rfl, rfl⟩ := henc
  obtain ⟨hlt, rfl⟩ := Header.set_payload_len_lt hsp
  unfold AddAgentCaps.from_bytes
  have hhwf2 : ({ p.header with payload_length := (cb ++ idb ++ db).length }
      : Header).wf := ⟨hhwf.1, hhwf.2.1, hhwf.2.2.1, hlt⟩
  rw [header_parse_append hhwf2]
  simp only [Option.bind_eq_bind, Option.some_bind]
  rw [pdu_header_slice]
  simp only [Option.bind_eq_bind, Option.some_bind]
  unfold AddAgentCaps.decode_payload
  dsimp only []
  rw [show header_byte_order p.header.flags = p.header.byte_order from rfl]
  rw [show (cb ++ idb ++ db) = cb ++ (idb ++ db) by simp]
  rw [context_parse_append rfl hc hctx.1 (context_ok_utf8 hctx) _]
  simp only [Option.bind_eq_bind, Option.some_bind]
  rw [context_advance hc]
  simp only [Option.bind_eq_bind, Option.some_bind]
  rw [id_parse_append hid hidwf.2.2]
  simp only [Option.bind_eq_bind, Option.some_bind]
  rw [show (ID.mk p.id.sub_ids.length p.id.incl p.id.sub_ids)
        = p.id.renorm from rfl]
  rw [sliceFrom_append_of_eq (id_renorm_byte_size hid)]
  simp only [Option.bind_eq_bind, Option.some_bind]
  rw [os_parse_exact hdb hoswf.1]
  rfl

theorem rmcaps_roundtrip {p p' : RemoveAgentCaps} {out : Bytes}
    (hwf : p.wf) (henc : p.to_bytes = some (p', out)) :
    RemoveAgentCaps.from_bytes out = some { p' with id := p'.id.renorm } := by
  obtain ⟨hhwf, hctx, hidwf⟩ := hwf
  unfold RemoveAgentCaps.to_bytes at henc
  dsimp only [] at henc
  rcases hc : context_to_bytes p.context p.header.byte_order with _ | cb <;>
    rw [hc] at henc
  · cases henc
  simp only [Option.bind_eq_bind, Option.some_bind] at henc
  rcases hid : p.id.to_bytes p.header.byte_order with _ | idb <;>
    rw [hid] at henc
  · cases henc
  simp only [Option.bind_eq_bind, Option.some_bind] at henc
  rcases hsp : p.header.set_payload_len (cb ++ idb).length with _ | h <;>
    rw [hsp] at henc
  · cases henc
  simp only [Option.bind_eq_bind, Option.some_bind, Option.some.injEq,
    Prod.mk.injEq] at henc
  obtain ⟨rfl, rfl⟩ := henc
  obtain ⟨hlt, rfl⟩ := Header.set_payload_len_lt hsp
  unfold RemoveAgentCaps.from_bytes
  have hhwf2 : ({ p.header with payload_length := (cb ++ idb).length }
      : Header).wf := ⟨hhwf.1, hhwf.2.1, hhwf.2.2.1, hlt⟩
  rw [header_parse_append hhwf2]
  simp only [Option.bind_eq_bind, Option.some_bind]
  rw [pdu_header_slice]
  simp only [Option.bind_eq_bind, Option.some_bind]
  unfold RemoveAgentCaps.decode_payload
  dsimp only []
  rw [show header_byte_order p.header.flags = p.header.byte_order from rfl]
  rw [context_parse_append rfl hc hctx.1 (context_ok_utf8 hctx) _]
  simp only [Option.bind_eq_bind, Option.some_bind]
  rw [context_advance hc]
  simp only [Option.bind_eq_bind, Option.some_bind]
  rw [id_parse_exact hid hidwf.2.2]
  rfl

/-- Centisecond-granular uptimes below the `u32`-millisecond overflow bound
survive the encode/decode pair (`/ 10` on encode, wrapping `* 10` on
decode). -/
theorem uptime_roundtrip {d : Duration} (h1 : d.nanos % 10000000 = 0)
    (h2 : d.nanos < 1000000000) (h3 : d.as_millis < 2 ^ 32) :
    Duration.from_millis (d.as_millis / 10 * 10 % 2 ^ 32) = d := by
  rcases d with ⟨secs, nanos⟩
  simp only [Duration.from_millis, Duration.as_millis] at *
  have h10 : (secs * 1000 + nanos / 1000000) / 10 * 10
      = secs * 1000 + nanos / 1000000 := by omega
  rw [h10, Nat.mod_eq_of_lt h3]
  congr 1 <;> omega

/-- The vb tail after exactly the two `res_index` bytes plus a trailing
buffer: always present. -/
theorem vb_tail_append (ix : Nat) (bo : ByteOrder) (vbb : Bytes) :
    vb_tail (u16_to_bytes ix bo ++ vbb) bo
      = (VarBindList.from_bytes vbb bo).map some := by
  unfold vb_tail
  rw [sliceFrom_append_of_eq (u16_to_bytes_length ix bo).symm]

theorem response_roundtrip {p p' : Response} {out : Bytes} (hwf : p.wf)
    (henc : p.to_bytes = some (p', out)) :
    Response.from_bytes out
      = some { p' with vb := p'.vb.map (fun l => ⟨l.binds.map VarBind.renorm⟩) } := by
  obtain ⟨hhwf, hg1, hg2, hg3, hix, hvbwf⟩ := hwf
  unfold Response.to_bytes at henc
  dsimp only [] at henc
  split at henc
  case isFalse hbad => exact absurd hg3 (by omega)
  case isTrue hup =>
    rcases hvb : p.vb with _ | l
    · rw [hvb] at hvbwf
      exact absurd hvbwf (by unfold vbl_opt_wf; simp)
    rw [hvb] at henc hvbwf
    rw [show vbl_opt_to_bytes (some l) p.header.byte_order
          = VarBindList.to_bytes l p.header.byte_order from rfl] at henc
    rcases hvbb : VarBindList.to_bytes l p.header.byte_order with _ | vbb <;>
      rw [hvbb] at henc
    · cases henc
    simp only [Option.bind_eq_bind, Option.some_bind] at henc
    rcases hsp : p.header.set_payload_len
        (u32_to_bytes (p.sys_uptime.as_millis / 10) p.header.byte_order ++
          p.res_error.to_bytes p.header.byte_order ++
          u16_to_bytes p.res_index p.header.byte_order ++ vbb).length
        with _ | h <;> rw [hsp] at henc
    · cases henc
    simp only [Option.bind_eq_bind, Option.some_bind, Option.some.injEq,
      Prod.mk.injEq] at henc
    obtain ⟨rfl, rfl⟩ := henc
    obtain ⟨hlt, rfl⟩ := Header.set_payload_len_lt hsp
    unfold Response.from_bytes
    have hhwf2 : ({ p.header with payload_length :=
        (u32_to_bytes (p.sys_uptime.as_millis / 10) p.header.byte_order ++
          p.res_error.to_bytes p.header.byte_order ++
          u16_to_bytes p.res_index p.header.byte_order ++ vbb).length }
        : Header).wf := ⟨hhwf.1, hhwf.2.1, hhwf.2.2.1, hlt⟩
    rw [header_parse_append hhwf2]
    simp only [Option.bind_eq_bind, Option.some_bind]
    rw [pdu_header_slice]
    simp only [Option.bind_eq_bind, Option.some_bind]
    unfold Response.decode_payload
    dsimp only []
    rw [show header_byte_order p.header.flags = p.header.byte_order from rfl]
    rw [show (u32_to_bytes (p.sys_uptime.as_millis / 10) p.header.byte_order ++
          p.res_error.to_bytes p.header.byte_order ++
          u16_to_bytes p.res_index p.header.byte_order ++ vbb)
        = u32_to_bytes (p.sys_uptime.as_millis / 10) p.header.byte_order ++
          (p.res_error.to_bytes p.header.byte_order ++
            (u16_to_bytes p.res_index p.header.byte_order ++ vbb)) by simp]
    rw [bytes_to_u32_append, Nat.mod_eq_of_lt hup]
    simp only [Option.bind_eq_bind, Option.some_bind]
    rw [sliceFrom_append_of_eq (u32_to_bytes_length _ _).symm]
    simp only [Option.bind_eq_bind, Option.some_bind]
    rw [ResError.from_bytes_append]
    simp only [Option.bind_eq_bind, Option.some_bind]
    rw [show sliceFrom (p.res_error.to_bytes p.header.byte_order ++
          (u16_to_bytes p.res_index p.header.byte_order ++ vbb))
          (ResError.byte_size p.res_error) = some
          (u16_to_bytes p.res_index p.header.byte_order ++ vbb) from
      sliceFrom_append_of_eq (by
        unfold ResError.to_bytes ResError.byte_size
        rw [u16_to_bytes_length])]
    simp only [Option.bind_eq_bind, Option.some_bind]
    rw [bytes_to_u16_append, Nat.mod_eq_of_lt hix]
    simp only [Option.bind_eq_bind, Option.some_bind]
    rw [vb_tail_append]
    rw [vbl_parse_concat (show ∀ vb ∈ l.binds, vb.wf from hvbwf) hvbb]
    simp only [Option.map_some', Option.bind_eq_bind, Option.some_bind]
    rw [uptime_roundtrip hg1 hg2 hg3]

/-! ### Payload-length emission (encode side) -/

/-- `Open::to_bytes` emits a header stamped with the actual payload length. -/
theorem open_emits {p p' : Open} {out : Bytes}
    (henc : p.to_bytes = some (p', out)) :
    ∃ payload, out = p'.header.to_bytes ++ payload ∧
      p'.header.payload_length = payload.length := by
  unfold Open.to_bytes at henc
  split at henc
  case isFalse => cases henc
  case isTrue hto =>
    dsimp only [] at henc
    simp only [Option.bind_eq_bind, Option.bind_eq_some, Option.some.injEq,
      Prod.mk.injEq] at henc
    obtain ⟨idb, hid, db, hdb, h2, hsp, ⟨rfl, rfl⟩⟩ := henc
    obtain ⟨hlt, rfl⟩ := Header.set_payload_len_lt hsp
    exact ⟨_, rfl, rfl⟩

/-- `Close::to_bytes` stamps the constant 4, the length of its payload. -/
theorem close_emits {p p' : Close} {out : Bytes}
    (henc : p.to_bytes = some (p', out)) :
    ∃ payload, out = p'.header.to_bytes ++ payload ∧
      p'.header.payload_length = payload.length := by
  unfold Close.to_bytes at henc
  simp only [Option.some.injEq, Prod.mk.injEq] at henc
  obtain ⟨rfl, rfl⟩ := henc
  exact ⟨_, rfl, rfl⟩

/-- `Register::to_bytes` emits a header stamped with the actual payload
length. -/
theorem register_emits {p p' : Register} {out : Bytes}
    (henc : p.to_bytes = some (p', out)) :
    ∃ payload, out = p'.header.to_bytes ++ payload ∧
      p'.header.payload_length = payload.length := by
  unfold Register.to_bytes at henc
  dsimp only [] at henc
  simp only [Option.bind_eq_bind, Option.bind_eq_some] at henc
  obtain ⟨cb, hc, henc⟩ := henc
  split at henc
  case isFalse => cases henc
  case isTrue hto =>
    simp only [Option.bind_eq_some, Option.some.injEq, Prod.mk.injEq] at henc
    obtain ⟨sb, hsb, h2, hsp, ⟨rfl, rfl⟩⟩ := henc
    obtain ⟨hlt, rfl⟩ := Header.set_payload_len_lt hsp
    exact ⟨_, rfl, rfl⟩

/-- `Unregister::to_bytes` emits a header stamped with the actual payload
length. -/
theorem unregister_emits {p p' : Unregister} {out : Bytes}
    (henc : p.to_bytes = some (p', out)) :
    ∃ payload, out = p'.header.to_bytes ++ payload ∧
      p'.header.payload_length = payload.length := by
  unfold Unregister.to_bytes at henc
  dsimp only [] at henc
  simp only [Option.bind_eq_bind, Option.bind_eq_some, Option.some.injEq,
    Prod.mk.injEq] at henc
  obtain ⟨cb, hc, sb, hsb, h2, hsp, ⟨rfl, rfl⟩⟩ := henc
  obtain ⟨hlt, rfl⟩ := Header.set_payload_len_lt hsp
  exact ⟨_, rfl, rfl⟩

/-- `Get::to_bytes` emits a header stamped with the actual payload length. -/
theorem get_emits {p p' : Get} {out : Bytes}
    (henc : p.to_bytes = some (p', out)) :
    ∃ payload, out = p'.header.to_bytes ++ payload ∧
      p'.header.payload_length = payload.length := by
  unfold Get.to_bytes get_alike_payload at henc
  simp only [Option.bind_eq_bind, Option.bind_eq_some, Option.some.injEq,
    Prod.mk.injEq] at henc
  obtain ⟨payload, ⟨cb, hc, sb, hsb, rfl⟩, h2, hsp, ⟨rfl, rfl⟩⟩ := henc
  obtain ⟨hlt, rfl⟩ := Header.set_payload_len_lt hsp
  exact ⟨_, rfl, rfl⟩

/-- `GetNext::to_bytes` emits a header stamped with the actual payload
length. -/
theorem getnext_emits {p p' : GetNext} {out : Bytes}
    (henc : p.to_bytes = some (p', out)) :
    ∃ payload, out = p'.header.to_bytes ++ payload ∧
      p'.header.payload_length = payload.length := by
  unfold GetNext.to_bytes get_alike_payload at henc
  simp only [Option.bind_eq_bind, Option.bind_eq_some, Option.some.injEq,
    Prod.mk.injEq] at henc
  obtain ⟨payload, ⟨cb, hc, sb, hsb, rfl⟩, h2, hsp, ⟨rfl, rfl⟩⟩ := henc
  obtain ⟨hlt, rfl⟩ := Header.set_payload_len_lt hsp
  exact ⟨_, rfl, rfl⟩

/-- `GetBulk::to_bytes` emits a header stamped with the actual payload
length. -/
theorem getbulk_emits {p p' : GetBulk} {out : Bytes}
    (henc : p.to_bytes = some (p', out)) :
    ∃ payload, out = p'.header.to_bytes ++ payload ∧
      p'.header.payload_length = payload.length := by
  unfold GetBulk.to_bytes at henc
  dsimp only [] at henc
  simp only [Option.bind_eq_bind, Option.bind_eq_some, Option.some.injEq,
    Prod.mk.injEq] at henc
  obtain ⟨cb, hc, sb, hsb, h2, hsp, ⟨rfl, rfl⟩⟩ := henc
  obtain ⟨hlt, rfl⟩ := Header.set_payload_len_lt hsp
  exact ⟨_, rfl, rfl⟩

/-- `TestSet::to_bytes` emits a header stamped with the actual payload
length. -/
theorem testset_emits {p p' : TestSet} {out : Bytes}
    (henc : p.to_bytes = some (p', out)) :
    ∃ payload, out = p'.header.to_bytes ++ payload ∧
      p'.header.payload_length = payload.length := by
  unfold TestSet.to_bytes testset_alike_payload at henc
  simp only [Option.bind_eq_bind, Option.bind_eq_some, Option.some.injEq,
    Prod.mk.injEq] at henc
  obtain ⟨payload, ⟨cb, hc, vbb, hvbb, rfl⟩, h2, hsp, ⟨rfl, rfl⟩⟩ := henc
  obtain ⟨hlt, rfl⟩ := Header.set_payload_len_lt hsp
  exact ⟨_, rfl, rfl⟩

/-- `Notify::to_bytes` emits a header stamped with the actual payload
length. -/
theorem notify_emits {p p' : Notify} {out : Bytes}
    (henc : p.to_bytes = some (p', out)) :
    ∃ payload, out = p'.header.to_bytes ++ payload ∧
      p'.header.payload_length = payload.length := by
  unfold Notify.to_bytes testset_alike_payload at henc
  simp only [Option.bind_eq_bind, Option.bind_eq_some, Option.some.injEq,
    Prod.mk.injEq] at henc
  obtain ⟨payload, ⟨cb, hc, vbb, hvbb, rfl⟩, h2, hsp, ⟨rfl, rfl⟩⟩ := henc
  obtain ⟨hlt, rfl⟩ := Header.set_payload_len_lt hsp
  exact ⟨_, rfl, rfl⟩

/-- `IndexAllocate::to_bytes` emits a header stamped with the actual payload
length. -/
theorem ialloc_emits {p p' : IndexAllocate} {out : Bytes}
    (henc : p.to_bytes = some (p', out)) :
    ∃ payload, out = p'.header.to_bytes ++ payload ∧
      p'.header.payload_length = payload.length := by
  unfold IndexAllocate.to_bytes testset_alike_payload at henc
  simp only [Option.bind_eq_bind, Option.bind_eq_some, Option.some.injEq,
    Prod.mk.injEq] at henc
  obtain ⟨payload, ⟨cb, hc, vbb, hvbb, rfl⟩, h2, hsp, ⟨rfl, rfl⟩⟩ := henc
  obtain ⟨hlt, rfl⟩ := Header.set_payload_len_lt hsp
  exact ⟨_, rfl, rfl⟩

/-- `IndexDeallocate::to_bytes` emits a header stamped with the actual payload
length. -/
theorem idealloc_emits {p p' : IndexDeallocate} {out : Bytes}
    (henc : p.to_bytes = some (p', out)) :
    ∃ payload, out = p'.header.to_bytes ++ payload ∧
      p'.header.payload_length = payload.length := by
  unfold IndexDeallocate.to_bytes testset_alike_payload at henc
  simp only [Option.bind_eq_bind, Option.bind_eq_some, Option.some.injEq,
    Prod.mk.injEq] at henc
  obtain ⟨payload, ⟨cb, hc, vbb, hvbb, rfl⟩, h2, hsp, ⟨rfl, rfl⟩⟩ := henc
  obtain ⟨hlt, rfl⟩ := Header.set_payload_len_lt hsp
  exact ⟨_, rfl, rfl⟩

/-- `Ping::to_bytes` emits a header stamped with the actual payload length. -/
theorem ping_emits {p p' : Ping} {out : Bytes}
    (henc : p.to_bytes = some (p', out)) :
    ∃ payload, out = p'.header.to_bytes ++ payload ∧
      p'.header.payload_length = payload.length := by
  unfold Ping.to_bytes at henc
  simp only [Option.bind_eq_bind, Option.bind_eq_some, Option.some.injEq,
    Prod.mk.injEq] at henc
  obtain ⟨payload, hc, h2, hsp, ⟨rfl, rfl⟩⟩ := henc
  obtain ⟨hlt, rfl⟩ := Header.set_payload_len_lt hsp
  exact ⟨_, rfl, rfl⟩

/-- `AddAgentCaps::to_bytes` emits a header stamped with the actual payload
length. -/
theorem addcaps_emits {p p' : AddAgentCaps} {out : Bytes}
    (henc : p.to_bytes = some (p', out)) :
    ∃ payload, out = p'.header.to_bytes ++ payload ∧
      p'.header.payload_length = payload.length := by
  unfold AddAgentCaps.to_bytes at henc
  dsimp only [] at henc
  simp only [Option.bind_eq_bind, Option.bind_eq_some, Option.some.injEq,
    Prod.mk.injEq] at henc
  obtain ⟨cb, hc, idb, hid, db, hdb, h2, hsp, ⟨rfl, rfl⟩⟩ := henc
  obtain ⟨hlt, rfl⟩ := Header.set_payload_len_lt hsp
  exact ⟨_, rfl, rfl⟩

/-- `RemoveAgentCaps::to_bytes` emits a header stamped with the actual payload
length. -/
theorem rmcaps_emits {p p' : RemoveAgentCaps} {out : Bytes}
    (henc : p.to_bytes = some (p', out)) :
    ∃ payload, out = p'.header.to_bytes ++ payload ∧
      p'.header.payload_length = payload.length := by
  unfold RemoveAgentCaps.to_bytes at henc
  dsimp only [] at henc
  simp only [Option.bind_eq_bind, Option.bind_eq_some, Option.some.injEq,
    Prod.mk.injEq] at henc
  obtain ⟨cb, hc, idb, hid, h2, hsp, ⟨rfl, rfl⟩⟩ := henc
  obtain ⟨hlt, rfl⟩ := Header.set_payload_len_lt hsp
  exact ⟨_, rfl, rfl⟩

/-- `Response::to_bytes` emits a header stamped with the actual payload
length. -/
theorem response_emits {p p' : Response} {out : Bytes}
    (henc : p.to_bytes = some (p', out)) :
    ∃ payload, out = p'.header.to_bytes ++ payload ∧
      p'.header.payload_length = payload.length := by
  unfold Response.to_bytes at henc
  dsimp only [] at henc
  split at henc
  case isFalse => cases henc
  case isTrue hup =>
    simp only [Option.bind_eq_bind, Option.bind_eq_some, Option.some.injEq,
      Prod.mk.injEq] at henc
    obtain ⟨vbb, hvbb, h2, hsp, ⟨rfl, rfl⟩⟩ := henc
    obtain ⟨hlt, rfl⟩ := Header.set_payload_len_lt hsp
    exact ⟨_, rfl, rfl⟩

/-! ### Decoded values are source-`==` to the originals -/

theorem srl_beq_renorm (srl : SearchRangeList) :
    SearchRangeList.beq ⟨srl.ranges.map SearchRange.renorm⟩ srl = true := by
  unfold SearchRangeList.beq
  dsimp only []
  induction srl.ranges with
  | nil => rfl
  | cons sr t ih => simp [List.all₂, sr_beq_renorm, ih]

theorem vbl_beq_renorm (vbl : VarBindList) :
    VarBindList.beq ⟨vbl.binds.map VarBind.renorm⟩ vbl = true := by
  unfold VarBindList.beq
  dsimp only []
  induction vbl.binds with
  | nil => rfl
  | cons vb t ih => simp [List.all₂, vbind_beq_renorm, ih]

theorem open_beq_decoded (p : Open) :
    Open.beq { p with id := p.id.renorm } p = true := by
  simp [Open.beq, id_beq_renorm]

theorem close_beq_refl (p : Close) : Close.beq p p = true := by
  simp [Close.beq]

theorem register_beq_decoded (p : Register) :
    Register.beq { p with subtree := p.subtree.renorm } p = true := by
  simp [Register.beq, id_beq_renorm]

theorem unregister_beq_decoded (p : Unregister) :
    Unregister.beq { p with subtree := p.subtree.renorm } p = true := by
  simp [Unregister.beq, id_beq_renorm]

theorem get_beq_decoded (p : Get) :
    Get.beq { p with sr := ⟨p.sr.ranges.map SearchRange.renorm⟩ } p = true := by
  simp [Get.beq, srl_beq_renorm]

theorem getnext_beq_decoded (p : GetNext) :
    GetNext.beq { p with sr := ⟨p.sr.ranges.map SearchRange.renorm⟩ } p
      = true := by
  simp [GetNext.beq, srl_beq_renorm]

theorem getbulk_beq_decoded (p : GetBulk) :
    GetBulk.beq { p with sr := ⟨p.sr.ranges.map SearchRange.renorm⟩ } p
      = true := by
  simp [GetBulk.beq, srl_beq_renorm]

theorem testset_beq_decoded (p : TestSet) :
    TestSet.beq { p with vb := ⟨p.vb.binds.map VarBind.renorm⟩ } p = true := by
  simp [TestSet.beq, vbl_beq_renorm]

theorem notify_beq_decoded (p : Notify) :
    Notify.beq { p with vb := ⟨p.vb.binds.map VarBind.renorm⟩ } p = true := by
  simp [Notify.beq, vbl_beq_renorm]

theorem ialloc_beq_decoded (p : IndexAllocate) :
    IndexAllocate.beq { p with vb := ⟨p.vb.binds.map VarBind.renorm⟩ } p
      = true := by
  simp [IndexAllocate.beq, vbl_beq_renorm]

theorem idealloc_beq_decoded (p : IndexDeallocate) :
    IndexDeallocate.beq { p with vb := ⟨p.vb.binds.map VarBind.renorm⟩ } p
      = true := by
  simp [IndexDeallocate.beq, vbl_beq_renorm]

theorem commitset_beq_refl (p : CommitSet) : CommitSet.beq p p = true := by
  simp [CommitSet.beq]

theorem undoset_beq_refl (p : UndoSet) : UndoSet.beq p p = true := by
  simp [UndoSet.beq]

theorem cleanupset_beq_refl (p : CleanupSet) : CleanupSet.beq p p = true := by
  simp [CleanupSet.beq]

theorem ping_beq_refl (p : Ping) : Ping.beq p p = true := by
  simp [Ping.beq]

theorem addcaps_beq_decoded (p : AddAgentCaps) :
    AddAgentCaps.beq { p with id := p.id.renorm } p = true := by
  simp [AddAgentCaps.beq, id_beq_renorm]

theorem rmcaps_beq_decoded (p : RemoveAgentCaps) :
    RemoveAgentCaps.beq { p with id := p.id.renorm } p = true := by
  simp [RemoveAgentCaps.beq, id_beq_renorm]

theorem response_beq_decoded (p : Response) :
    Response.beq
      { p with vb := p.vb.map (fun l => ⟨l.binds.map VarBind.renorm⟩) } p
      = true := by
  rcases hv : p.vb with _ | l <;>
    simp [Response.beq, hv, vbl_beq_renorm]

theorem bytes_to_u32_prefix {a : Bytes} (h : 4 ≤ a.length) (r : Bytes)
    (bo : ByteOrder) : bytes_to_u32 (a ++ r) bo = bytes_to_u32 a bo := by
  rcases a with _ | ⟨a0, a⟩
  · simp at h
  rcases a with _ | ⟨a1, a⟩
  · simp at h
  rcases a with _ | ⟨a2, a⟩
  · simp at h
  rcases a with _ | ⟨a3, a⟩
  · simp at h
  rfl

theorem bytes_to_u32_total {b : Bytes} (h : 4 ≤ b.length) (bo : ByteOrder) :
    ∃ v, bytes_to_u32 b bo = some v := by
  rcases b with _ | ⟨b0, b⟩
  · simp at h
  rcases b with _ | ⟨b1, b⟩
  · simp at h
  rcases b with _ | ⟨b2, b⟩
  · simp at h
  rcases b with _ | ⟨b3, b⟩
  · simp at h
  cases bo
  · exact ⟨_, rfl⟩
  · exact ⟨_, rfl⟩

/-- `Header::from_bytes` reads its fields at fixed offsets: replacing the four
`payload_length` bytes (offsets 16..20) changes nothing but that field. -/
theorem Header.from_bytes_replace {pre16 pl pl2 rest : Bytes}
    (h16 : pre16.length = 16) (h4 : pl.length = 4) (h42 : pl2.length = 4) :
    (Header.from_bytes (pre16 ++ pl ++ rest)).map Header.zero_plen
      = (Header.from_bytes (pre16 ++ pl2 ++ rest)).map Header.zero_plen := by
  rcases pre16 with _ | ⟨b0, pre16⟩
  · simp at h16
  rcases pre16 with _ | ⟨b1, pre16⟩
  · simp at h16
  rcases pre16 with _ | ⟨b2, pre16⟩
  · simp at h16
  rcases pre16 with _ | ⟨b3, m12⟩
  · simp at h16
  have hm : m12.length = 12 := by
    simp only [List.length_cons] at h16
    omega
  unfold Header.from_bytes
  rw [if_neg (by
    simp only [List.cons_append, List.length_cons, List.length_append,
      HEADER_SIZE, h4, hm]
    omega)]
  rw [if_neg (by
    simp only [List.cons_append, List.length_cons, List.length_append,
      HEADER_SIZE, h42, hm]
    omega)]
  simp only [List.cons_append, List.append_assoc]
  rcases hty : PType.from_byte b1 with _ | ty
  · simp [hty]
  simp only [hty, Option.bind_eq_bind, Option.some_bind]
  have e1 : ∀ X : Bytes, List.drop 4 (m12 ++ X) = m12.drop 4 ++ X :=
    fun X => List.drop_append_of_le_length (by omega)
  have e2 : ∀ X : Bytes, List.drop 8 (m12 ++ X) = m12.drop 8 ++ X :=
    fun X => List.drop_append_of_le_length (by omega)
  have e3 : ∀ X : Bytes, List.drop 12 (m12 ++ X) = X :=
    fun X => drop_append_of_eq hm.symm
  have p0 : ∀ X : Bytes, bytes_to_u32 (m12 ++ X) (header_byte_order b2)
      = bytes_to_u32 m12 (header_byte_order b2) :=
    fun X => bytes_to_u32_prefix (by omega) X (header_byte_order b2)
  have p4 : ∀ X : Bytes, bytes_to_u32 (m12.drop 4 ++ X) (header_byte_order b2)
      = bytes_to_u32 (m12.drop 4) (header_byte_order b2) :=
    fun X => bytes_to_u32_prefix (by
      simp only [List.length_drop]
      omega) X (header_byte_order b2)
  have p8 : ∀ X : Bytes, bytes_to_u32 (m12.drop 8 ++ X) (header_byte_order b2)
      = bytes_to_u32 (m12.drop 8) (header_byte_order b2) :=
    fun X => bytes_to_u32_prefix (by
      simp only [List.length_drop]
      omega) X (header_byte_order b2)
  simp only [e1, e2, e3, p0, p4, p8]
  rcases hs : bytes_to_u32 m12 (header_byte_order b2) with _ | sid
  · rfl
  simp only [Option.bind_eq_bind, Option.some_bind]
  rcases ht : bytes_to_u32 (m12.drop 4) (header_byte_order b2) with _ | tid
  · rfl
  simp only [Option.bind_eq_bind, Option.some_bind]
  rcases hp : bytes_to_u32 (m12.drop 8) (header_byte_order b2) with _ | pid
  · rfl
  simp only [Option.bind_eq_bind, Option.some_bind]
  obtain ⟨v1, hv1⟩ :=
    @bytes_to_u32_total (pl ++ rest) (by simp [h4]) (header_byte_order b2)
  obtain ⟨v2, hv2⟩ :=
    @bytes_to_u32_total (pl2 ++ rest) (by simp [h42]) (header_byte_order b2)
  rw [hv1, hv2]
  rfl

/-- The shape every PDU decoder shares, with the decoded header blanked: the
result is independent of the four `payload_length` bytes of the buffer. -/
theorem pdu_from_bytes_replace {α : Type} (dec : Nat → Bytes → Option α)
    {pre16 pl pl2 rest : Bytes} (h16 : pre16.length = 16) (h4 : pl.length = 4)
    (h42 : pl2.length = 4) :
    ((Header.from_bytes (pre16 ++ pl ++ rest)).bind (fun h =>
        (sliceFrom (pre16 ++ pl ++ rest) h.byte_size).bind (fun b =>
          (dec h.flags b).map (fun f => (h.zero_plen, f)))))
      = ((Header.from_bytes (pre16 ++ pl2 ++ rest)).bind (fun h =>
        (sliceFrom (pre16 ++ pl2 ++ rest) h.byte_size).bind (fun b =>
          (dec h.flags b).map (fun f => (h.zero_plen, f))))) := by
  have hrep := @Header.from_bytes_replace pre16 pl pl2 rest h16 h4 h42
  rcases hh2 : Header.from_bytes (pre16 ++ pl2 ++ rest) with _ | h2
  · rw [hh2] at hrep
    simp only [Option.map_none'] at hrep
    rcases hh1 : Header.from_bytes (pre16 ++ pl ++ rest) with _ | h1
    · rfl
    · rw [hh1] at hrep
      simp at hrep
  · rw [hh2] at hrep
    rcases hh1 : Header.from_bytes (pre16 ++ pl ++ rest) with _ | h1
    · rw [hh1] at hrep
      simp at hrep
    rw [hh1] at hrep
    simp only [Option.map_some', Option.some.injEq] at hrep
    simp only [Option.bind_eq_bind, Option.some_bind]
    have hs1 : sliceFrom (pre16 ++ pl ++ rest) h1.byte_size = some rest :=
      sliceFrom_append_of_eq (by
        simp [Header.byte_size, HEADER_SIZE, h16, h4])
    have hs2 : sliceFrom (pre16 ++ pl2 ++ rest) h2.byte_size = some rest :=
      sliceFrom_append_of_eq (by
        simp [Header.byte_size, HEADER_SIZE, h16, h42])
    rw [hs1, hs2]
    simp only [Option.bind_eq_bind, Option.some_bind]
    have hfl : h1.flags = h2.flags :=
      @congrArg Header Nat h1.zero_plen h2.zero_plen Header.flags hrep
    rw [hfl, hrep]

theorem open_from_bytes_strip (b : Bytes) :
    (Open.from_bytes b).map Open.strip
      = Option.map (fun q => ⟨q.1, q.2.1, q.2.2.1, q.2.2.2⟩)
        ((Header.from_bytes b).bind (fun h =>
          (sliceFrom b h.byte_size).bind (fun bb =>
            (Open.decode_payload h.flags bb).map (fun f => (h.zero_plen, f))))) := by
  unfold Open.from_bytes
  rcases Header.from_bytes b with _ | h
  · rfl
  simp only [Option.bind_eq_bind, Option.some_bind]
  rcases sliceFrom b h.byte_size with _ | bb
  · rfl
  simp only [Option.some_bind]
  rcases Open.decode_payload h.flags bb with _ | f
  · rfl
  rfl

/-- `Open::from_bytes` never consults the decoded `payload_length`: the two
buffers differing only in those four bytes decode to results differing only
in that header field. -/
theorem open_plen_irrelevant {pre16 pl pl2 rest : Bytes}
    (h16 : pre16.length = 16) (h4 : pl.length = 4) (h42 : pl2.length = 4) :
    (Open.from_bytes (pre16 ++ pl ++ rest)).map Open.strip
      = (Open.from_bytes (pre16 ++ pl2 ++ rest)).map Open.strip := by
  rw [open_from_bytes_strip, open_from_bytes_strip,
    pdu_from_bytes_replace Open.decode_payload h16 h4 h42]

theorem close_from_bytes_strip (b : Bytes) :
    (Close.from_bytes b).map Close.strip
      = Option.map (fun q => ⟨q.1, q.2⟩)
        ((Header.from_bytes b).bind (fun h =>
          (sliceFrom b h.byte_size).bind (fun bb =>
            (Close.decode_payload h.flags bb).map (fun f => (h.zero_plen, f))))) := by
  unfold Close.from_bytes
  rcases Header.from_bytes b with _ | h
  · rfl
  simp only [Option.bind_eq_bind, Option.some_bind]
  rcases sliceFrom b h.byte_size with _ | bb
  · rfl
  simp only [Option.some_bind]
  rcases Close.decode_payload h.flags bb with _ | f
  · rfl
  rfl

/-- `Close::from_bytes` never consults the decoded `payload_length`: the two
buffers differing only in those four bytes decode to results differing only
in that header field. -/
theorem close_plen_irrelevant {pre16 pl pl2 rest : Bytes}
    (h16 : pre16.length = 16) (h4 : pl.length = 4) (h42 : pl2.length = 4) :
    (Close.from_bytes (pre16 ++ pl ++ rest)).map Close.strip
      = (Close.from_bytes (pre16 ++ pl2 ++ rest)).map Close.strip := by
  rw [close_from_bytes_strip, close_from_bytes_strip,
    pdu_from_bytes_replace Close.decode_payload h16 h4 h42]

theorem register_from_bytes_strip (b : Bytes) :
    (Register.from_bytes b).map Register.strip
      = Option.map (fun q => ⟨q.1, q.2.1, q.2.2.1, q.2.2.2.1, q.2.2.2.2.1, q.2.2.2.2.2.1, q.2.2.2.2.2.2⟩)
        ((Header.from_bytes b).bind (fun h =>
          (sliceFrom b h.byte_size).bind (fun bb =>
            (Register.decode_payload h.flags bb).map (fun f => (h.zero_plen, f))))) := by
  unfold Register.from_bytes
  rcases Header.from_bytes b with _ | h
  · rfl
  simp only [Option.bind_eq_bind, Option.some_bind]
  rcases sliceFrom b h.byte_size with _ | bb
  · rfl
  simp only [Option.some_bind]
  rcases Register.decode_payload h.flags bb with _ | f
  · rfl
  rfl

/-- `Register::from_bytes` never consults the decoded `payload_length`: the two
buffers differing only in those four bytes decode to results differing only
in that header field. -/
theorem register_plen_irrelevant {pre16 pl pl2 rest : Bytes}
    (h16 : pre16.length = 16) (h4 : pl.length = 4) (h42 : pl2.length = 4) :
    (Register.from_bytes (pre16 ++ pl ++ rest)).map Register.strip
      = (Register.from_bytes (pre16 ++ pl2 ++ rest)).map Register.strip := by
  rw [register_from_bytes_strip, register_from_bytes_strip,
    pdu_from_bytes_replace Register.decode_payload h16 h4 h42]

theorem unregister_from_bytes_strip (b : Bytes) :
    (Unregister.from_bytes b).map Unregister.strip
      = Option.map (fun q => ⟨q.1, q.2.1, q.2.2.1, q.2.2.2.1, q.2.2.2.2.1, q.2.2.2.2.2⟩)
        ((Header.from_bytes b).bind (fun h =>
          (sliceFrom b h.byte_size).bind (fun bb =>
            (Unregister.decode_payload h.flags bb).map (fun f => (h.zero_plen, f))))) := by
  unfold Unregister.from_bytes
  rcases Header.from_bytes b with _ | h
  · rfl
  simp only [Option.bind_eq_bind, Option.some_bind]
  rcases sliceFrom b h.byte_size with _ | bb
  · rfl
  simp only [Option.some_bind]
  rcases Unregister.decode_payload h.flags bb with _ | f
  · rfl
  rfl

/-- `Unregister::from_bytes` never consults the decoded `payload_length`: the two
buffers differing only in those four bytes decode to results differing only
in that header field. -/
theorem unregister_plen_irrelevant {pre16 pl pl2 rest : Bytes}
    (h16 : pre16.length = 16) (h4 : pl.length = 4) (h42 : pl2.length = 4) :
    (Unregister.from_bytes (pre16 ++ pl ++ rest)).map Unregister.strip
      = (Unregister.from_bytes (pre16 ++ pl2 ++ rest)).map Unregister.strip := by
  rw [unregister_from_bytes_strip, unregister_from_bytes_strip,
    pdu_from_bytes_replace Unregister.decode_payload h16 h4 h42]

theorem get_from_bytes_strip (b : Bytes) :
    (Get.from_bytes b).map Get.strip
      = Option.map (fun q => ⟨q.1, q.2.1, q.2.2⟩)
        ((Header.from_bytes b).bind (fun h =>
          (sliceFrom b h.byte_size).bind (fun bb =>
            (get_alike_decode_payload h.flags bb).map (fun f => (h.zero_plen, f))))) := by
  unfold Get.from_bytes
  rcases Header.from_bytes b with _ | h
  · rfl
  simp only [Option.bind_eq_bind, Option.some_bind]
  rcases sliceFrom b h.byte_size with _ | bb
  · rfl
  simp only [Option.some_bind]
  rcases get_alike_decode_payload h.flags bb with _ | f
  · rfl
  rfl

/-- `Get::from_bytes` never consults the decoded `payload_length`: the two
buffers differing only in those four bytes decode to results differing only
in that header field. -/
theorem get_plen_irrelevant {pre16 pl pl2 rest : Bytes}
    (h16 : pre16.length = 16) (h4 : pl.length = 4) (h42 : pl2.length = 4) :
    (Get.from_bytes (pre16 ++ pl ++ rest)).map Get.strip
      = (Get.from_bytes (pre16 ++ pl2 ++ rest)).map Get.strip := by
  rw [get_from_bytes_strip, get_from_bytes_strip,
    pdu_from_bytes_replace get_alike_decode_payload h16 h4 h42]

theorem getnext_from_bytes_strip (b : Bytes) :
    (GetNext.from_bytes b).map GetNext.strip
      = Option.map (fun q => ⟨q.1, q.2.1, q.2.2⟩)
        ((Header.from_bytes b).bind (fun h =>
          (sliceFrom b h.byte_size).bind (fun bb =>
            (get_alike_decode_payload h.flags bb).map (fun f => (h.zero_plen, f))))) := by
  unfold GetNext.from_bytes
  rcases Header.from_bytes b with _ | h
  · rfl
  simp only [Option.bind_eq_bind, Option.some_bind]
  rcases sliceFrom b h.byte_size with _ | bb
  · rfl
  simp only [Option.some_bind]
  rcases get_alike_decode_payload h.flags bb with _ | f
  · rfl
  rfl

/-- `GetNext::from_bytes` never consults the decoded `payload_length`: the two
buffers differing only in those four bytes decode to results differing only
in that header field. -/
theorem getnext_plen_irrelevant {pre16 pl pl2 rest : Bytes}
    (h16 : pre16.length = 16) (h4 : pl.length = 4) (h42 : pl2.length = 4) :
    (GetNext.from_bytes (pre16 ++ pl ++ rest)).map GetNext.strip
      = (GetNext.from_bytes (pre16 ++ pl2 ++ rest)).map GetNext.strip := by
  rw [getnext_from_bytes_strip, getnext_from_bytes_strip,
    pdu_from_bytes_replace get_alike_decode_payload h16 h4 h42]

theorem getbulk_from_bytes_strip (b : Bytes) :
    (GetBulk.from_bytes b).map GetBulk.strip
      = Option.map (fun q => ⟨q.1, q.2.1, q.2.2.1, q.2.2.2.1, q.2.2.2.2⟩)
        ((Header.from_bytes b).bind (fun h =>
          (sliceFrom b h.byte_size).bind (fun bb =>
            (GetBulk.decode_payload h.flags bb).map (fun f => (h.zero_plen, f))))) := by
  unfold GetBulk.from_bytes
  rcases Header.from_bytes b with _ | h
  · rfl
  simp only [Option.bind_eq_bind, Option.some_bind]
  rcases sliceFrom b h.byte_size with _ | bb
  · rfl
  simp only [Option.some_bind]
  rcases GetBulk.decode_payload h.flags bb with _ | f
  · rfl
  rfl

/-- `GetBulk::from_bytes` never consults the decoded `payload_length`: the two
buffers differing only in those four bytes decode to results differing only
in that header field. -/
theorem getbulk_plen_irrelevant {pre16 pl pl2 rest : Bytes}
    (h16 : pre16.length = 16) (h4 : pl.length = 4) (h42 : pl2.length = 4) :
    (GetBulk.from_bytes (pre16 ++ pl ++ rest)).map GetBulk.strip
      = (GetBulk.from_bytes (pre16 ++ pl2 ++ rest)).map GetBulk.strip := by
  rw [getbulk_from_bytes_strip, getbulk_from_bytes_strip,
    pdu_from_bytes_replace GetBulk.decode_payload h16 h4 h42]

theorem testset_from_bytes_strip (b : Bytes) :
    (TestSet.from_bytes b).map TestSet.strip
      = Option.map (fun q => ⟨q.1, q.2.1, q.2.2⟩)
        ((Header.from_bytes b).bind (fun h =>
          (sliceFrom b h.byte_size).bind (fun bb =>
            (testset_alike_decode_payload h.flags bb).map (fun f => (h.zero_plen, f))))) := by
  unfold TestSet.from_bytes
  rcases Header.from_bytes b with _ | h
  · rfl
  simp only [Option.bind_eq_bind, Option.some_bind]
  rcases sliceFrom b h.byte_size with _ | bb
  · rfl
  simp only [Option.some_bind]
  rcases testset_alike_decode_payload h.flags bb with _ | f
  · rfl
  rfl

/-- `TestSet::from_bytes` never consults the decoded `payload_length`: the two
buffers differing only in those four bytes decode to results differing only
in that header field. -/
theorem testset_plen_irrelevant {pre16 pl pl2 rest : Bytes}
    (h16 : pre16.length = 16) (h4 : pl.length = 4) (h42 : pl2.length = 4) :
    (TestSet.from_bytes (pre16 ++ pl ++ rest)).map TestSet.strip
      = (TestSet.from_bytes (pre16 ++ pl2 ++ rest)).map TestSet.strip := by
  rw [testset_from_bytes_strip, testset_from_bytes_strip,
    pdu_from_bytes_replace testset_alike_decode_payload h16 h4 h42]

theorem notify_from_bytes_strip (b : Bytes) :
    (Notify.from_bytes b).map Notify.strip
      = Option.map (fun q => ⟨q.1, q.2.1, q.2.2⟩)
        ((Header.from_bytes b).bind (fun h =>
          (sliceFrom b h.byte_size).bind (fun bb =>
            (testset_alike_decode_payload h.flags bb).map (fun f => (h.zero_plen, f))))) := by
  unfold Notify.from_bytes
  rcases Header.from_bytes b with _ | h
  · rfl
  simp only [Option.bind_eq_bind, Option.some_bind]
  rcases sliceFrom b h.byte_size with _ | bb
  · rfl
  simp only [Option.some_bind]
  rcases testset_alike_decode_payload h.flags bb with _ | f
  · rfl
  rfl

/-- `Notify::from_bytes` never consults the decoded `payload_length`: the two
buffers differing only in those four bytes decode to results differing only
in that header field. -/
theorem notify_plen_irrelevant {pre16 pl pl2 rest : Bytes}
    (h16 : pre16.length = 16) (h4 : pl.length = 4) (h42 : pl2.length = 4) :
    (Notify.from_bytes (pre16 ++ pl ++ rest)).map Notify.strip
      = (Notify.from_bytes (pre16 ++ pl2 ++ rest)).map Notify.strip := by
  rw [notify_from_bytes_strip, notify_from_bytes_strip,
    pdu_from_bytes_replace testset_alike_decode_payload h16 h4 h42]

theorem ialloc_from_bytes_strip (b : Bytes) :
    (IndexAllocate.from_bytes b).map IndexAllocate.strip
      = Option.map (fun q => ⟨q.1, q.2.1, q.2.2⟩)
        ((Header.from_bytes b).bind (fun h =>
          (sliceFrom b h.byte_size).bind (fun bb =>
            (testset_alike_decode_payload h.flags bb).map (fun f => (h.zero_plen, f))))) := by
  unfold IndexAllocate.from_bytes
  rcases Header.from_bytes b with _ | h
  · rfl
  simp only [Option.bind_eq_bind, Option.some_bind]
  rcases sliceFrom b h.byte_size with _ | bb
  · rfl
  simp only [Option.some_bind]
  rcases testset_alike_decode_payload h.flags bb with _ | f
  · rfl
  rfl

/-- `IndexAllocate::from_bytes` never consults the decoded `payload_length`: the two
buffers differing only in those four bytes decode to results differing only
in that header field. -/
theorem ialloc_plen_irrelevant {pre16 pl pl2 rest : Bytes}
    (h16 : pre16.length = 16) (h4 : pl.length = 4) (h42 : pl2.length = 4) :
    (IndexAllocate.from_bytes (pre16 ++ pl ++ rest)).map IndexAllocate.strip
      = (IndexAllocate.from_bytes (pre16 ++ pl2 ++ rest)).map IndexAllocate.strip := by
  rw [ialloc_from_bytes_strip, ialloc_from_bytes_strip,
    pdu_from_bytes_replace testset_alike_decode_payload h16 h4 h42]

theorem idealloc_from_bytes_strip (b : Bytes) :
    (IndexDeallocate.from_bytes b).map IndexDeallocate.strip
      = Option.map (fun q => ⟨q.1, q.2.1, q.2.2⟩)
        ((Header.from_bytes b).bind (fun h =>
          (sliceFrom b h.byte_size).bind (fun bb =>
            (testset_alike_decode_payload h.flags bb).map (fun f => (h.zero_plen, f))))) := by
  unfold IndexDeallocate.from_bytes
  rcases Header.from_bytes b with _ | h
  · rfl
  simp only [Option.bind_eq_bind, Option.some_bind]
  rcases sliceFrom b h.byte_size with _ | bb
  · rfl
  simp only [Option.some_bind]
  rcases testset_alike_decode_payload h.flags bb with _ | f
  · rfl
  rfl

/-- `IndexDeallocate::from_bytes` never consults the decoded `payload_length`: the two
buffers differing only in those four bytes decode to results differing only
in that header field. -/
theorem idealloc_plen_irrelevant {pre16 pl pl2 rest : Bytes}
    (h16 : pre16.length = 16) (h4 : pl.length = 4) (h42 : pl2.length = 4) :
    (IndexDeallocate.from_bytes (pre16 ++ pl ++ rest)).map IndexDeallocate.strip
      = (IndexDeallocate.from_bytes (pre16 ++ pl2 ++ rest)).map IndexDeallocate.strip := by
  rw [idealloc_from_bytes_strip, idealloc_from_bytes_strip,
    pdu_from_bytes_replace testset_alike_decode_payload h16 h4 h42]

theorem ping_from_bytes_strip (b : Bytes) :
    (Ping.from_bytes b).map Ping.strip
      = Option.map (fun q => ⟨q.1, q.2⟩)
        ((Header.from_bytes b).bind (fun h =>
          (sliceFrom b h.byte_size).bind (fun bb =>
            (Ping.decode_payload h.flags bb).map (fun f => (h.zero_plen, f))))) := by
  unfold Ping.from_bytes
  rcases Header.from_bytes b with _ | h
  · rfl
  simp only [Option.bind_eq_bind, Option.some_bind]
  rcases sliceFrom b h.byte_size with _ | bb
  · rfl
  simp only [Option.some_bind]
  rcases Ping.decode_payload h.flags bb with _ | f
  · rfl
  rfl

/-- `Ping::from_bytes` never consults the decoded `payload_length`: the two
buffers differing only in those four bytes decode to results differing only
in that header field. -/
theorem ping_plen_irrelevant {pre16 pl pl2 rest : Bytes}
    (h16 : pre16.length = 16) (h4 : pl.length = 4) (h42 : pl2.length = 4) :
    (Ping.from_bytes (pre16 ++ pl ++ rest)).map Ping.strip
      = (Ping.from_bytes (pre16 ++ pl2 ++ rest)).map Ping.strip := by
  rw [ping_from_bytes_strip, ping_from_bytes_strip,
    pdu_from_bytes_replace Ping.decode_payload h16 h4 h42]

theorem addcaps_from_bytes_strip (b : Bytes) :
    (AddAgentCaps.from_bytes b).map AddAgentCaps.strip
      = Option.map (fun q => ⟨q.1, q.2.1, q.2.2.1, q.2.2.2⟩)
        ((Header.from_bytes b).bind (fun h =>
          (sliceFrom b h.byte_size).bind (fun bb =>
            (AddAgentCaps.decode_payload h.flags bb).map (fun f => (h.zero_plen, f))))) := by
  unfold AddAgentCaps.from_bytes
  rcases Header.from_bytes b with _ | h
  · rfl
  simp only [Option.bind_eq_bind, Option.some_bind]
  rcases sliceFrom b h.byte_size with _ | bb
  · rfl
  simp only [Option.some_bind]
  rcases AddAgentCaps.decode_payload h.flags bb with _ | f
  · rfl
  rfl

/-- `AddAgentCaps::from_bytes` never consults the decoded `payload_length`: the two
buffers differing only in those four bytes decode to results differing only
in that header field. -/
theorem addcaps_plen_irrelevant {pre16 pl pl2 rest : Bytes}
    (h16 : pre16.length = 16) (h4 : pl.length = 4) (h42 : pl2.length = 4) :
    (AddAgentCaps.from_bytes (pre16 ++ pl ++ rest)).map AddAgentCaps.strip
      = (AddAgentCaps.from_bytes (pre16 ++ pl2 ++ rest)).map AddAgentCaps.strip := by
  rw [addcaps_from_bytes_strip, addcaps_from_bytes_strip,
    pdu_from_bytes_replace AddAgentCaps.decode_payload h16 h4 h42]

theorem rmcaps_from_bytes_strip (b : Bytes) :
    (RemoveAgentCaps.from_bytes b).map RemoveAgentCaps.strip
      = Option.map (fun q => ⟨q.1, q.2.1, q.2.2⟩)
        ((Header.from_bytes b).bind (fun h =>
          (sliceFrom b h.byte_size).bind (fun bb =>
            (RemoveAgentCaps.decode_payload h.flags bb).map (fun f => (h.zero_plen, f))))) := by
  unfold RemoveAgentCaps.from_bytes
  rcases Header.from_bytes b with _ | h
  · rfl
  simp only [Option.bind_eq_bind, Option.some_bind]
  rcases sliceFrom b h.byte_size with _ | bb
  · rfl
  simp only [Option.some_bind]
  rcases RemoveAgentCaps.decode_payload h.flags bb with _ | f
  · rfl
  rfl

/-- `RemoveAgentCaps::from_bytes` never consults the decoded `payload_length`: the two
buffers differing only in those four bytes decode to results differing only
in that header field. -/
theorem rmcaps_plen_irrelevant {pre16 pl pl2 rest : Bytes}
    (h16 : pre16.length = 16) (h4 : pl.length = 4) (h42 : pl2.length = 4) :
    (RemoveAgentCaps.from_bytes (pre16 ++ pl ++ rest)).map RemoveAgentCaps.strip
      = (RemoveAgentCaps.from_bytes (pre16 ++ pl2 ++ rest)).map RemoveAgentCaps.strip := by
  rw [rmcaps_from_bytes_strip, rmcaps_from_bytes_strip,
    pdu_from_bytes_replace RemoveAgentCaps.decode_payload h16 h4 h42]

theorem response_from_bytes_strip (b : Bytes) :
    (Response.from_bytes b).map Response.strip
      = Option.map (fun q => ⟨q.1, q.2.1, q.2.2.1, q.2.2.2.1, q.2.2.2.2⟩)
        ((Header.from_bytes b).bind (fun h =>
          (sliceFrom b h.byte_size).bind (fun bb =>
            (Response.decode_payload h.flags bb).map (fun f => (h.zero_plen, f))))) := by
  unfold Response.from_bytes
  rcases Header.from_bytes b with _ | h
  · rfl
  simp only [Option.bind_eq_bind, Option.some_bind]
  rcases sliceFrom b h.byte_size with _ | bb
  · rfl
  simp only [Option.some_bind]
  rcases Response.decode_payload h.flags bb with _ | f
  · rfl
  rfl

/-- `Response::from_bytes` never consults the decoded `payload_length`: the two
buffers differing only in those four bytes decode to results differing only
in that header field. -/
theorem response_plen_irrelevant {pre16 pl pl2 rest : Bytes}
    (h16 : pre16.length = 16) (h4 : pl.length = 4) (h42 : pl2.length = 4) :
    (Response.from_bytes (pre16 ++ pl ++ rest)).map Response.strip
      = (Response.from_bytes (pre16 ++ pl2 ++ rest)).map Response.strip := by
  rw [response_from_bytes_strip, response_from_bytes_strip,
    pdu_from_bytes_replace Response.decode_payload h16 h4 h42]

/-- `CommitSet::from_bytes` never consults the decoded `payload_length`. -/
theorem commitset_plen_irrelevant {pre16 pl pl2 rest : Bytes}
    (h16 : pre16.length = 16) (h4 : pl.length = 4) (h42 : pl2.length = 4) :
    (CommitSet.from_bytes (pre16 ++ pl ++ rest)).map CommitSet.strip
      = (CommitSet.from_bytes (pre16 ++ pl2 ++ rest)).map CommitSet.strip := by
  unfold CommitSet.from_bytes
  have hrep := @Header.from_bytes_replace pre16 pl pl2 rest h16 h4 h42
  simp only [Option.map_map]
  rw [show (CommitSet.strip ∘ CommitSet.mk) = (CommitSet.mk ∘ Header.zero_plen)
      from rfl]
  rw [← Option.map_map, ← Option.map_map, hrep]

/-- `UndoSet::from_bytes` never consults the decoded `payload_length`. -/
theorem undoset_plen_irrelevant {pre16 pl pl2 rest : Bytes}
    (h16 : pre16.length = 16) (h4 : pl.length = 4) (h42 : pl2.length = 4) :
    (UndoSet.from_bytes (pre16 ++ pl ++ rest)).map UndoSet.strip
      = (UndoSet.from_bytes (pre16 ++ pl2 ++ rest)).map UndoSet.strip := by
  unfold UndoSet.from_bytes
  have hrep := @Header.from_bytes_replace pre16 pl pl2 rest h16 h4 h42
  simp only [Option.map_map]
  rw [show (UndoSet.strip ∘ UndoSet.mk) = (UndoSet.mk ∘ Header.zero_plen)
      from rfl]
  rw [← Option.map_map, ← Option.map_map, hrep]

/-- `CleanupSet::from_bytes` never consults the decoded `payload_length`. -/
theorem cleanupset_plen_irrelevant {pre16 pl pl2 rest : Bytes}
    (h16 : pre16.length = 16) (h4 : pl.length = 4) (h42 : pl2.length = 4) :
    (CleanupSet.from_bytes (pre16 ++ pl ++ rest)).map CleanupSet.strip
      = (CleanupSet.from_bytes (pre16 ++ pl2 ++ rest)).map CleanupSet.strip := by
  unfold CleanupSet.from_bytes
  have hrep := @Header.from_bytes_replace pre16 pl pl2 rest h16 h4 h42
  simp only [Option.map_map]
  rw [show (CleanupSet.strip ∘ CleanupSet.mk) = (CleanupSet.mk ∘ Header.zero_plen)
      from rfl]
  rw [← Option.map_map, ← Option.map_map, hrep]

/-! ### Further support lemmas for the claims -/

theorem header_from_bytes_short {b : Bytes} (h : b.length < HEADER_SIZE) :
    Header.from_bytes b = none := by
  unfold Header.from_bytes
  rw [if_pos h]

/-- Encoded size agrees with `byte_size` for an ID whose stored count matches
its list (the invariant every constructed — but not every decoded — ID
satisfies). -/
theorem id_to_bytes_size {id : ID} {bo : ByteOrder} {out : Bytes}
    (hwf : id.orig_n_subid = id.sub_ids.length)
    (h : id.to_bytes bo = some out) : out.length = id.byte_size := by
  rw [id_to_bytes_length h, ID.byte_size, hwf]

theorem sr_to_bytes_size {sr : SearchRange} {bo : ByteOrder}
    {out : Bytes} (h1 : sr.start.orig_n_subid = sr.start.sub_ids.length)
    (h2 : sr.end_.orig_n_subid = sr.end_.sub_ids.length)
    (h : sr.to_bytes bo = some out) : out.length = sr.byte_size := by
  obtain ⟨s, e, hs, he, rfl⟩ := sr_to_bytes_parts h
  simp only [List.length_append, SearchRange.byte_size]
  rw [id_to_bytes_size h1 hs, id_to_bytes_size h2 he]

theorem ctx_to_bytes_size {c : Context} {bo : ByteOrder} {out : Bytes}
    (h : c.to_bytes bo = some out) : out.length = c.byte_size := by
  exact os_to_bytes_length h

theorem Value.tag_and_bytes_size {v : Value} {bo : ByteOrder} {ty : Nat}
    {db : Bytes} (hwf : v.wf) (h : v.tag_and_bytes bo = some (ty, db)) :
    4 + db.length = v.byte_size := by
  cases v with
  | Integer i =>
    simp only [Value.tag_and_bytes, Option.some.injEq, Prod.mk.injEq] at h
    obtain ⟨rfl, rfl⟩ := h
    simp [Value.byte_size, i32_to_bytes, u32_to_bytes_length]
  | OctetString os =>
    simp only [Value.tag_and_bytes, Option.map_eq_some', Prod.mk.injEq] at h
    obtain ⟨o, ho, rfl, rfl⟩ := h
    simp [Value.byte_size, os_to_bytes_length ho]
  | Null =>
    simp only [Value.tag_and_bytes, Option.some.injEq, Prod.mk.injEq] at h
    obtain ⟨rfl, rfl⟩ := h
    simp [Value.byte_size]
  | ObjectIdentifier id =>
    simp only [Value.tag_and_bytes, Option.map_eq_some', Prod.mk.injEq] at h
    obtain ⟨o, ho, rfl, rfl⟩ := h
    simp [Value.byte_size, id_to_bytes_size hwf.1 ho]
  | IpAddress os =>
    simp only [Value.tag_and_bytes, Option.map_eq_some', Prod.mk.injEq] at h
    obtain ⟨o, ho, rfl, rfl⟩ := h
    simp [Value.byte_size, os_to_bytes_length ho]
  | Counter32 c =>
    simp only [Value.tag_and_bytes, Option.some.injEq, Prod.mk.injEq] at h
    obtain ⟨rfl, rfl⟩ := h
    simp [Value.byte_size, u32_to_bytes_length]
  | Gauge32 g =>
    simp only [Value.tag_and_bytes, Option.some.injEq, Prod.mk.injEq] at h
    obtain ⟨rfl, rfl⟩ := h
    simp [Value.byte_size, u32_to_bytes_length]
  | TimeTicks t =>
    simp only [Value.tag_and_bytes, Option.some.injEq, Prod.mk.injEq] at h
    obtain ⟨rfl, rfl⟩ := h
    simp [Value.byte_size, i32_to_bytes, u32_to_bytes_length]
  | Opaque os =>
    simp only [Value.tag_and_bytes, Option.map_eq_some', Prod.mk.injEq] at h
    obtain ⟨o, ho, rfl, rfl⟩ := h
    simp [Value.byte_size, os_to_bytes_length ho]
  | Counter64 c =>
    simp only [Value.tag_and_bytes, Option.some.injEq, Prod.mk.injEq] at h
    obtain ⟨rfl, rfl⟩ := h
    simp [Value.byte_size, u64_to_bytes_length]
  | NoSuchObject =>
    simp only [Value.tag_and_bytes, Option.some.injEq, Prod.mk.injEq] at h
    obtain ⟨rfl, rfl⟩ := h
    simp [Value.byte_size]
  | NoSuchInstance =>
    simp only [Value.tag_and_bytes, Option.some.injEq, Prod.mk.injEq] at h
    obtain ⟨rfl, rfl⟩ := h
    simp [Value.byte_size]
  | EndOfMibView =>
    simp only [Value.tag_and_bytes, Option.some.injEq, Prod.mk.injEq] at h
    obtain ⟨rfl, rfl⟩ := h
    simp [Value.byte_size]

theorem vbind_to_bytes_size {vb : VarBind} {bo : ByteOrder} {out : Bytes}
    (hwf : vb.wf) (h : vb.to_bytes bo = some out) :
    out.length = vb.byte_size := by
  obtain ⟨ty, db, nb, htd, hnb, rfl⟩ := vbind_to_bytes_parts h
  have h1 : nb.length = vb.name.byte_size := id_to_bytes_size hwf.1.1 hnb
  have h2 : 4 + db.length = vb.data.byte_size :=
    Value.tag_and_bytes_size hwf.2 htd
  simp only [List.length_append, List.length_cons, List.length_nil,
    u16_to_bytes_length, VarBind.byte_size]
  omega

theorem subid_bytes_replicate_zero (n : Nat) (bo : ByteOrder) :
    subid_bytes (List.replicate n 0) bo = List.replicate (4 * n) 0 := by
  induction n with
  | zero => rfl
  | succ m ih =>
    show subid_bytes (0 :: List.replicate m 0) bo = _
    unfold subid_bytes
    simp only [List.map_cons, List.flatten_cons]
    rw [show (List.map (fun s => u32_to_bytes s bo)
          (List.replicate m 0)).flatten
        = subid_bytes (List.replicate m 0) bo from rfl, ih]
    cases bo <;>
      simp [u32_to_bytes, List.replicate_succ, List.replicate_add] <;>
      rfl

/-- A `Response` serialized with `vb = None` decodes with `vb =
Some(empty list)`, not `None`: the two trailing `res_index` bytes leave an
empty-but-present tail after `b.get(2..)`. -/
theorem Response.roundtrip_vb_none {p p' : Response} {out : Bytes}
    (hhwf : p.header.wf) (hg1 : p.sys_uptime.nanos % 10000000 = 0)
    (hg2 : p.sys_uptime.nanos < 1000000000)
    (hg3 : p.sys_uptime.as_millis < 2 ^ 32) (hix : p.res_index < 2 ^ 16)
    (hvb : p.vb = none) (henc : p.to_bytes = some (p', out)) :
    Response.from_bytes out = some { p' with vb := some ⟨[]⟩ } := by
  unfold Response.to_bytes at henc
  dsimp only [] at henc
  split at henc
  case isFalse hbad => exact absurd hg3 (by omega)
  case isTrue hup =>
    rw [hvb] at henc
    rw [show vbl_opt_to_bytes none p.header.byte_order = some [] from rfl]
      at henc
    simp only [Option.bind_eq_bind, Option.some_bind, Option.bind_eq_some,
      Option.some.injEq, Prod.mk.injEq] at henc
    obtain ⟨h2, hsp, rfl, rfl⟩ := henc
    obtain ⟨hlt, rfl⟩ := Header.set_payload_len_lt hsp
    unfold Response.from_bytes
    have hhwf2 : ({ p.header with payload_length :=
        (u32_to_bytes (p.sys_uptime.as_millis / 10) p.header.byte_order ++
          p.res_error.to_bytes p.header.byte_order ++
          u16_to_bytes p.res_index p.header.byte_order ++ ([] : Bytes)).length }
        : Header).wf := ⟨hhwf.1, hhwf.2.1, hhwf.2.2.1, hlt⟩
    rw [header_parse_append hhwf2]
    simp only [Option.bind_eq_bind, Option.some_bind]
    rw [pdu_header_slice]
    simp only [Option.bind_eq_bind, Option.some_bind]
    unfold Response.decode_payload
    dsimp only []
    rw [show header_byte_order p.header.flags = p.header.byte_order from rfl]
    rw [show (u32_to_bytes (p.sys_uptime.as_millis / 10) p.header.byte_order ++
          p.res_error.to_bytes p.header.byte_order ++
          u16_to_bytes p.res_index p.header.byte_order ++ ([] : Bytes))
        = u32_to_bytes (p.sys_uptime.as_millis / 10) p.header.byte_order ++
          (p.res_error.to_bytes p.header.byte_order ++
            (u16_to_bytes p.res_index p.header.byte_order ++ ([] : Bytes)))
        by simp]
    rw [bytes_to_u32_append, Nat.mod_eq_of_lt hup]
    simp only [Option.bind_eq_bind, Option.some_bind]
    rw [sliceFrom_append_of_eq (u32_to_bytes_length _ _).symm]
    simp only [Option.bind_eq_bind, Option.some_bind]
    rw [ResError.from_bytes_append]
    simp only [Option.bind_eq_bind, Option.some_bind]
    rw [show sliceFrom (p.res_error.to_bytes p.header.byte_order ++
          (u16_to_bytes p.res_index p.header.byte_order ++ ([] : Bytes)))
          (ResError.byte_size p.res_error) = some
          (u16_to_bytes p.res_index p.header.byte_order ++ ([] : Bytes)) from
      sliceFrom_append_of_eq (by
        unfold ResError.to_bytes ResError.byte_size
        rw [u16_to_bytes_length])]
    simp only [Option.bind_eq_bind, Option.some_bind]
    rw [bytes_to_u16_append, Nat.mod_eq_of_lt hix]
    simp only [Option.bind_eq_bind, Option.some_bind]
    rw [vb_tail_append]
    rw [vbl_from_bytes_nil]
    simp only [Option.map_some', Option.bind_eq_bind, Option.some_bind]
    rw [uptime_roundtrip hg1 hg2 hg3]

/-! ### Decode dispatch characterization (C7) -/

/-- `VarBind::from_bytes` rejects every tag outside the 13 known codes. -/
theorem Value.from_tag_unknown {ty : Nat}
    (h : ¬(ty = 2 ∨ ty = 4 ∨ ty = 5 ∨ ty = 6 ∨ ty = 64 ∨ ty = 65 ∨ ty = 66 ∨
      ty = 67 ∨ ty = 68 ∨ ty = 70 ∨ ty = 128 ∨ ty = 129 ∨ ty = 130))
    (b : Bytes) (bo : ByteOrder) : Value.from_tag ty b bo = none := by
  unfold Value.from_tag
  push_neg at h
  obtain ⟨n2, n4, n5, n6, n64, n65, n66, n67, n68, n70, n128, n129, n130⟩ := h
  rw [if_neg n2, if_neg n4, if_neg n5, if_neg n6, if_neg n64, if_neg n65,
    if_neg n66, if_neg n67, if_neg n68, if_neg n70, if_neg n128, if_neg n129,
    if_neg n130]

/-- A successful tag dispatch pins the tag to one of the 13 known codes. -/
theorem Value.from_tag_known {ty : Nat} {b : Bytes} {bo : ByteOrder} {v : Value}
    (h : Value.from_tag ty b bo = some v) :
    ty = 2 ∨ ty = 4 ∨ ty = 5 ∨ ty = 6 ∨ ty = 64 ∨ ty = 65 ∨ ty = 66 ∨
      ty = 67 ∨ ty = 68 ∨ ty = 70 ∨ ty = 128 ∨ ty = 129 ∨ ty = 130 := by
  by_contra hn
  rw [Value.from_tag_unknown hn b bo] at h
  cases h

/-- `Type::from_byte` succeeds exactly on 1..18. -/
theorem ptype_from_byte_isSome (b : Nat) :
    (PType.from_byte b).isSome = true ↔ (1 ≤ b ∧ b ≤ 18) := by
  constructor
  · intro h
    by_contra hn
    have hnone : PType.from_byte b = none := by
      unfold PType.from_byte
      repeat rw [if_neg (by omega)]
    rw [hnone] at h
    simp at h
  · rintro ⟨h1, h2⟩
    interval_cases b <;> rfl

/-- `CloseReason::from_byte` succeeds exactly on 1..6. -/
theorem creason_from_byte_isSome (b : Nat) :
    (CloseReason.from_byte b).isSome = true ↔ (1 ≤ b ∧ b ≤ 6) := by
  constructor
  · intro h
    by_contra hn
    have hnone : CloseReason.from_byte b = none := by
      unfold CloseReason.from_byte
      repeat rw [if_neg (by omega)]
    rw [hnone] at h
    simp at h
  · rintro ⟨h1, h2⟩
    interval_cases b <;> rfl

/-- The Response error-code dispatch succeeds exactly on 0 and 256..268. -/
theorem ResError.from_code_isSome (v : Nat) :
    (ResError.from_code v).isSome = true ↔ (v = 0 ∨ (256 ≤ v ∧ v ≤ 268)) := by
  constructor
  · intro h
    by_contra hn
    have hnone : ResError.from_code v = none := by
      unfold ResError.from_code
      repeat rw [if_neg (by omega)]
    rw [hnone] at h
    simp at h
  · intro hv
    rcases hv with rfl | ⟨h1, h2⟩
    · rfl
    · interval_cases v <;> rfl

/-! ### The claims -/

/-- C1: a buffer of a well-formed Response header with `payload_length = 8`
followed by exactly the 8 mandatory payload bytes and no trailing VarBindList
bytes decodes successfully — but the resulting `vb` is a *present empty
list* (`Some(empty)`), not absent (`None`): `b.get(2..)` after the two
`res_index` bytes yields an empty (not missing) tail. -/
theorem spec_C1 {h : Header} (hwf : h.wf) (hty : h.ty = PType.Response)
    (hpl : h.payload_length = 8) (up ix : Nat) (e : ResError)
    (hup : up < 2 ^ 32) (hix : ix < 2 ^ 16) :
    Response.from_bytes (h.to_bytes ++ u32_to_bytes up h.byte_order ++
        ResError.to_bytes e h.byte_order ++ u16_to_bytes ix h.byte_order)
      = some ⟨h, Duration.from_millis (up * 10 % 2 ^ 32), e, ix,
          some ⟨[]⟩⟩ := by
  unfold Response.from_bytes
  simp only [List.append_assoc]
  rw [header_parse_append hwf]
  simp only [Option.bind_eq_bind, Option.some_bind]
  rw [pdu_header_slice]
  simp only [Option.bind_eq_bind, Option.some_bind]
  unfold Response.decode_payload
  dsimp only []
  rw [show header_byte_order h.flags = h.byte_order from rfl]
  rw [bytes_to_u32_append, Nat.mod_eq_of_lt hup]
  simp only [Option.bind_eq_bind, Option.some_bind]
  rw [sliceFrom_append_of_eq (u32_to_bytes_length _ _).symm]
  simp only [Option.bind_eq_bind, Option.some_bind]
  rw [ResError.from_bytes_append]
  simp only [Option.bind_eq_bind, Option.some_bind]
  rw [show sliceFrom (ResError.to_bytes e h.byte_order ++
        u16_to_bytes ix h.byte_order) (ResError.byte_size e)
      = some (u16_to_bytes ix h.byte_order) from
    sliceFrom_append_of_eq (by
      unfold ResError.to_bytes ResError.byte_size
      rw [u16_to_bytes_length])]
  simp only [Option.bind_eq_bind, Option.some_bind]
  rw [show u16_to_bytes ix h.byte_order
      = u16_to_bytes ix h.byte_order ++ [] by simp]
  rw [bytes_to_u16_append, Nat.mod_eq_of_lt hix]
  simp only [Option.bind_eq_bind, Option.some_bind]
  rw [vb_tail_append]
  rw [vbl_from_bytes_nil]
  rfl

/-- Witness for C1 at a concrete header and payload. -/
theorem spec_C1_witness :
    Response.from_bytes
        (Header.to_bytes ⟨1, PType.Response, 0, 0, 0, 0, 8⟩ ++
          u32_to_bytes 0 ByteOrder.LittleEndian ++
          ResError.to_bytes ResError.NoAgentXError ByteOrder.LittleEndian ++
          u16_to_bytes 0 ByteOrder.LittleEndian)
      = some ⟨⟨1, PType.Response, 0, 0, 0, 0, 8⟩, Duration.from_millis 0,
          ResError.NoAgentXError, 0, some ⟨[]⟩⟩ :=
  @spec_C1 ⟨1, PType.Response, 0, 0, 0, 0, 8⟩ (by decide) rfl rfl 0 0
    ResError.NoAgentXError (by decide) (by decide)

/-- Concrete evaluation of `Response::from_bytes` on `c1buf` (the
VarBindList decoder is well-founded-recursive, so this is established by
rewriting rather than kernel evaluation). -/
theorem c1buf_decodes :
    Response.from_bytes c1buf
      = some ⟨⟨1, PType.Response, 0, 0, 0, 0, 8⟩, ⟨0, 0⟩,
          ResError.NoAgentXError, 0, some ⟨[]⟩⟩ := by
  unfold Response.from_bytes
  rw [show Header.from_bytes c1buf = some ⟨1, PType.Response, 0, 0, 0, 0, 8⟩
      from by decide]
  simp only [Option.bind_eq_bind, Option.some_bind]
  rw [show sliceFrom c1buf
        (Header.byte_size ⟨1, PType.Response, 0, 0, 0, 0, 8⟩)
      = some [0, 0, 0, 0, 0, 0, 0, 0] from by decide]
  simp only [Option.bind_eq_bind, Option.some_bind]
  unfold Response.decode_payload
  dsimp only []
  rw [show bytes_to_u32 [0, 0, 0, 0, 0, 0, 0, 0] (header_byte_order 0)
      = some 0 from by decide]
  simp only [Option.bind_eq_bind, Option.some_bind]
  rw [show sliceFrom [0, 0, 0, 0, 0, 0, 0, 0] 4 = some [0, 0, 0, 0]
      from by decide]
  simp only [Option.bind_eq_bind, Option.some_bind]
  rw [show ResError.from_bytes [0, 0, 0, 0] (header_byte_order 0)
      = some ResError.NoAgentXError from by decide]
  simp only [Option.bind_eq_bind, Option.some_bind]
  rw [show sliceFrom [0, 0, 0, 0]
        (ResError.byte_size ResError.NoAgentXError) = some [0, 0]
      from by decide]
  simp only [Option.bind_eq_bind, Option.some_bind]
  rw [show bytes_to_u16 [0, 0] (header_byte_order 0) = some 0 from by decide]
  simp only [Option.bind_eq_bind, Option.some_bind]
  rw [show vb_tail [0, 0] (header_byte_order 0)
      = (VarBindList.from_bytes [] (header_byte_order 0)).map some from by
    unfold vb_tail
    rw [show sliceFrom [0, 0] 2 = some ([] : Bytes) from by decide]]
  rw [vbl_from_bytes_nil]
  rfl

/-- Counterexample to C1 as stated: the concrete no-trailing-bytes Response
buffer decodes with `vb` present (an empty list), not absent. -/
theorem spec_C1_counterexample :
    (Response.from_bytes c1buf).map Response.vb = some (some ⟨[]⟩) := by
  rw [c1buf_decodes]
  rfl

/-- C2: fifteen of the eighteen PDU serializers stamp the header they emit
with the byte length of the payload actually produced in that call; but
CommitSet, UndoSet and CleanupSet emit the *stored* header verbatim — their
`payload_length` field is trusted as input, not recomputed. -/
theorem spec_C2 :
    (∀ (p p' : Open) (out : Bytes), p.to_bytes = some (p', out) →
      ∃ payload, out = p'.header.to_bytes ++ payload ∧
        p'.header.payload_length = payload.length) ∧
    (∀ (p p' : Close) (out : Bytes), p.to_bytes = some (p', out) →
      ∃ payload, out = p'.header.to_bytes ++ payload ∧
        p'.header.payload_length = payload.length) ∧
    (∀ (p p' : Register) (out : Bytes), p.to_bytes = some (p', out) →
      ∃ payload, out = p'.header.to_bytes ++ payload ∧
        p'.header.payload_length = payload.length) ∧
    (∀ (p p' : Unregister) (out : Bytes), p.to_bytes = some (p', out) →
      ∃ payload, out = p'.header.to_bytes ++ payload ∧
        p'.header.payload_length = payload.length) ∧
    (∀ (p p' : Get) (out : Bytes), p.to_bytes = some (p', out) →
      ∃ payload, out = p'.header.to_bytes ++ payload ∧
        p'.header.payload_length = payload.length) ∧
    (∀ (p p' : GetNext) (out : Bytes), p.to_bytes = some (p', out) →
      ∃ payload, out = p'.header.to_bytes ++ payload ∧
        p'.header.payload_length = payload.length) ∧
    (∀ (p p' : GetBulk) (out : Bytes), p.to_bytes = some (p', out) →
      ∃ payload, out = p'.header.to_bytes ++ payload ∧
        p'.header.payload_length = payload.length) ∧
    (∀ (p p' : TestSet) (out : Bytes), p.to_bytes = some (p', out) →
      ∃ payload, out = p'.header.to_bytes ++ payload ∧
        p'.header.payload_length = payload.length) ∧
    (∀ (p p' : Notify) (out : Bytes), p.to_bytes = some (p', out) →
      ∃ payload, out = p'.header.to_bytes ++ payload ∧
        p'.header.payload_length = payload.length) ∧
    (∀ (p p' : IndexAllocate) (out : Bytes), p.to_bytes = some (p', out) →
      ∃ payload, out = p'.header.to_bytes ++ payload ∧
        p'.header.payload_length = payload.length) ∧
    (∀ (p p' : IndexDeallocate) (out : Bytes), p.to_bytes = some (p', out) →
      ∃ payload, out = p'.header.to_bytes ++ payload ∧
        p'.header.payload_length = payload.length) ∧
    (∀ (p p' : Ping) (out : Bytes), p.to_bytes = some (p', out) →
      ∃ payload, out = p'.header.to_bytes ++ payload ∧
        p'.header.payload_length = payload.length) ∧
    (∀ (p p' : AddAgentCaps) (out : Bytes), p.to_bytes = some (p', out) →
      ∃ payload, out = p'.header.to_bytes ++ payload ∧
        p'.header.payload_length = payload.length) ∧
    (∀ (p p' : RemoveAgentCaps) (out : Bytes), p.to_bytes = some (p', out) →
      ∃ payload, out = p'.header.to_bytes ++ payload ∧
        p'.header.payload_length = payload.length) ∧
    (∀ (p p' : Response) (out : Bytes), p.to_bytes = some (p', out) →
      ∃ payload, out = p'.header.to_bytes ++ payload ∧
        p'.header.payload_length = payload.length) ∧
    (∀ p : CommitSet, p.to_bytes = some (p, p.header.to_bytes)) ∧
    (∀ p : UndoSet, p.to_bytes = some (p, p.header.to_bytes)) ∧
    (∀ p : CleanupSet, p.to_bytes = some (p, p.header.to_bytes)) :=
  ⟨fun _ _ _ h => open_emits h,
   fun _ _ _ h => close_emits h,
   fun _ _ _ h => register_emits h,
   fun _ _ _ h => unregister_emits h,
   fun _ _ _ h => get_emits h,
   fun _ _ _ h => getnext_emits h,
   fun _ _ _ h => getbulk_emits h,
   fun _ _ _ h => testset_emits h,
   fun _ _ _ h => notify_emits h,
   fun _ _ _ h => ialloc_emits h,
   fun _ _ _ h => idealloc_emits h,
   fun _ _ _ h => ping_emits h,
   fun _ _ _ h => addcaps_emits h,
   fun _ _ _ h => rmcaps_emits h,
   fun _ _ _ h => response_emits h,
   fun _ => rfl, fun _ => rfl, fun _ => rfl⟩

/-- Witness for C2: the Close clause at a concrete Close PDU. -/
theorem spec_C2_witness :
    ∃ payload, closeDemoBytes = closeDemoStamped.header.to_bytes ++ payload ∧
      closeDemoStamped.header.payload_length = payload.length :=
  spec_C2.2.1 closeDemo closeDemoStamped closeDemoBytes (by decide)

/-- Counterexample to C2 as stated: a CommitSet with stored
`payload_length = 7` emits exactly its 20-byte header (an empty payload), the
unrecomputed 7 still in the length field. -/
theorem spec_C2_counterexample :
    c2pdu.to_bytes = some (c2pdu, c2pdu.header.to_bytes) ∧
    c2pdu.header.payload_length = 7 ∧
    c2pdu.header.to_bytes.length = HEADER_SIZE ∧
    Header.from_bytes c2pdu.header.to_bytes = some c2pdu.header := by
  exact ⟨rfl, rfl, by decide, by decide⟩

/-- C3: the encoded length equals the reported `byte_size` for OctetString
and Context unconditionally, and for ID, SearchRange, Value and VarBind
whenever each stored sub-id count equals its list length — the invariant
every constructed ID satisfies but compact-prefix-decoded IDs violate
(`byte_size` is computed from the *wire* count, which undercounts the five
prefix-expanded sub-ids). -/
theorem spec_C3 :
    (∀ (os : OctetString) (bo : ByteOrder) (out : Bytes),
      os.to_bytes bo = some out → out.length = os.byte_size) ∧
    (∀ (c : Context) (bo : ByteOrder) (out : Bytes),
      c.to_bytes bo = some out → out.length = c.byte_size) ∧
    (∀ (id : ID) (bo : ByteOrder) (out : Bytes),
      id.orig_n_subid = id.sub_ids.length →
      id.to_bytes bo = some out → out.length = id.byte_size) ∧
    (∀ (sr : SearchRange) (bo : ByteOrder) (out : Bytes),
      sr.start.orig_n_subid = sr.start.sub_ids.length →
      sr.end_.orig_n_subid = sr.end_.sub_ids.length →
      sr.to_bytes bo = some out → out.length = sr.byte_size) ∧
    (∀ (v : Value) (bo : ByteOrder) (ty : Nat) (db : Bytes), v.wf →
      v.tag_and_bytes bo = some (ty, db) → 4 + db.length = v.byte_size) ∧
    (∀ (vb : VarBind) (bo : ByteOrder) (out : Bytes), vb.wf →
      vb.to_bytes bo = some out → out.length = vb.byte_size) :=
  ⟨fun _ _ _ h => os_to_bytes_length h,
   fun _ _ _ h => ctx_to_bytes_size h,
   fun _ _ _ hn h => id_to_bytes_size hn h,
   fun _ _ _ h1 h2 h => sr_to_bytes_size h1 h2 h,
   fun _ _ _ _ hwf h => Value.tag_and_bytes_size hwf h,
   fun _ _ _ hwf h => vbind_to_bytes_size hwf h⟩

/-- Witness for C3: the ID clause at a concrete two-sub-id ID. -/
theorem spec_C3_witness :
    ([2, 0, 0, 0, 1, 0, 0, 0, 3, 0, 0, 0] : Bytes).length
      = ID.byte_size ⟨2, 0, [1, 3]⟩ :=
  spec_C3.2.2.1 ⟨2, 0, [1, 3]⟩ ByteOrder.LittleEndian
    [2, 0, 0, 0, 1, 0, 0, 0, 3, 0, 0, 0] rfl (by decide)

/-- Counterexample to C3 as stated: the ID decoded from the compact wire form
`c3buf` reports `byte_size = 8` (its wire footprint) yet re-encodes to 28
bytes. -/
theorem spec_C3_counterexample :
    ID.from_bytes c3buf ByteOrder.LittleEndian = some c3id ∧
    c3id.byte_size = 8 ∧
    (c3id.to_bytes ByteOrder.LittleEndian).map List.length = some 28 := by
  exact ⟨by decide, rfl, by decide⟩

/-- C4: decode-of-encode agrees with the encoded value under the source's
`==` for every PDU type (well-formed inputs, either byte order, context and
optional trailing fields included) — except that a Response serialized with
`vb = None` decodes with `vb = Some(empty list)`, which `==` distinguishes,
so the round-trip for that one shape is `Some(empty)`, not identity. -/
theorem spec_C4 :
    (∀ (p p' : Open) (out : Bytes), p.wf → p.to_bytes = some (p', out) →
      ∃ q, Open.from_bytes out = some q ∧ Open.beq q p' = true) ∧
    (∀ (p p' : Close) (out : Bytes), p.wf → p.to_bytes = some (p', out) →
      ∃ q, Close.from_bytes out = some q ∧ Close.beq q p' = true) ∧
    (∀ (p p' : Register) (out : Bytes), p.wf → p.to_bytes = some (p', out) →
      ∃ q, Register.from_bytes out = some q ∧ Register.beq q p' = true) ∧
    (∀ (p p' : Unregister) (out : Bytes), p.wf → p.to_bytes = some (p', out) →
      ∃ q, Unregister.from_bytes out = some q ∧ Unregister.beq q p' = true) ∧
    (∀ (p p' : Get) (out : Bytes), p.wf → p.to_bytes = some (p', out) →
      ∃ q, Get.from_bytes out = some q ∧ Get.beq q p' = true) ∧
    (∀ (p p' : GetNext) (out : Bytes), p.wf → p.to_bytes = some (p', out) →
      ∃ q, GetNext.from_bytes out = some q ∧ GetNext.beq q p' = true) ∧
    (∀ (p p' : GetBulk) (out : Bytes), p.wf → p.to_bytes = some (p', out) →
      ∃ q, GetBulk.from_bytes out = some q ∧ GetBulk.beq q p' = true) ∧
    (∀ (p p' : TestSet) (out : Bytes), p.wf → p.to_bytes = some (p', out) →
      ∃ q, TestSet.from_bytes out = some q ∧ TestSet.beq q p' = true) ∧
    (∀ (p p' : Notify) (out : Bytes), p.wf → p.to_bytes = some (p', out) →
      ∃ q, Notify.from_bytes out = some q ∧ Notify.beq q p' = true) ∧
    (∀ (p p' : IndexAllocate) (out : Bytes), p.wf →
      p.to_bytes = some (p', out) →
      ∃ q, IndexAllocate.from_bytes out = some q ∧
        IndexAllocate.beq q p' = true) ∧
    (∀ (p p' : IndexDeallocate) (out : Bytes), p.wf →
      p.to_bytes = some (p', out) →
      ∃ q, IndexDeallocate.from_bytes out = some q ∧
        IndexDeallocate.beq q p' = true) ∧
    (∀ (p p' : CommitSet) (out : Bytes), p.wf → p.to_bytes = some (p', out) →
      ∃ q, CommitSet.from_bytes out = some q ∧ CommitSet.beq q p' = true) ∧
    (∀ (p p' : UndoSet) (out : Bytes), p.wf → p.to_bytes = some (p', out) →
      ∃ q, UndoSet.from_bytes out = some q ∧ UndoSet.beq q p' = true) ∧
    (∀ (p p' : CleanupSet) (out : Bytes), p.wf → p.to_bytes = some (p', out) →
      ∃ q, CleanupSet.from_bytes out = some q ∧ CleanupSet.beq q p' = true) ∧
    (∀ (p p' : Ping) (out : Bytes), p.wf → p.to_bytes = some (p', out) →
      ∃ q, Ping.from_bytes out = some q ∧ Ping.beq q p' = true) ∧
    (∀ (p p' : AddAgentCaps) (out : Bytes), p.wf →
      p.to_bytes = some (p', out) →
      ∃ q, AddAgentCaps.from_bytes out = some q ∧
        AddAgentCaps.beq q p' = true) ∧
    (∀ (p p' : RemoveAgentCaps) (out : Bytes), p.wf →
      p.to_bytes = some (p', out) →
      ∃ q, RemoveAgentCaps.from_bytes out = some q ∧
        RemoveAgentCaps.beq q p' = true) ∧
    (∀ (p p' : Response) (out : Bytes), p.wf → p.to_bytes = some (p', out) →
      ∃ q, Response.from_bytes out = some q ∧ Response.beq q p' = true) ∧
    (∀ (p p' : Response) (out : Bytes), p.header.wf →
      p.sys_uptime.nanos % 10000000 = 0 → p.sys_uptime.nanos < 1000000000 →
      p.sys_uptime.as_millis < 2 ^ 32 → p.res_index < 2 ^ 16 → p.vb = none →
      p.to_bytes = some (p', out) →
      Response.from_bytes out = some { p' with vb := some ⟨[]⟩ }) :=
  ⟨fun _ p' _ hwf henc => ⟨_, open_roundtrip hwf henc, open_beq_decoded p'⟩,
   fun _ p' _ hwf henc => ⟨_, close_roundtrip hwf henc, close_beq_refl p'⟩,
   fun _ p' _ hwf henc =>
     ⟨_, register_roundtrip hwf henc, register_beq_decoded p'⟩,
   fun _ p' _ hwf henc =>
     ⟨_, unregister_roundtrip hwf henc, unregister_beq_decoded p'⟩,
   fun _ p' _ hwf henc => ⟨_, get_roundtrip hwf henc, get_beq_decoded p'⟩,
   fun _ p' _ hwf henc =>
     ⟨_, getnext_roundtrip hwf henc, getnext_beq_decoded p'⟩,
   fun _ p' _ hwf henc =>
     ⟨_, getbulk_roundtrip hwf henc, getbulk_beq_decoded p'⟩,
   fun _ p' _ hwf henc =>
     ⟨_, testset_roundtrip hwf henc, testset_beq_decoded p'⟩,
   fun _ p' _ hwf henc =>
     ⟨_, notify_roundtrip hwf henc, notify_beq_decoded p'⟩,
   fun _ p' _ hwf henc =>
     ⟨_, ialloc_roundtrip hwf henc, ialloc_beq_decoded p'⟩,
   fun _ p' _ hwf henc =>
     ⟨_, idealloc_roundtrip hwf henc, idealloc_beq_decoded p'⟩,
   fun _ p' _ hwf henc =>
     ⟨_, commitset_roundtrip hwf henc, commitset_beq_refl p'⟩,
   fun _ p' _ hwf henc =>
     ⟨_, undoset_roundtrip hwf henc, undoset_beq_refl p'⟩,
   fun _ p' _ hwf henc =>
     ⟨_, cleanupset_roundtrip hwf henc, cleanupset_beq_refl p'⟩,
   fun _ p' _ hwf henc => ⟨_, ping_roundtrip hwf henc, ping_beq_refl p'⟩,
   fun _ p' _ hwf henc =>
     ⟨_, addcaps_roundtrip hwf henc, addcaps_beq_decoded p'⟩,
   fun _ p' _ hwf henc =>
     ⟨_, rmcaps_roundtrip hwf henc, rmcaps_beq_decoded p'⟩,
   fun _ p' _ hwf henc =>
     ⟨_, response_roundtrip hwf henc, response_beq_decoded p'⟩,
   fun _ _ _ hh h1 h2 h3 hix hvb henc =>
     Response.roundtrip_vb_none hh h1 h2 h3 hix hvb henc⟩

/-- Witness for C4: the Close clause at a concrete Close PDU. -/
theorem spec_C4_witness :
    ∃ q, Close.from_bytes closeDemoBytes = some q ∧
      Close.beq q closeDemoStamped = true :=
  spec_C4.2.1 closeDemo closeDemoStamped closeDemoBytes (by decide) (by decide)

/-- Counterexample to C4 as stated: a Response with `vb = None` round-trips
to one with `vb = Some(empty)`, which the source's `==` distinguishes. -/
theorem spec_C4_counterexample :
    Response.to_bytes c4resp = some (c4stamped, c1buf) ∧
    Response.from_bytes c1buf = some { c4stamped with vb := some ⟨[]⟩ } ∧
    Response.beq { c4stamped with vb := some ⟨[]⟩ } c4stamped = false := by
  refine ⟨by decide, ?_, by decide⟩
  exact c1buf_decodes

/-- C5: every decoder is a total function into an option/result — malformed
input yields an error value, never a panic (panics exist only on the encode
path, modelled as `none` of `ID.to_bytes`).  Truncating below the bytes a
decoder actually reads always errors (any buffer under 20 bytes for every
PDU; any strict prefix for an encoded ID) — but decoders ignore trailing
bytes they never read, so a truncation that only cuts ignored bytes still
succeeds: Close reads 21 of its 24 encoded bytes, and its encoding truncated
to 21, 22 or 23 bytes decodes successfully. -/
theorem spec_C5 :
    (∀ b : Bytes, b.length < HEADER_SIZE →
      Open.from_bytes b = none ∧ Close.from_bytes b = none ∧
      Register.from_bytes b = none ∧ Unregister.from_bytes b = none ∧
      Get.from_bytes b = none ∧ GetNext.from_bytes b = none ∧
      GetBulk.from_bytes b = none ∧ TestSet.from_bytes b = none ∧
      Notify.from_bytes b = none ∧ IndexAllocate.from_bytes b = none ∧
      IndexDeallocate.from_bytes b = none ∧ CommitSet.from_bytes b = none ∧
      UndoSet.from_bytes b = none ∧ CleanupSet.from_bytes b = none ∧
      Ping.from_bytes b = none ∧ AddAgentCaps.from_bytes b = none ∧
      RemoveAgentCaps.from_bytes b = none ∧ Response.from_bytes b = none) ∧
    (∀ (id : ID) (bo : ByteOrder) (out : Bytes) (k : Nat),
      id.to_bytes bo = some out → k < out.length →
      ID.from_bytes (out.take k) bo = none) ∧
    Close.to_bytes closeDemo = some (closeDemoStamped, closeDemoBytes) ∧
    (∀ k, k < 21 → Close.from_bytes (closeDemoBytes.take k) = none) ∧
    Close.from_bytes (closeDemoBytes.take 21) = some closeDemoStamped := by
  refine ⟨?_, fun _ _ _ _ h hk => id_from_bytes_take_none h hk,
    by decide, by decide, by decide⟩
  intro b hb
  have hh := header_from_bytes_short hb
  refine ⟨?_, ?_, ?_, ?_, ?_, ?_, ?_, ?_, ?_, ?_, ?_, ?_, ?_, ?_, ?_, ?_,
    ?_, ?_⟩ <;>
    first
      | (unfold Open.from_bytes; rw [hh]; rfl)
      | (unfold Close.from_bytes; rw [hh]; rfl)
      | (unfold Register.from_bytes; rw [hh]; rfl)
      | (unfold Unregister.from_bytes; rw [hh]; rfl)
      | (unfold Get.from_bytes; rw [hh]; rfl)
      | (unfold GetNext.from_bytes; rw [hh]; rfl)
      | (unfold GetBulk.from_bytes; rw [hh]; rfl)
      | (unfold TestSet.from_bytes; rw [hh]; rfl)
      | (unfold Notify.from_bytes; rw [hh]; rfl)
      | (unfold IndexAllocate.from_bytes; rw [hh]; rfl)
      | (unfold IndexDeallocate.from_bytes; rw [hh]; rfl)
      | (unfold CommitSet.from_bytes; rw [hh]; rfl)
      | (unfold UndoSet.from_bytes; rw [hh]; rfl)
      | (unfold CleanupSet.from_bytes; rw [hh]; rfl)
      | (unfold Ping.from_bytes; rw [hh]; rfl)
      | (unfold AddAgentCaps.from_bytes; rw [hh]; rfl)
      | (unfold RemoveAgentCaps.from_bytes; rw [hh]; rfl)
      | (unfold Response.from_bytes; rw [hh]; rfl)

/-- Witness for C5: the header-short clause at a concrete 3-byte buffer. -/
theorem spec_C5_witness : Open.from_bytes [1, 2, 3] = none :=
  (spec_C5.1 [1, 2, 3] (by decide)).1

/-- Counterexample to C5 as stated: the 24-byte Close encoding truncated at
offset 21 — before the structure is complete — still decodes successfully
(the three cut bytes are reserved and never read). -/
theorem spec_C5_counterexample :
    Close.from_bytes (closeDemoBytes.take 21) = some closeDemoStamped ∧
    (closeDemoBytes.take 21).length < closeDemoBytes.length := by
  exact ⟨by decide, by decide⟩

/-- C6: a compact wire form (`prefix = p ≠ 0`, sub-ids `s…`) and the explicit
wire form (`prefix = 0`, sub-ids `1.3.6.1.p.s…`) decode to source-`==`-equal
IDs (they differ only in the stored wire count, which `==` ignores); and the
encoder always re-emits the explicit form — count byte, prefix byte 0,
include byte, reserved byte, then the full sub-id list. -/
theorem spec_C6 :
    (∀ (l : List Nat) (pfx incl z : Nat) (rest : Bytes) (bo : ByteOrder),
      (∀ s ∈ l, s < 2 ^ 32) → pfx ≠ 0 → pfx < 256 →
      ID.from_bytes (l.length :: pfx :: incl :: z ::
          (subid_bytes l bo ++ rest)) bo
        = some ⟨l.length, incl, 1 :: 3 :: 6 :: 1 :: pfx :: l⟩ ∧
      ID.from_bytes ((l.length + 5) :: 0 :: incl :: z ::
          (subid_bytes (1 :: 3 :: 6 :: 1 :: pfx :: l) bo ++ rest)) bo
        = some ⟨l.length + 5, incl, 1 :: 3 :: 6 :: 1 :: pfx :: l⟩ ∧
      ID.beq ⟨l.length, incl, 1 :: 3 :: 6 :: 1 :: pfx :: l⟩
        ⟨l.length + 5, incl, 1 :: 3 :: 6 :: 1 :: pfx :: l⟩ = true) ∧
    (∀ (id : ID) (bo : ByteOrder), id.sub_ids.length ≤ 255 →
      id.to_bytes bo = some (id.sub_ids.length :: 0 :: id.incl :: 0 ::
        subid_bytes id.sub_ids bo)) := by
  constructor
  · intro l pfx incl z rest bo hv hp hp256
    refine ⟨?_, ?_, by simp [ID.beq]⟩
    · rw [ID.from_bytes_wire l pfx incl z rest bo hv]
      unfold normalize
      rw [if_pos hp]
      rfl
    · have hv5 : ∀ s ∈ 1 :: 3 :: 6 :: 1 :: pfx :: l, s < 2 ^ 32 := by
        intro s hs
        simp only [List.mem_cons] at hs
        rcases hs with rfl | rfl | rfl | rfl | rfl | hs
        · decide
        · decide
        · decide
        · decide
        · omega
        · exact hv s hs
      have := ID.from_bytes_wire (1 :: 3 :: 6 :: 1 :: pfx :: l) 0 incl z
        rest bo hv5
      rw [show (1 :: 3 :: 6 :: 1 :: pfx :: l).length = l.length + 5 by
        simp] at this
      rw [this, normalize_zero]
  · intro id bo h
    rw [id_to_bytes_eq h bo]

/-- Witness for C6: the compact form `c3buf` and the matching explicit form
decode to `==`-equal IDs. -/
theorem spec_C6_witness :
    ID.from_bytes c3buf ByteOrder.LittleEndian = some c3id ∧
    ID.from_bytes [6, 0, 0, 0, 1, 0, 0, 0, 3, 0, 0, 0, 6, 0, 0, 0,
        1, 0, 0, 0, 2, 0, 0, 0, 5, 0, 0, 0] ByteOrder.LittleEndian
      = some ⟨6, 0, [1, 3, 6, 1, 2, 5]⟩ ∧
    ID.beq c3id ⟨6, 0, [1, 3, 6, 1, 2, 5]⟩ = true :=
  (spec_C6.1 [5] 2 0 0 [] ByteOrder.LittleEndian (by decide) (by decide)
    (by decide))

/-- C7: decode dispatch is closed — VarBind value decoding succeeds only for
the 13 known tags and rejects every other tag; PDU type bytes succeed exactly
on 1..18, Close reasons exactly on 1..6, Response error codes exactly on
`{0} ∪ {256..268}`; no decoder maps an unknown code to a default variant. -/
theorem spec_C7 :
    (∀ (ty : Nat) (b : Bytes) (bo : ByteOrder),
      ¬(ty = 2 ∨ ty = 4 ∨ ty = 5 ∨ ty = 6 ∨ ty = 64 ∨ ty = 65 ∨ ty = 66 ∨
        ty = 67 ∨ ty = 68 ∨ ty = 70 ∨ ty = 128 ∨ ty = 129 ∨ ty = 130) →
      Value.from_tag ty b bo = none) ∧
    (∀ (ty : Nat) (b : Bytes) (bo : ByteOrder) (v : Value),
      Value.from_tag ty b bo = some v →
      (ty = 2 ∨ ty = 4 ∨ ty = 5 ∨ ty = 6 ∨ ty = 64 ∨ ty = 65 ∨ ty = 66 ∨
        ty = 67 ∨ ty = 68 ∨ ty = 70 ∨ ty = 128 ∨ ty = 129 ∨ ty = 130)) ∧
    (∀ b : Nat, (PType.from_byte b).isSome = true ↔ (1 ≤ b ∧ b ≤ 18)) ∧
    (∀ b : Nat, (CloseReason.from_byte b).isSome = true ↔ (1 ≤ b ∧ b ≤ 6)) ∧
    (∀ v : Nat, (ResError.from_code v).isSome = true ↔
      (v = 0 ∨ (256 ≤ v ∧ v ≤ 268))) :=
  ⟨fun _ b bo h => Value.from_tag_unknown h b bo,
   fun _ _ _ _ h => Value.from_tag_known h,
   ptype_from_byte_isSome,
   creason_from_byte_isSome,
   ResError.from_code_isSome⟩

/-- Witness for C7: tag 3 (not a known code) is rejected whatever the
payload. -/
theorem spec_C7_witness :
    Value.from_tag 3 [0, 0, 0, 0] ByteOrder.LittleEndian = none :=
  spec_C7.1 3 [0, 0, 0, 0] ByteOrder.LittleEndian (by decide)

/-- C8: a buffer built by concatenating N encoded Search Ranges (resp.
Variable Bindings) decodes back to exactly N elements, the loop stopping
precisely at buffer exhaustion; and appending a nonempty strict prefix of
one more encoded element makes the whole list decode fail rather than
silently dropping the dangling element. -/
theorem spec_C8 :
    (∀ (l : List SearchRange) (bo : ByteOrder) (out : Bytes),
      (∀ sr ∈ l, sr.wf) → SearchRangeList.to_bytes ⟨l⟩ bo = some out →
      ∃ l2, SearchRangeList.from_bytes out bo = some ⟨l2⟩ ∧
        l2.length = l.length) ∧
    (∀ (l : List VarBind) (bo : ByteOrder) (out : Bytes),
      (∀ vb ∈ l, vb.wf) → VarBindList.to_bytes ⟨l⟩ bo = some out →
      ∃ l2, VarBindList.from_bytes out bo = some ⟨l2⟩ ∧
        l2.length = l.length) ∧
    (∀ (l : List SearchRange) (bo : ByteOrder) (out : Bytes)
      (sr : SearchRange) (fout : Bytes) (k : Nat),
      (∀ x ∈ l, x.wf) → SearchRangeList.to_bytes ⟨l⟩ bo = some out →
      sr.wf → sr.to_bytes bo = some fout → 0 < k → k < fout.length →
      SearchRangeList.from_bytes (out ++ fout.take k) bo = none) ∧
    (∀ (l : List VarBind) (bo : ByteOrder) (out : Bytes)
      (vb : VarBind) (fout : Bytes) (k : Nat),
      (∀ x ∈ l, x.wf) → VarBindList.to_bytes ⟨l⟩ bo = some out →
      vb.wf → vb.to_bytes bo = some fout → 0 < k → k < fout.length →
      VarBindList.from_bytes (out ++ fout.take k) bo = none) :=
  ⟨fun l _ _ hwf hout =>
    ⟨l.map SearchRange.renorm, srl_parse_concat hwf hout,
      List.length_map _ _⟩,
   fun l _ _ hwf hout =>
    ⟨l.map VarBind.renorm, vbl_parse_concat hwf hout,
      List.length_map _ _⟩,
   fun _ _ _ _ _ _ hwf hout hwf2 hout2 hk0 hk =>
    srl_parse_concat_partial hwf hout hwf2 hout2 hk0 hk,
   fun _ _ _ _ _ _ hwf hout hwf2 hout2 hk0 hk =>
    vbl_parse_concat_partial hwf hout hwf2 hout2 hk0 hk⟩

/-- Witness for C8: a three-byte prefix of one encoded SearchRange appended
to the empty list fails to decode. -/
theorem spec_C8_witness :
    SearchRangeList.from_bytes (([] : Bytes) ++ srDemoBytes.take 3)
      ByteOrder.LittleEndian = none :=
  spec_C8.2.2.1 [] ByteOrder.LittleEndian [] srDemo srDemoBytes 3
    (by simp) rfl (by decide) (by decide) (by decide) (by decide)

set_option maxRecDepth 4000 in
/-- C9: the decode side accepts up to 255 wire sub-ids and the compact prefix
then *adds five more*, so a decodable buffer can yield an ID whose
`sub_ids.len()` exceeds the `u8` count field — and `to_bytes` on that ID
panics (`u8::try_from(...).expect(...)`, modelled as `none`) instead of
returning an error: decode-accepted data is not encode-safe. -/
theorem spec_C9 :
    ID.from_bytes c9buf ByteOrder.LittleEndian = some c9id ∧
    c9id.sub_ids.length = 256 ∧
    c9id.to_bytes ByteOrder.LittleEndian = none := by
  refine ⟨?_, by decide, ?_⟩
  · unfold c9buf
    rw [show (List.replicate 1004 0 : Bytes)
        = subid_bytes (List.replicate 251 0) ByteOrder.LittleEndian ++ [] by
      rw [subid_bytes_replicate_zero, List.append_nil]]
    have hv : ∀ s ∈ List.replicate 251 (0 : Nat), s < 2 ^ 32 := by
      intro s hs
      rw [List.eq_of_mem_replicate hs]
      decide
    have := ID.from_bytes_wire (List.replicate 251 0) 1 0 0 []
      ByteOrder.LittleEndian hv
    rw [show (List.replicate 251 (0 : Nat)).length = 251 from by decide]
      at this
    rw [this]
    unfold normalize c9id
    rw [if_pos (by decide)]
    rfl
  · unfold ID.to_bytes
    rw [if_neg (by decide)]

/-- C10: every PDU decoder delimits its payload from the slice length and the
nested components' self-reported sizes alone; the header's decoded
`payload_length` is stored in the result but never consulted, so two buffers
differing only in the four `payload_length` bytes (offsets 16..20) decode to
results that differ only in that stored header field — for all 18 PDU
types. -/
theorem spec_C10 :
    (∀ pre16 pl pl2 rest : Bytes, pre16.length = 16 → pl.length = 4 →
      pl2.length = 4 →
      (Open.from_bytes (pre16 ++ pl ++ rest)).map Open.strip
        = (Open.from_bytes (pre16 ++ pl2 ++ rest)).map Open.strip) ∧
    (∀ pre16 pl pl2 rest : Bytes, pre16.length = 16 → pl.length = 4 →
      pl2.length = 4 →
      (Close.from_bytes (pre16 ++ pl ++ rest)).map Close.strip
        = (Close.from_bytes (pre16 ++ pl2 ++ rest)).map Close.strip) ∧
    (∀ pre16 pl pl2 rest : Bytes, pre16.length = 16 → pl.length = 4 →
      pl2.length = 4 →
      (Register.from_bytes (pre16 ++ pl ++ rest)).map Register.strip
        = (Register.from_bytes (pre16 ++ pl2 ++ rest)).map Register.strip) ∧
    (∀ pre16 pl pl2 rest : Bytes, pre16.length = 16 → pl.length = 4 →
      pl2.length = 4 →
      (Unregister.from_bytes (pre16 ++ pl ++ rest)).map Unregister.strip
        = (Unregister.from_bytes (pre16 ++ pl2 ++ rest)).map Unregister.strip) ∧
    (∀ pre16 pl pl2 rest : Bytes, pre16.length = 16 → pl.length = 4 →
      pl2.length = 4 →
      (Get.from_bytes (pre16 ++ pl ++ rest)).map Get.strip
        = (Get.from_bytes (pre16 ++ pl2 ++ rest)).map Get.strip) ∧
    (∀ pre16 pl pl2 rest : Bytes, pre16.length = 16 → pl.length = 4 →
      pl2.length = 4 →
      (GetNext.from_bytes (pre16 ++ pl ++ rest)).map GetNext.strip
        = (GetNext.from_bytes (pre16 ++ pl2 ++ rest)).map GetNext.strip) ∧
    (∀ pre16 pl pl2 rest : Bytes, pre16.length = 16 → pl.length = 4 →
      pl2.length = 4 →
      (GetBulk.from_bytes (pre16 ++ pl ++ rest)).map GetBulk.strip
        = (GetBulk.from_bytes (pre16 ++ pl2 ++ rest)).map GetBulk.strip) ∧
    (∀ pre16 pl pl2 rest : Bytes, pre16.length = 16 → pl.length = 4 →
      pl2.length = 4 →
      (TestSet.from_bytes (pre16 ++ pl ++ rest)).map TestSet.strip
        = (TestSet.from_bytes (pre16 ++ pl2 ++ rest)).map TestSet.strip) ∧
    (∀ pre16 pl pl2 rest : Bytes, pre16.length = 16 → pl.length = 4 →
      pl2.length = 4 →
      (Notify.from_bytes (pre16 ++ pl ++ rest)).map Notify.strip
        = (Notify.from_bytes (pre16 ++ pl2 ++ rest)).map Notify.strip) ∧
    (∀ pre16 pl pl2 rest : Bytes, pre16.length = 16 → pl.length = 4 →
      pl2.length = 4 →
      (IndexAllocate.from_bytes (pre16 ++ pl ++ rest)).map IndexAllocate.strip
        = (IndexAllocate.from_bytes (pre16 ++ pl2 ++ rest)).map IndexAllocate.strip) ∧
    (∀ pre16 pl pl2 rest : Bytes, pre16.length = 16 → pl.length = 4 →
      pl2.length = 4 →
      (IndexDeallocate.from_bytes (pre16 ++ pl ++ rest)).map IndexDeallocate.strip
        = (IndexDeallocate.from_bytes (pre16 ++ pl2 ++ rest)).map IndexDeallocate.strip) ∧
    (∀ pre16 pl pl2 rest : Bytes, pre16.length = 16 → pl.length = 4 →
      pl2.length = 4 →
      (CommitSet.from_bytes (pre16 ++ pl ++ rest)).map CommitSet.strip
        = (CommitSet.from_bytes (pre16 ++ pl2 ++ rest)).map CommitSet.strip) ∧
    (∀ pre16 pl pl2 rest : Bytes, pre16.length = 16 → pl.length = 4 →
      pl2.length = 4 →
      (UndoSet.from_bytes (pre16 ++ pl ++ rest)).map UndoSet.strip
        = (UndoSet.from_bytes (pre16 ++ pl2 ++ rest)).map UndoSet.strip) ∧
    (∀ pre16 pl pl2 rest : Bytes, pre16.length = 16 → pl.length = 4 →
      pl2.length = 4 →
      (CleanupSet.from_bytes (pre16 ++ pl ++ rest)).map CleanupSet.strip
        = (CleanupSet.from_bytes (pre16 ++ pl2 ++ rest)).map CleanupSet.strip) ∧
    (∀ pre16 pl pl2 rest : Bytes, pre16.length = 16 → pl.length = 4 →
      pl2.length = 4 →
      (Ping.from_bytes (pre16 ++ pl ++ rest)).map Ping.strip
        = (Ping.from_bytes (pre16 ++ pl2 ++ rest)).map Ping.strip) ∧
    (∀ pre16 pl pl2 rest : Bytes, pre16.length = 16 → pl.length = 4 →
      pl2.length = 4 →
      (AddAgentCaps.from_bytes (pre16 ++ pl ++ rest)).map AddAgentCaps.strip
        = (AddAgentCaps.from_bytes (pre16 ++ pl2 ++ rest)).map AddAgentCaps.strip) ∧
    (∀ pre16 pl pl2 rest : Bytes, pre16.length = 16 → pl.length = 4 →
      pl2.length = 4 →
      (RemoveAgentCaps.from_bytes (pre16 ++ pl ++ rest)).map RemoveAgentCaps.strip
        = (RemoveAgentCaps.from_bytes (pre16 ++ pl2 ++ rest)).map RemoveAgentCaps.strip) ∧
    (∀ pre16 pl pl2 rest : Bytes, pre16.length = 16 → pl.length = 4 →
      pl2.length = 4 →
      (Response.from_bytes (pre16 ++ pl ++ rest)).map Response.strip
        = (Response.from_bytes (pre16 ++ pl2 ++ rest)).map Response.strip) :=
  ⟨fun _ _ _ _ h16 h4 h42 => open_plen_irrelevant h16 h4 h42,
fun _ _ _ _ h16 h4 h42 => close_plen_irrelevant h16 h4 h42,
fun _ _ _ _ h16 h4 h42 => register_plen_irrelevant h16 h4 h42,
fun _ _ _ _ h16 h4 h42 => unregister_plen_irrelevant h16 h4 h42,
fun _ _ _ _ h16 h4 h42 => get_plen_irrelevant h16 h4 h42,
fun _ _ _ _ h16 h4 h42 => getnext_plen_irrelevant h16 h4 h42,
fun _ _ _ _ h16 h4 h42 => getbulk_plen_irrelevant h16 h4 h42,
fun _ _ _ _ h16 h4 h42 => testset_plen_irrelevant h16 h4 h42,
fun _ _ _ _ h16 h4 h42 => notify_plen_irrelevant h16 h4 h42,
fun _ _ _ _ h16 h4 h42 => ialloc_plen_irrelevant h16 h4 h42,
fun _ _ _ _ h16 h4 h42 => idealloc_plen_irrelevant h16 h4 h42,
fun _ _ _ _ h16 h4 h42 => commitset_plen_irrelevant h16 h4 h42,
fun _ _ _ _ h16 h4 h42 => undoset_plen_irrelevant h16 h4 h42,
fun _ _ _ _ h16 h4 h42 => cleanupset_plen_irrelevant h16 h4 h42,
fun _ _ _ _ h16 h4 h42 => ping_plen_irrelevant h16 h4 h42,
fun _ _ _ _ h16 h4 h42 => addcaps_plen_irrelevant h16 h4 h42,
fun _ _ _ _ h16 h4 h42 => rmcaps_plen_irrelevant h16 h4 h42,
fun _ _ _ _ h16 h4 h42 => response_plen_irrelevant h16 h4 h42⟩

/-- Witness for C10: the Close clause on the demonstration buffer with its
`payload_length` bytes rewritten from 4 to 99. -/
theorem spec_C10_witness :
    Option.map Close.strip
        (Close.from_bytes
          (closeDemoBytes.take 16 ++ [4, 0, 0, 0] ++ [5, 0, 0, 0]))
      = Option.map Close.strip
        (Close.from_bytes
          (closeDemoBytes.take 16 ++ [99, 0, 0, 0] ++ [5, 0, 0, 0])) :=
  spec_C10.2.1 (closeDemoBytes.take 16) [4, 0, 0, 0] [99, 0, 0, 0] [5, 0, 0, 0]
    (by decide) (by decide) (by decide)

end AgentX
